import Mathlib

/-!
# X4Term: screen buffer and VT parser

A shallow embedding of `lib/TermBuffer` and `lib/VtParser` of the X4Term
firmware, followed by theorems about it.

Conventions of the embedding

* C++ `int` values are `Int`; where an arithmetic result can leave the 32-bit
  range it is folded back with `wrapInt` (two's complement, what the target
  does).  `uint8_t`, `uint16_t` and `uint32_t` values are `Nat`, reduced modulo
  `2^8`, `2^16`, `2^32` where the source converts.
* `TermCell _cells[TERM_ROWS][TERM_COLS]` is one contiguous array: the grid is
  a function of the flat index `row * TERM_COLS + col`.  A store whose flat
  index is outside `[0, TERM_ROWS * TERM_COLS)` has no defined target in the
  source and leaves the grid as it is; a read there gives whatever the
  function holds.
* `for` loops are folds over the loop counter (`forUp`, `forDown`).
* `VtParser` holds a reference to the buffer; here the buffer is a field of the
  parser state.  Bytes printed to `Serial` are appended to `serialOut`.
-/

namespace X4Term

/-! ## term_config.h -/

def DISPLAY_W : Int := 800
def DISPLAY_H : Int := 480
def TERM_FONT_W : Int := 10
def TERM_FONT_H : Int := 20
def TERM_OFFSET_X : Int := 10
def TERM_COLS : Int := (DISPLAY_W - TERM_OFFSET_X * 2) / TERM_FONT_W
def TERM_ROWS : Int := DISPLAY_H / TERM_FONT_H
def DIRTY_ROWS_PARTIAL_MAX : Int := 5
def FULL_REFRESH_INTERVAL : Int := 20
def TAB_WIDTH : Int := 8

/-- Two's complement reduction of an integer to the range of a 32-bit `int`. -/
def wrapInt (x : Int) : Int := (x + 2147483648) % 4294967296 - 2147483648

/-! ## Loops -/

/-- Runs `f i`, `f (i+1)`, ... for `k` consecutive counter values. -/
def loopUp {σ : Type} (f : Int → σ → σ) : Nat → Int → σ → σ
  | 0, _, s => s
  | k + 1, i, s => loopUp f k (i + 1) (f i s)

/-- The loop `for (i = lo; i < hi; i++) s = f i s`. -/
def forUp {σ : Type} (lo hi : Int) (f : Int → σ → σ) (s : σ) : σ :=
  loopUp f (hi - lo).toNat lo s

/-- Runs `f i`, `f (i-1)`, ... for `k` consecutive counter values. -/
def loopDown {σ : Type} (f : Int → σ → σ) : Nat → Int → σ → σ
  | 0, _, s => s
  | k + 1, i, s => loopDown f k (i - 1) (f i s)

/-- The loop `for (i = hi; i >= lo; i--) s = f i s`. -/
def forDown {σ : Type} (hi lo : Int) (f : Int → σ → σ) (s : σ) : σ :=
  loopDown f (hi - lo + 1).toNat hi s

/-! ## TermCell.h -/

structure TermCell where
  codepoint : Nat := 32
  attrs : Nat := 0
  bgBright : Nat := 255
deriving DecidableEq

namespace TermCell

def ATTR_BOLD : Nat := 1
def ATTR_INVERSE : Nat := 2
def ATTR_UNDERLINE : Nat := 4

/-- The cell after `clear()`: space, no attributes, white background. -/
def blank : TermCell := { codepoint := 32, attrs := 0, bgBright := 255 }

def clear (_c : TermCell) : TermCell := blank

end TermCell

/-! ## The cell grid -/

/-- A `TermCell[TERM_ROWS][TERM_COLS]` array, by flat index. -/
abbrev Grid := Int → TermCell

/-- Flat index of `_cells[row][col]`. -/
def cellIdx (row col : Int) : Int := row * TERM_COLS + col

/-- The flat index lies inside the array. -/
def inGrid (i : Int) : Prop := 0 ≤ i ∧ i < TERM_ROWS * TERM_COLS

instance (i : Int) : Decidable (inGrid i) := by unfold inGrid; infer_instance

/-- Store of one cell.  Only a store inside the array is represented: at a flat index outside
it the source writes the memory next to `_cells` (first `_altCells`, then the members declared
after it), which this type does not hold, and the store is left out.  Statements that depend
on a store keep its index inside the array. -/
def Grid.set (g : Grid) (i : Int) (c : TermCell) : Grid :=
  fun j => if j = i ∧ inGrid i then c else g j

/-- The copy `memcpy(g[dst], g[src], sizeof(TermCell) * TERM_COLS)`.  As in `Grid.set`, only
the part of the destination inside the array is represented. -/
def Grid.copyRow (g : Grid) (dst src : Int) : Grid :=
  fun j =>
    if cellIdx dst 0 ≤ j ∧ j < cellIdx dst TERM_COLS ∧ inGrid j then
      g (j - cellIdx dst 0 + cellIdx src 0)
    else g j

/-- The copy `memcpy(dst, src, sizeof(_cells))` of a whole grid. -/
def Grid.copyAll (dst src : Grid) : Grid :=
  fun j => if inGrid j then src j else dst j

/-! ## TermBuffer -/

structure TermBuffer where
  cells : Grid := fun _ => {}
  altCells : Grid := fun _ => {}
  curRow : Int := 0
  curCol : Int := 0
  savedRow : Int := 0
  savedCol : Int := 0
  altSavedRow : Int := 0
  altSavedCol : Int := 0
  scrollTop : Int := 0
  scrollBottom : Int := TERM_ROWS - 1
  attrs : Nat := 0
  bgBright : Nat := 255
  dirtyRows : Nat := 0
  wrapPending : Bool := false
  altActive : Bool := false

namespace TermBuffer

def cellAt (b : TermBuffer) (row col : Int) : TermCell := b.cells (cellIdx row col)

def cursorRow (b : TermBuffer) : Int := b.curRow
def cursorCol (b : TermBuffer) : Int := b.curCol
def currentAttrs (b : TermBuffer) : Nat := b.attrs
def isAltScreen (b : TermBuffer) : Bool := b.altActive

def setBgBright (b : TermBuffer) (v : Nat) : TermBuffer := { b with bgBright := v % 256 }

def clearDirty (b : TermBuffer) : TermBuffer := { b with dirtyRows := 0 }

/-- The update `_dirtyRows |= (1u << row)`; a shift count outside `[0, 31]` is
undefined in the source and leaves the mask as it is. -/
def markRowDirty (b : TermBuffer) (row : Int) : TermBuffer :=
  if 0 ≤ row ∧ row < 32 then
    { b with dirtyRows := (b.dirtyRows ||| (1 <<< row.toNat)) % 4294967296 }
  else b

def markAllDirty (b : TermBuffer) : TermBuffer :=
  { b with dirtyRows := (1 <<< TERM_ROWS.toNat) - 1 }

def clampCursor (b : TermBuffer) : TermBuffer :=
  let b := if b.curRow < 0 then { b with curRow := 0 } else b
  let b := if b.curRow ≥ TERM_ROWS then { b with curRow := TERM_ROWS - 1 } else b
  let b := if b.curCol < 0 then { b with curCol := 0 } else b
  let b := if b.curCol ≥ TERM_COLS then { b with curCol := TERM_COLS - 1 } else b
  b

def clearCell (b : TermBuffer) (row col : Int) : TermBuffer :=
  { b with cells := b.cells.set (cellIdx row col) (b.cells (cellIdx row col)).clear }

def clearRow (b : TermBuffer) (row : Int) : TermBuffer :=
  markRowDirty (forUp 0 TERM_COLS (fun c b => clearCell b row c) b) row

/-- The constructor: default member initialisers, then every row cleared and
all rows marked dirty. -/
def new : TermBuffer :=
  markAllDirty (forUp 0 TERM_ROWS (fun r b => clearRow b r) {})

def setCursor (b : TermBuffer) (row col : Int) : TermBuffer :=
  clampCursor { b with curRow := row, curCol := col, wrapPending := false }

def moveCursorUp (b : TermBuffer) (n : Int) : TermBuffer :=
  let b := { b with curRow := wrapInt (b.curRow - n) }
  let b := if b.curRow < 0 then { b with curRow := 0 } else b
  { b with wrapPending := false }

def moveCursorDown (b : TermBuffer) (n : Int) : TermBuffer :=
  let b := { b with curRow := wrapInt (b.curRow + n) }
  let b := if b.curRow ≥ TERM_ROWS then { b with curRow := TERM_ROWS - 1 } else b
  { b with wrapPending := false }

def moveCursorForward (b : TermBuffer) (n : Int) : TermBuffer :=
  let b := { b with curCol := wrapInt (b.curCol + n) }
  let b := if b.curCol ≥ TERM_COLS then { b with curCol := TERM_COLS - 1 } else b
  { b with wrapPending := false }

def moveCursorBack (b : TermBuffer) (n : Int) : TermBuffer :=
  let b := { b with curCol := wrapInt (b.curCol - n) }
  let b := if b.curCol < 0 then { b with curCol := 0 } else b
  { b with wrapPending := false }

def carriageReturn (b : TermBuffer) : TermBuffer :=
  { b with curCol := 0, wrapPending := false }

def scrollRegionUp (b : TermBuffer) (top bottom n : Int) : TermBuffer :=
  if n ≤ 0 then b
  else
    let n := if n > bottom - top + 1 then bottom - top + 1 else n
    let b := forUp top (bottom - n + 1)
      (fun r b => markRowDirty { b with cells := b.cells.copyRow r (r + n) } r) b
    forUp (bottom - n + 1) (bottom + 1) (fun r b => clearRow b r) b

def scrollRegionDown (b : TermBuffer) (top bottom n : Int) : TermBuffer :=
  if n ≤ 0 then b
  else
    let n := if n > bottom - top + 1 then bottom - top + 1 else n
    let b := forDown bottom (top + n)
      (fun r b => markRowDirty { b with cells := b.cells.copyRow r (r - n) } r) b
    forUp top (top + n) (fun r b => clearRow b r) b

def scrollUp (b : TermBuffer) (n : Int) : TermBuffer :=
  scrollRegionUp b b.scrollTop b.scrollBottom n

def scrollDown (b : TermBuffer) (n : Int) : TermBuffer :=
  scrollRegionDown b b.scrollTop b.scrollBottom n

def lineFeed (b : TermBuffer) : TermBuffer :=
  if b.curRow = b.scrollBottom then scrollUp b 1
  else if b.curRow < TERM_ROWS - 1 then { b with curRow := b.curRow + 1 }
  else b

def reverseIndex (b : TermBuffer) : TermBuffer :=
  if b.curRow = b.scrollTop then scrollDown b 1
  else if b.curRow > 0 then { b with curRow := b.curRow - 1 }
  else b

/-- The argument is a `uint16_t`. -/
def putChar (b : TermBuffer) (cp : Nat) : TermBuffer :=
  let b := if b.wrapPending then lineFeed { b with wrapPending := false, curCol := 0 } else b
  let b := { b with cells := b.cells.set (cellIdx b.curRow b.curCol)
                      { codepoint := cp % 65536, attrs := b.attrs, bgBright := b.bgBright } }
  let b := markRowDirty b b.curRow
  let b := { b with curCol := wrapInt (b.curCol + 1) }
  if b.curCol ≥ TERM_COLS then { b with curCol := TERM_COLS - 1, wrapPending := true } else b

def tab (b : TermBuffer) : TermBuffer :=
  let nextStop := wrapInt ((Int.tdiv b.curCol TAB_WIDTH + 1) * TAB_WIDTH)
  let nextStop := if nextStop ≥ TERM_COLS then TERM_COLS - 1 else nextStop
  { b with curCol := nextStop, wrapPending := false }

def backspace (b : TermBuffer) : TermBuffer :=
  let b := if b.curCol > 0 then { b with curCol := b.curCol - 1 } else b
  { b with wrapPending := false }

def eraseLine (b : TermBuffer) (mode : Int) : TermBuffer :=
  let b := markRowDirty b b.curRow
  if mode = 0 then forUp b.curCol TERM_COLS (fun c b => clearCell b b.curRow c) b
  else if mode = 1 then forUp 0 (b.curCol + 1) (fun c b => clearCell b b.curRow c) b
  else if mode = 2 then clearRow b b.curRow
  else b

def eraseDisplay (b : TermBuffer) (mode : Int) : TermBuffer :=
  if mode = 0 then
    let b := eraseLine b 0
    forUp (wrapInt (b.curRow + 1)) TERM_ROWS (fun r b => clearRow b r) b
  else if mode = 1 then
    let b := forUp 0 b.curRow (fun r b => clearRow b r) b
    eraseLine b 1
  else if mode = 2 then forUp 0 TERM_ROWS (fun r b => clearRow b r) b
  else b

def setScrollRegion (b : TermBuffer) (top bottom : Int) : TermBuffer :=
  let top := if top < 0 then 0 else top
  let bottom := if bottom ≥ TERM_ROWS then TERM_ROWS - 1 else bottom
  if top ≥ bottom then b
  else { b with scrollTop := top, scrollBottom := bottom, curRow := 0, curCol := 0 }

def insertLines (b : TermBuffer) (n : Int) : TermBuffer :=
  if b.curRow < b.scrollTop ∨ b.curRow > b.scrollBottom then b
  else scrollRegionDown b b.curRow b.scrollBottom n

def deleteLines (b : TermBuffer) (n : Int) : TermBuffer :=
  if b.curRow < b.scrollTop ∨ b.curRow > b.scrollBottom then b
  else scrollRegionUp b b.curRow b.scrollBottom n

def insertChars (b : TermBuffer) (n : Int) : TermBuffer :=
  let b := markRowDirty b b.curRow
  let b := forDown (TERM_COLS - 1) (wrapInt (b.curCol + n))
    (fun c b => { b with cells := b.cells.set (cellIdx b.curRow c)
                            (b.cells (cellIdx b.curRow (wrapInt (c - n)))) }) b
  forUp b.curCol (min (wrapInt (b.curCol + n)) TERM_COLS) (fun c b => clearCell b b.curRow c) b

def deleteChars (b : TermBuffer) (n : Int) : TermBuffer :=
  let b := markRowDirty b b.curRow
  let b := forUp b.curCol (wrapInt (TERM_COLS - n))
    (fun c b => { b with cells := b.cells.set (cellIdx b.curRow c)
                            (b.cells (cellIdx b.curRow (wrapInt (c + n)))) }) b
  forUp (wrapInt (TERM_COLS - n)) TERM_COLS (fun c b => clearCell b b.curRow c) b

def saveCursor (b : TermBuffer) : TermBuffer :=
  { b with savedRow := b.curRow, savedCol := b.curCol }

def restoreCursor (b : TermBuffer) : TermBuffer :=
  clampCursor { b with curRow := b.savedRow, curCol := b.savedCol }

def eraseChars (b : TermBuffer) (n : Int) : TermBuffer :=
  let b := markRowDirty b b.curRow
  forUp b.curCol (min (wrapInt (b.curCol + n)) TERM_COLS) (fun c b => clearCell b b.curRow c) b

/-- The `alt` branch of `switchScreen`: save main screen cursor, switch to alt,
clear it. -/
def enterAlt (b : TermBuffer) : TermBuffer :=
  { forUp 0 TERM_ROWS (fun r b => clearRow b r)
      { b with altSavedRow := b.curRow, altSavedCol := b.curCol,
               altCells := Grid.copyAll b.altCells b.cells } with
    curRow := 0, curCol := 0 }

/-- The other branch of `switchScreen`: restore main screen content and cursor. -/
def leaveAlt (b : TermBuffer) : TermBuffer :=
  markAllDirty { b with cells := Grid.copyAll b.cells b.altCells,
                        curRow := b.altSavedRow, curCol := b.altSavedCol }

def switchScreen (b : TermBuffer) (alt : Bool) : TermBuffer :=
  if alt = b.altActive then b
  else
    let b := if alt then enterAlt b else leaveAlt b
    { b with scrollTop := 0, scrollBottom := TERM_ROWS - 1, wrapPending := false,
             altActive := alt }

def setAttr (b : TermBuffer) (attr : Nat) : TermBuffer :=
  { b with attrs := (b.attrs ||| attr) % 256 }

def clearAttr (b : TermBuffer) (attr : Nat) : TermBuffer :=
  { b with attrs := b.attrs &&& (255 - attr % 256) }

def resetAttrs (b : TermBuffer) : TermBuffer := { b with attrs := 0, bgBright := 255 }

end TermBuffer

/-! ## VtParser -/

inductive State where
  | Ground
  | Escape
  | CsiEntry
  | CsiParam
  | OscString
  | EscSwallow
deriving DecidableEq

def MAX_PARAMS : Int := 16

structure VtParser where
  buf : TermBuffer
  state : State := State.Ground
  params : Int → Int := fun _ => 0
  paramCount : Int := 0
  questionMark : Bool := false
  hasIntermediate : Bool := false
  csiPrefix : Nat := 0
  cursorVisible : Bool := true
  utf8Cp : Nat := 0
  utf8Remaining : Int := 0
  serialOut : List Nat := []

/-- Store into an `int` array. -/
def setParam (ps : Int → Int) (i v : Int) : Int → Int :=
  fun j => if j = i then v else ps j

/-- Standard ANSI colour palette: approximate luminance for colours 0-15. -/
def kAnsiLum : List Nat :=
  [0, 76, 149, 226, 29, 105, 178, 200, 128, 128, 192, 255, 80, 160, 224, 255]

/-- The read `kAnsiLum[n]`; outside the table the source reads past the array,
here 0. -/
def ansiLum (n : Int) : Nat := if 0 ≤ n then kAnsiLum.getD n.toNat 0 else 0

/-- Luminance of a 256-colour palette index, as a `uint8_t`. -/
def lum256 (n : Int) : Nat :=
  if n < 16 then ansiLum n
  else if n ≥ 232 then (wrapInt (8 + wrapInt ((n - 232) * 10)) % 256).toNat
  else
    let idx := n - 16
    let b5 := Int.tmod idx 6
    let g5 := Int.tmod (Int.tdiv idx 6) 6
    let r5 := Int.tdiv idx 36
    let r := if r5 ≠ 0 then r5 * 40 + 55 else 0
    let g := if g5 ≠ 0 then g5 * 40 + 55 else 0
    let b := if b5 ≠ 0 then b5 * 40 + 55 else 0
    ((r * 77 + g * 150 + b * 29) / 256 % 256).toNat

/-- Luminance of an RGB triple, as a `uint8_t`; `>> 8` of an `int` is the
arithmetic shift. -/
def lumRGB (r g b : Int) : Nat :=
  (wrapInt (wrapInt (wrapInt (r * 77) + wrapInt (g * 150)) + wrapInt (b * 29)) / 256 % 256).toNat

/-- Decimal digits of a natural number, as ASCII bytes. -/
def decDigits (n : Nat) : List Nat := (Nat.toDigits 10 n).map Char.toNat

/-- What `%d` prints, as ASCII bytes. -/
def decBytes (v : Int) : List Nat :=
  if v < 0 then 45 :: decDigits v.natAbs else decDigits v.natAbs

namespace VtParser

/-- A parser as constructed by `VtParser(buf)`. -/
def new (b : TermBuffer) : VtParser := { buf := b }

def resetParams (p : VtParser) : VtParser :=
  { p with params := forUp 0 MAX_PARAMS (fun i ps => setParam ps i 0) p.params,
           paramCount := 0, questionMark := false, hasIntermediate := false, csiPrefix := 0 }

def param (p : VtParser) (idx : Int) (dflt : Int) : Int :=
  if idx ≥ p.paramCount then dflt
  else if p.params idx = 0 then dflt else p.params idx

/-- One pass through the body of the `for` loop of `handleSgr` at index `i`:
the buffer after the `switch`, and the index before the loop's `i++`. -/
def sgrBody (p : VtParser) (b : TermBuffer) (i : Int) : TermBuffer × Int :=
  let v := p.params i
  if v = 0 then (b.resetAttrs, i)
  else if v = 1 then (b.setAttr TermCell.ATTR_BOLD, i)
  else if v = 2 then (b.clearAttr TermCell.ATTR_BOLD, i)
  else if v = 4 then (b.setAttr TermCell.ATTR_UNDERLINE, i)
  else if v = 7 then (b.setAttr TermCell.ATTR_INVERSE, i)
  else if v = 22 then (b.clearAttr TermCell.ATTR_BOLD, i)
  else if v = 24 then (b.clearAttr TermCell.ATTR_UNDERLINE, i)
  else if v = 27 then (b.clearAttr TermCell.ATTR_INVERSE, i)
  else if 30 ≤ v ∧ v ≤ 37 then (b, i)
  else if v = 39 then (b, i)
  else if 40 ≤ v ∧ v ≤ 47 then (b.setBgBright (ansiLum (v - 40)), i)
  else if v = 49 then (b.setBgBright 255, i)
  else if 90 ≤ v ∧ v ≤ 97 then (b.setAttr TermCell.ATTR_BOLD, i)
  else if 100 ≤ v ∧ v ≤ 107 then (b.setBgBright (ansiLum (v - 100 + 8)), i)
  else if v = 38 then
    if i + 1 < p.paramCount ∧ p.params (i + 1) = 5 then
      let b :=
        if i + 2 < p.paramCount then
          let n := p.params (i + 2)
          if n ≥ 8 ∧ n < 16 then b.setAttr TermCell.ATTR_BOLD else b
        else b
      (b, i + 2)
    else if i + 1 < p.paramCount ∧ p.params (i + 1) = 2 then
      let b :=
        if i + 4 < p.paramCount then
          let lum := lumRGB (p.params (i + 2)) (p.params (i + 3)) (p.params (i + 4))
          if lum > 150 then b.setAttr TermCell.ATTR_BOLD else b
        else b
      (b, i + 4)
    else (b, i)
  else if v = 48 then
    if i + 1 < p.paramCount ∧ p.params (i + 1) = 5 then
      let b :=
        if i + 2 < p.paramCount then b.setBgBright (lum256 (p.params (i + 2))) else b
      (b, i + 2)
    else if i + 1 < p.paramCount ∧ p.params (i + 1) = 2 then
      let b :=
        if i + 4 < p.paramCount then
          b.setBgBright (lumRGB (p.params (i + 2)) (p.params (i + 3)) (p.params (i + 4)))
        else b
      (b, i + 4)
    else (b, i)
  else (b, i)

/-- The loop `for (i = ...; i < _paramCount; i++)` of `handleSgr`, at most
`fuel` passes; every pass raises `i`, so `_paramCount` passes are enough. -/
def sgrLoop (p : VtParser) : Nat → Int → TermBuffer → TermBuffer
  | 0, _, b => b
  | fuel + 1, i, b =>
    if i < p.paramCount then
      let r := sgrBody p b i
      sgrLoop p fuel (r.2 + 1) r.1
    else b

def handleSgr (p : VtParser) : VtParser :=
  if p.paramCount = 0 then { p with buf := p.buf.resetAttrs }
  else { p with buf := sgrLoop p p.paramCount.toNat 0 p.buf }

def dispatchCsi (p : VtParser) (cmd : Nat) : VtParser :=
  let n := p.param 0 1
  if p.questionMark then
    let mode := p.param 0 0
    if cmd = 104 then
      if mode = 25 then { p with cursorVisible := true }
      else if mode = 47 ∨ mode = 1047 ∨ mode = 1049 then
        let b := if mode = 1049 then p.buf.saveCursor else p.buf
        { p with buf := b.switchScreen true }
      else p
    else if cmd = 108 then
      if mode = 25 then { p with cursorVisible := false }
      else if mode = 47 ∨ mode = 1047 ∨ mode = 1049 then
        let b := p.buf.switchScreen false
        { p with buf := if mode = 1049 then b.restoreCursor else b }
      else p
    else p
  else if cmd = 65 then { p with buf := p.buf.moveCursorUp n }
  else if cmd = 66 then { p with buf := p.buf.moveCursorDown n }
  else if cmd = 67 then { p with buf := p.buf.moveCursorForward n }
  else if cmd = 68 then { p with buf := p.buf.moveCursorBack n }
  else if cmd = 69 then { p with buf := (p.buf.moveCursorDown n).carriageReturn }
  else if cmd = 70 then { p with buf := (p.buf.moveCursorUp n).carriageReturn }
  else if cmd = 71 then
    { p with buf := p.buf.setCursor p.buf.cursorRow (wrapInt (p.param 0 1 - 1)) }
  else if cmd = 72 ∨ cmd = 102 then
    { p with buf := p.buf.setCursor (wrapInt (p.param 0 1 - 1)) (wrapInt (p.param 1 1 - 1)) }
  else if cmd = 74 then { p with buf := p.buf.eraseDisplay (p.param 0 0) }
  else if cmd = 75 then { p with buf := p.buf.eraseLine (p.param 0 0) }
  else if cmd = 76 then { p with buf := p.buf.insertLines n }
  else if cmd = 77 then { p with buf := p.buf.deleteLines n }
  else if cmd = 80 then { p with buf := p.buf.deleteChars n }
  else if cmd = 64 then { p with buf := p.buf.insertChars n }
  else if cmd = 83 then { p with buf := p.buf.scrollUp n }
  else if cmd = 84 then { p with buf := p.buf.scrollDown n }
  else if cmd = 100 then
    { p with buf := p.buf.setCursor (wrapInt (p.param 0 1 - 1)) p.buf.cursorCol }
  else if cmd = 109 then handleSgr p
  else if cmd = 114 then
    { p with buf := p.buf.setScrollRegion (wrapInt (p.param 0 1 - 1))
                      (wrapInt (p.param 1 TERM_ROWS - 1)) }
  else if cmd = 110 then
    if p.param 0 0 = 6 then
      let resp := [27, 91] ++ decBytes (wrapInt (p.buf.cursorRow + 1)) ++ [59]
                    ++ decBytes (wrapInt (p.buf.cursorCol + 1)) ++ [82]
      { p with serialOut := p.serialOut ++ resp.take 19 }
    else p
  else if cmd = 115 then { p with buf := p.buf.saveCursor }
  else if cmd = 117 then { p with buf := p.buf.restoreCursor }
  else if cmd = 88 then { p with buf := p.buf.eraseChars n }
  else if cmd = 99 then { p with serialOut := p.serialOut ++ [27, 91, 63, 49, 59, 48, 99] }
  else p

def handleCsiParam (p : VtParser) (byte : Nat) : VtParser :=
  if byte ≥ 48 ∧ byte ≤ 57 then
    let p := if p.paramCount = 0 then { p with paramCount := 1 } else p
    { p with params := setParam p.params (p.paramCount - 1)
                         (wrapInt (wrapInt (p.params (p.paramCount - 1) * 10) + (byte - 48 : Nat))) }
  else if byte = 59 then
    if p.paramCount < MAX_PARAMS then { p with paramCount := p.paramCount + 1 } else p
  else if byte ≥ 32 ∧ byte ≤ 47 then { p with hasIntermediate := true }
  else if byte ≥ 64 ∧ byte ≤ 126 then
    let p := if ¬ p.hasIntermediate ∧ p.csiPrefix = 0 then dispatchCsi p byte else p
    { p with state := State.Ground }
  else { p with state := State.Ground }

def handleCsiEntry (p : VtParser) (byte : Nat) : VtParser :=
  if byte = 63 then { p with questionMark := true, state := State.CsiParam }
  else if byte = 62 ∨ byte = 61 ∨ byte = 60 then
    { p with csiPrefix := byte, state := State.CsiParam }
  else handleCsiParam { p with state := State.CsiParam } byte

def handleEscape (p : VtParser) (byte : Nat) : VtParser :=
  if byte = 91 then resetParams { p with state := State.CsiEntry }
  else if byte = 93 then { p with state := State.OscString }
  else if byte = 68 then { p with buf := p.buf.lineFeed, state := State.Ground }
  else if byte = 77 then { p with buf := p.buf.reverseIndex, state := State.Ground }
  else if byte = 55 then { p with buf := p.buf.saveCursor, state := State.Ground }
  else if byte = 56 then { p with buf := p.buf.restoreCursor, state := State.Ground }
  else if byte = 99 then
    { p with buf := (((p.buf.eraseDisplay 2).setCursor 0 0).resetAttrs).setScrollRegion 0
                      (TERM_ROWS - 1),
             state := State.Ground }
  else if byte = 61 ∨ byte = 62 then { p with state := State.Ground }
  else if byte = 40 ∨ byte = 41 ∨ byte = 35 ∨ byte = 42 ∨ byte = 43 then
    { p with state := State.EscSwallow }
  else { p with state := State.Ground }

/-- The part of `handleGround` after the UTF-8 continuation check. -/
def handleGroundByte (p : VtParser) (byte : Nat) : VtParser :=
  if byte = 27 then { p with state := State.Escape }
  else if byte = 7 then p
  else if byte = 8 then { p with buf := p.buf.backspace }
  else if byte = 9 then { p with buf := p.buf.tab }
  else if byte = 10 ∨ byte = 11 ∨ byte = 12 then { p with buf := p.buf.lineFeed }
  else if byte = 13 then { p with buf := p.buf.carriageReturn }
  else if byte ≥ 32 ∧ byte < 127 then { p with buf := p.buf.putChar byte }
  else if byte ≥ 192 ∧ byte < 224 then { p with utf8Cp := byte &&& 31, utf8Remaining := 1 }
  else if byte ≥ 224 ∧ byte < 240 then { p with utf8Cp := byte &&& 15, utf8Remaining := 2 }
  else if byte ≥ 240 ∧ byte < 248 then { p with utf8Cp := byte &&& 7, utf8Remaining := 3 }
  else p

def handleGround (p : VtParser) (byte : Nat) : VtParser :=
  if p.utf8Remaining > 0 then
    if byte &&& 192 = 128 then
      let p := { p with utf8Cp := ((p.utf8Cp <<< 6) ||| (byte &&& 63)) % 4294967296 }
      let p := { p with utf8Remaining := p.utf8Remaining - 1 }
      if p.utf8Remaining = 0 then { p with buf := p.buf.putChar (p.utf8Cp % 65536) } else p
    else handleGroundByte { p with utf8Remaining := 0 } byte
  else handleGroundByte p byte

/-- Feeds one byte (a `uint8_t`) from serial input. -/
def feed (p : VtParser) (byte : Nat) : VtParser :=
  match p.state with
  | State.Ground => handleGround p byte
  | State.Escape => handleEscape p byte
  | State.CsiEntry => handleCsiEntry p byte
  | State.CsiParam => handleCsiParam p byte
  | State.OscString =>
    if byte = 7 ∨ byte = 27 then { p with state := State.Ground } else p
  | State.EscSwallow => { p with state := State.Ground }

/-- Feeds a sequence of bytes, first to last. -/
def feedAll (p : VtParser) (bytes : List Nat) : VtParser := bytes.foldl feed p

end VtParser

/-- A freshly constructed buffer with a freshly constructed parser on it. -/
def freshTerminal : VtParser := VtParser.new TermBuffer.new

/-! ## Views of the buffer state used in the proofs -/

/-- Everything a buffer holds besides the visible grid and the dirty mask. -/
structure Ctl where
  altCells : Grid
  curRow : Int
  curCol : Int
  savedRow : Int
  savedCol : Int
  altSavedRow : Int
  altSavedCol : Int
  scrollTop : Int
  scrollBottom : Int
  attrs : Nat
  bgBright : Nat
  wrapPending : Bool
  altActive : Bool

def TermBuffer.ctl (b : TermBuffer) : Ctl :=
  { altCells := b.altCells, curRow := b.curRow, curCol := b.curCol, savedRow := b.savedRow,
    savedCol := b.savedCol, altSavedRow := b.altSavedRow, altSavedCol := b.altSavedCol,
    scrollTop := b.scrollTop, scrollBottom := b.scrollBottom, attrs := b.attrs,
    bgBright := b.bgBright, wrapPending := b.wrapPending, altActive := b.altActive }

/-- The fields only `switchScreen`, `saveCursor` and `setScrollRegion` write. -/
structure Slots where
  altCells : Grid
  altSavedRow : Int
  altSavedCol : Int
  altActive : Bool
  savedRow : Int
  savedCol : Int
  scrollTop : Int
  scrollBottom : Int

def TermBuffer.slots (b : TermBuffer) : Slots :=
  { altCells := b.altCells, altSavedRow := b.altSavedRow, altSavedCol := b.altSavedCol,
    altActive := b.altActive, savedRow := b.savedRow, savedCol := b.savedCol,
    scrollTop := b.scrollTop, scrollBottom := b.scrollBottom }

/-- The scroll region is a valid row range. -/
def Slots.regionOK (s : Slots) : Prop :=
  0 ≤ s.scrollTop ∧ s.scrollTop < s.scrollBottom ∧ s.scrollBottom < TERM_ROWS

/-- The cursor addresses a cell of the grid. -/
def TermBuffer.cursorInGrid (b : TermBuffer) : Prop :=
  (0 ≤ b.curRow ∧ b.curRow < TERM_ROWS) ∧ (0 ≤ b.curCol ∧ b.curCol < TERM_COLS)

instance (b : TermBuffer) : Decidable b.cursorInGrid := by
  unfold TermBuffer.cursorInGrid; infer_instance

instance (s : Slots) : Decidable s.regionOK := by unfold Slots.regionOK; infer_instance

/-- First step of `putChar`: the deferred wrap. -/
def TermBuffer.wrapIfPending (b : TermBuffer) : TermBuffer :=
  if b.wrapPending then TermBuffer.lineFeed { b with wrapPending := false, curCol := 0 } else b

/-- Second step of `putChar`: the store at the cursor. -/
def TermBuffer.writeCell (b : TermBuffer) (cp : Nat) : TermBuffer :=
  { b with cells := b.cells.set (cellIdx b.curRow b.curCol)
              { codepoint := cp % 65536, attrs := b.attrs, bgBright := b.bgBright } }

/-- Last step of `putChar`: the cursor advance. -/
def TermBuffer.advance (b : TermBuffer) : TermBuffer :=
  let b := { b with curCol := wrapInt (b.curCol + 1) }
  if b.curCol ≥ TERM_COLS then { b with curCol := TERM_COLS - 1, wrapPending := true } else b

/-- The slots with the scroll region left out. -/
def Slots.noRegion (s : Slots) : Slots := { s with scrollTop := 0, scrollBottom := 0 }

namespace VtParser

/-- The final byte `cmd`, dispatched in state `p`, switches screens (private modes 47, 1047,
1049 with `h` or `l`) or saves the cursor (`CSI s`). -/
def csiSwitchesOrSaves (p : VtParser) (cmd : Nat) : Prop :=
  if p.questionMark then
    (cmd = 104 ∨ cmd = 108) ∧ (p.param 0 0 = 47 ∨ p.param 0 0 = 1047 ∨ p.param 0 0 = 1049)
  else cmd = 115

instance (p : VtParser) (cmd : Nat) : Decidable (p.csiSwitchesOrSaves cmd) := by
  unfold csiSwitchesOrSaves; infer_instance

/-- The byte, read in `CsiParam`, dispatches a sequence that switches screens or saves the
cursor. -/
def paramSwitchesOrSaves (p : VtParser) (byte : Nat) : Prop :=
  (byte ≥ 64 ∧ byte ≤ 126) ∧ (¬ p.hasIntermediate ∧ p.csiPrefix = 0) ∧ p.csiSwitchesOrSaves byte

instance (p : VtParser) (byte : Nat) : Decidable (p.paramSwitchesOrSaves byte) := by
  unfold paramSwitchesOrSaves; infer_instance

/-- The byte, read in state `p`, completes a sequence that switches screens or saves the
cursor (`ESC 7`, `CSI s`, `CSI ? 47/1047/1049 h/l`). -/
def switchesOrSaves (p : VtParser) (byte : Nat) : Prop :=
  match p.state with
  | State.Escape => byte = 55
  | State.CsiEntry => p.paramSwitchesOrSaves byte
  | State.CsiParam => p.paramSwitchesOrSaves byte
  | _ => False

instance (p : VtParser) (byte : Nat) : Decidable (p.switchesOrSaves byte) := by
  unfold switchesOrSaves; split <;> infer_instance

/-- No byte of the sequence, fed from state `p`, completes a sequence that switches screens
or saves the cursor. -/
def avoidsSwitchAndSave : VtParser → List Nat → Bool
  | _, [] => true
  | p, x :: xs => !(decide (p.switchesOrSaves x)) && avoidsSwitchAndSave (p.feed x) xs

/-- The final byte `cmd`, dispatched in state `p`, calls `insertChars` (`@`), `deleteChars`
(`P`) or `eraseChars` (`X`) with a count that keeps the column loops of these functions inside
the cursor row: no negative count, no overflow of `_curCol + n`, and for `deleteChars` no count
above `TERM_COLS`.  Every other final byte clamps its count or does not index the cells with
it. -/
def csiInRange (p : VtParser) (cmd : Nat) : Prop :=
  if p.questionMark then True
  else if cmd = 64 then 0 ≤ p.param 0 1 ∧ p.buf.curCol + p.param 0 1 ≤ 2147483647
  else if cmd = 80 then 0 ≤ p.param 0 1 ∧ p.param 0 1 ≤ TERM_COLS
  else if cmd = 88 then p.buf.curCol + p.param 0 1 ≤ 2147483647
  else True

instance (p : VtParser) (cmd : Nat) : Decidable (p.csiInRange cmd) := by
  unfold csiInRange; infer_instance

/-- The byte, read in `CsiEntry` or `CsiParam`, dispatches no sequence with a count out of
range. -/
def finalInRange (p : VtParser) (byte : Nat) : Prop :=
  (byte ≥ 64 ∧ byte ≤ 126) → (¬ p.hasIntermediate ∧ p.csiPrefix = 0) → p.csiInRange byte

instance (p : VtParser) (byte : Nat) : Decidable (p.finalInRange byte) := by
  unfold finalInRange; infer_instance

/-- Reading the byte in state `p` indexes the cell array only inside its bounds: the cursor
and the scroll region lie in the grid, and a sequence the byte completes has its count in
range. -/
def byteInRange (p : VtParser) (byte : Nat) : Prop :=
  p.buf.cursorInGrid ∧ p.buf.slots.regionOK ∧
  (match p.state with
   | State.CsiEntry => p.finalInRange byte
   | State.CsiParam => p.finalInRange byte
   | _ => True)

instance (p : VtParser) (byte : Nat) : Decidable (p.byteInRange byte) := by
  unfold byteInRange; split <;> infer_instance

/-- Every byte of the sequence, fed from state `p`, is read in range. -/
def staysInRange : VtParser → List Nat → Bool
  | _, [] => true
  | p, x :: xs => decide (p.byteInRange x) && staysInRange (p.feed x) xs

/-- The parser is in `CsiParam` after `ESC [ ?` and some digits: the buffer is `b`, the
first parameter holds `v`, and `cnt` parameters are counted. -/
def readingPrivate (s : VtParser) (b : TermBuffer) (v cnt : Int) : Prop :=
  s.state = State.CsiParam ∧ s.buf = b ∧ s.questionMark = true ∧ s.hasIntermediate = false ∧
    s.csiPrefix = 0 ∧ s.paramCount = cnt ∧ s.params 0 = v

end VtParser

/-- The mutating operations of `TermBuffer` other than `switchScreen`. -/
inductive BufOp where
  | putChar (cp : Nat)
  | setCursor (row col : Int)
  | moveCursorUp (n : Int)
  | moveCursorDown (n : Int)
  | moveCursorForward (n : Int)
  | moveCursorBack (n : Int)
  | carriageReturn
  | lineFeed
  | reverseIndex
  | tab
  | backspace
  | eraseLine (mode : Int)
  | eraseDisplay (mode : Int)
  | setScrollRegion (top bottom : Int)
  | scrollUp (n : Int)
  | scrollDown (n : Int)
  | insertLines (n : Int)
  | deleteLines (n : Int)
  | insertChars (n : Int)
  | deleteChars (n : Int)
  | saveCursor
  | restoreCursor
  | eraseChars (n : Int)
  | setAttr (attr : Nat)
  | clearAttr (attr : Nat)
  | resetAttrs
  | setBgBright (v : Nat)
  | clearDirty
  | markRowDirty (row : Int)
  | markAllDirty

/-- Runs one operation on a buffer. -/
def BufOp.run (b : TermBuffer) : BufOp → TermBuffer
  | .putChar cp => b.putChar cp
  | .setCursor row col => b.setCursor row col
  | .moveCursorUp n => b.moveCursorUp n
  | .moveCursorDown n => b.moveCursorDown n
  | .moveCursorForward n => b.moveCursorForward n
  | .moveCursorBack n => b.moveCursorBack n
  | .carriageReturn => b.carriageReturn
  | .lineFeed => b.lineFeed
  | .reverseIndex => b.reverseIndex
  | .tab => b.tab
  | .backspace => b.backspace
  | .eraseLine mode => b.eraseLine mode
  | .eraseDisplay mode => b.eraseDisplay mode
  | .setScrollRegion top bottom => b.setScrollRegion top bottom
  | .scrollUp n => b.scrollUp n
  | .scrollDown n => b.scrollDown n
  | .insertLines n => b.insertLines n
  | .deleteLines n => b.deleteLines n
  | .insertChars n => b.insertChars n
  | .deleteChars n => b.deleteChars n
  | .saveCursor => b.saveCursor
  | .restoreCursor => b.restoreCursor
  | .eraseChars n => b.eraseChars n
  | .setAttr attr => b.setAttr attr
  | .clearAttr attr => b.clearAttr attr
  | .resetAttrs => b.resetAttrs
  | .setBgBright v => b.setBgBright v
  | .clearDirty => b.clearDirty
  | .markRowDirty row => b.markRowDirty row
  | .markAllDirty => b.markAllDirty

/-- Runs a sequence of operations, first to last. -/
def BufOp.runAll (b : TermBuffer) (ops : List BufOp) : TermBuffer := ops.foldl BufOp.run b

/-- The argument of the operation keeps its loops inside the cursor row: `insertChars` and
`eraseChars` without overflow of `_curCol + n`, `insertChars` and `deleteChars` without a
negative count, `deleteChars` with at most `TERM_COLS`; `markRowDirty` with a shift below the
width of the mask.  The other operations clamp their arguments or index no cell with them. -/
def BufOp.argInRange (b : TermBuffer) : BufOp → Prop
  | .insertChars n => 0 ≤ n ∧ b.curCol + n ≤ 2147483647
  | .deleteChars n => 0 ≤ n ∧ n ≤ TERM_COLS
  | .eraseChars n => b.curCol + n ≤ 2147483647
  | .markRowDirty row => 0 ≤ row ∧ row < 32
  | _ => True

instance (b : TermBuffer) (op : BufOp) : Decidable (op.argInRange b) := by
  cases op <;> unfold BufOp.argInRange <;> infer_instance

/-- The operation, run on `b`, indexes the cell array only inside its bounds: the cursor and
the scroll region lie in the grid and the argument is in range. -/
def BufOp.inRange (b : TermBuffer) (op : BufOp) : Prop :=
  b.cursorInGrid ∧ b.slots.regionOK ∧ op.argInRange b

instance (b : TermBuffer) (op : BufOp) : Decidable (op.inRange b) := by
  unfold BufOp.inRange; infer_instance

/-- Every operation of the sequence, run from `b`, is in range. -/
def BufOp.staysInGrid : TermBuffer → List BufOp → Bool
  | _, [] => true
  | b, op :: ops => decide (op.inRange b) && BufOp.staysInGrid (op.run b) ops

/-- What `switchScreen` keeps of the primary screen while the alternate one is shown. -/
structure AltStore where
  altCells : Grid
  altSavedRow : Int
  altSavedCol : Int
  altActive : Bool

def TermBuffer.altStore (b : TermBuffer) : AltStore :=
  { altCells := b.altCells, altSavedRow := b.altSavedRow, altSavedCol := b.altSavedCol,
    altActive := b.altActive }

/-- The bytes `ESC [ ? 1 0 4 9 h`. -/
def enter1049 : List Nat := [27, 91, 63, 49, 48, 52, 57, 104]

/-- The bytes `ESC [ ? 1 0 4 9 l`. -/
def leave1049 : List Nat := [27, 91, 63, 49, 48, 52, 57, 108]

/-- The byte is an ASCII digit. -/
def isDigit (x : Nat) : Prop := 48 ≤ x ∧ x ≤ 57

instance (x : Nat) : Decidable (isDigit x) := by unfold isDigit; infer_instance

/-- The number denoted by the digits of `a` followed by a string of ASCII digits. -/
def digitsFrom (a : Nat) (ds : List Nat) : Nat := ds.foldl (fun acc d => acc * 10 + (d - 48)) a

/-- The number a string of ASCII digits denotes (0 for the empty string). -/
def digitsValue (ds : List Nat) : Nat := digitsFrom 0 ds

namespace VtParser

/-- State `s` is what `ESC [` makes of state `p`: in `CsiEntry`, with every parameter reset
and nothing else changed. -/
def csiOpened (s p : VtParser) : Prop :=
  s.state = State.CsiEntry ∧ s.buf = p.buf ∧ s.serialOut = p.serialOut ∧
    s.cursorVisible = p.cursorVisible ∧ s.questionMark = false ∧ s.hasIntermediate = false ∧
    s.csiPrefix = 0 ∧ s.paramCount = 0 ∧ ∀ i : Nat, i < 16 → s.params i = 0

/-- State `s` is what `ESC [` and a parameter string make of state `p`: in `CsiParam`, with
`vals` the parameters counted so far, the rest of the array 0 and nothing else changed. -/
def csiParsed (s p : VtParser) (vals : List Nat) : Prop :=
  s.state = State.CsiParam ∧ s.buf = p.buf ∧ s.serialOut = p.serialOut ∧
    s.cursorVisible = p.cursorVisible ∧ s.questionMark = false ∧ s.hasIntermediate = false ∧
    s.csiPrefix = 0 ∧ s.paramCount = vals.length ∧
    ∀ i : Nat, i < 16 → s.params i = ((vals.getD i 0 : Nat) : Int)

end VtParser

/-- The bytes `ESC [ 0 ; 0 ; ... ; 0` with sixteen parameter fields `0`. -/
def sixteenFields : List Nat :=
  [27, 91, 48, 59, 48, 59, 48, 59, 48, 59, 48, 59, 48, 59, 48, 59, 48, 59,
    48, 59, 48, 59, 48, 59, 48, 59, 48, 59, 48, 59, 48, 59, 48]

namespace VtParser

/-- The final byte of the sequence being read will not be dispatched. -/
def csiBlocked (s : VtParser) : Prop := s.hasIntermediate = true ∨ s.csiPrefix ≠ 0

end VtParser

/-- A byte of the body of a CSI sequence: a digit, `;` or an intermediate byte. -/
def isCsiBody (x : Nat) : Prop := isDigit x ∨ x = 59 ∨ (32 ≤ x ∧ x ≤ 47)

instance (x : Nat) : Decidable (isCsiBody x) := by unfold isCsiBody; infer_instance

/-- Specification: the standard UTF-8 encoding of a code point, 1 to 4 bytes. -/
def utf8Encode (u : Nat) : List Nat :=
  if u < 128 then [u]
  else if u < 2048 then [192 + u / 64, 128 + u % 64]
  else if u < 65536 then [224 + u / 4096, 128 + u / 64 % 64, 128 + u % 64]
  else [240 + u / 262144, 128 + u / 4096 % 64, 128 + u / 64 % 64, 128 + u % 64]

/-- The number of continuation bytes `handleGround` expects after a lead byte. -/
def utf8Need (lead : Nat) : Int :=
  if lead < 224 then 1 else if lead < 240 then 2 else 3

/-- Specification: the reference luminance of 256-colour palette index `n`: the 16-entry table
below 16, the 6x6x6 colour cube up to 231 (channel `c` is 0 if `c = 0`, else `c*40 + 55`,
combined as `(77 R + 150 G + 29 B) >> 8`), and the grey ramp `8 + (n - 232) * 10` from 232
on; computed in unbounded arithmetic. -/
def lum256Ref (n : Nat) : Nat :=
  if n < 16 then
    [0, 76, 149, 226, 29, 105, 178, 200, 128, 128, 192, 255, 80, 160, 224, 255].getD n 0
  else if n < 232 then
    (77 * (if (n - 16) / 36 = 0 then 0 else (n - 16) / 36 * 40 + 55)
      + 150 * (if (n - 16) / 6 % 6 = 0 then 0 else (n - 16) / 6 % 6 * 40 + 55)
      + 29 * (if (n - 16) % 6 = 0 then 0 else (n - 16) % 6 * 40 + 55)) >>> 8
  else 8 + (n - 232) * 10

/-! ## TermRenderer -/

/-- 4x4 Bayer dithering matrix (threshold values 0-15). -/
def kBayer4x4 : List (List Nat) :=
  [[0, 8, 2, 10], [12, 4, 14, 6], [3, 11, 1, 9], [15, 7, 13, 5]]

/-- The read `kBayer4x4[i][j]`. -/
def bayer (i j : Nat) : Nat := (kBayer4x4.getD i []).getD j 0

/-- Bytes per framebuffer row, `DISPLAY_W / 8`. -/
def fbStride : Int := DISPLAY_W / 8

/-- The font header `term_font_10x20.h` is not among the sources; the renderer takes what it
uses of it as a parameter: the bytes per glyph row and the glyph bitmap of a code point (a
byte array, here a function of the byte index). -/
structure TermFont where
  BYTES_PER_ROW : Int
  getGlyph : Nat → Int → Nat

/-- The framebuffer of the display driver: its bytes, and a record of the byte indices
stored to, in program order. -/
structure FrameBuffer where
  bytes : Int → Nat
  stores : List Int := []

/-- The store `fb[i] = v`. -/
def FrameBuffer.store (fb : FrameBuffer) (i : Int) (v : Nat) : FrameBuffer :=
  { bytes := fun j => if j = i then v else fb.bytes j, stores := fb.stores ++ [i] }

/-- The byte `v & ~(1 << bit)`. -/
def clearBit (v bit : Nat) : Nat := v &&& (255 ^^^ ((1 <<< bit) % 256))

/-- The byte `v | (1 << bit)`. -/
def setBit (v bit : Nat) : Nat := (v ||| (1 <<< bit)) % 256

/-- The glyph bit test `(glyph[gy * BYTES_PER_ROW + gx / 8] >> (7 - gx % 8)) & 1`. -/
def isGlyphPixel (font : TermFont) (glyph : Int → Nat) (gx gy : Nat) : Bool :=
  decide ((glyph (wrapInt (wrapInt ((gy : Int) * font.BYTES_PER_ROW) + ((gx / 8 : Nat) : Int)))
    >>> (7 - gx % 8)) &&& 1 ≠ 0)

/-- The dither level `(bgBright * 17) >> 8`. -/
def ditherLevel (bgBright : Nat) : Nat := (bgBright * 17) >>> 8

/-- The colour decision of `blitGlyph` for glyph pixel `(gx, gy)`. -/
def drawBlack (glyphPixel invertGlyph : Bool) (bgBright gx gy : Nat) : Bool :=
  if glyphPixel then !invertGlyph
  else
    let threshold := bayer (gy &&& 3) (gx &&& 3)
    let level := ditherLevel bgBright
    decide (level ≤ threshold)

/-- The framebuffer write of `blitGlyph` for the pixel `(fbX, fbY)` (bit 1 is white, bit 0
is black). -/
def blitPixel (black : Bool) (fbX fbY : Int) (fb : FrameBuffer) : FrameBuffer :=
  let fbByteIdx := wrapInt (wrapInt (fbY * fbStride) + Int.tdiv fbX 8)
  let fbBitIdx := (7 - Int.tmod fbX 8).toNat
  if black then fb.store fbByteIdx (clearBit (fb.bytes fbByteIdx) fbBitIdx)
  else fb.store fbByteIdx (setBit (fb.bytes fbByteIdx) fbBitIdx)

/-- The inner loop of `blitGlyph` from glyph column `gx` on, at most `k` passes; it ends
early at the right edge of the display. -/
def blitCols (font : TermFont) (glyph : Int → Nat) (bgBright : Nat) (invertGlyph : Bool)
    (px fbY : Int) (gy : Nat) : Nat → Nat → FrameBuffer → FrameBuffer
  | 0, _, fb => fb
  | k + 1, gx, fb =>
    let fbX := wrapInt (px + (gx : Int))
    if fbX ≥ DISPLAY_W then fb
    else
      blitCols font glyph bgBright invertGlyph px fbY gy k (gx + 1)
        (blitPixel (drawBlack (isGlyphPixel font glyph gx gy) invertGlyph bgBright gx gy)
          fbX fbY fb)

/-- The outer loop of `blitGlyph` from glyph row `gy` on, at most `k` passes; it ends early
at the bottom edge of the display. -/
def blitRows (font : TermFont) (glyph : Int → Nat) (bgBright : Nat) (invertGlyph : Bool)
    (px py : Int) : Nat → Nat → FrameBuffer → FrameBuffer
  | 0, _, fb => fb
  | k + 1, gy, fb =>
    let fbY := wrapInt (py + (gy : Int))
    if fbY ≥ DISPLAY_H then fb
    else
      blitRows font glyph bgBright invertGlyph px py k (gy + 1)
        (blitCols font glyph bgBright invertGlyph px fbY gy TERM_FONT_W.toNat 0 fb)

def blitGlyph (font : TermFont) (fb : FrameBuffer) (px py : Int) (glyph : Int → Nat)
    (bgBright : Nat) (invertGlyph : Bool) : FrameBuffer :=
  blitRows font glyph bgBright invertGlyph px py TERM_FONT_H.toNat 0 fb

/-- The effective background brightness of a cell: `bgBright`, or `255 - bgBright` for an
inverse cell. -/
def effectiveBg (cell : TermCell) : Nat :=
  if cell.attrs &&& TermCell.ATTR_INVERSE ≠ 0 then (255 - cell.bgBright) % 256
  else cell.bgBright

/-- The body of the loop of `renderRow`: the blit of the cell at `(row, col)`. -/
def renderCell (font : TermFont) (buf : TermBuffer) (row col : Int) (fb : FrameBuffer) :
    FrameBuffer :=
  let cell := buf.cellAt row col
  let glyph := font.getGlyph cell.codepoint
  let bgBright := effectiveBg cell
  let invertGlyph := decide (bgBright < 128)
  blitGlyph font fb (wrapInt (TERM_OFFSET_X + wrapInt (col * TERM_FONT_W)))
    (wrapInt (row * TERM_FONT_H)) glyph bgBright invertGlyph

def renderRow (font : TermFont) (buf : TermBuffer) (row : Int) (fb : FrameBuffer) :
    FrameBuffer :=
  forUp 0 TERM_COLS (fun col fb => renderCell font buf row col fb) fb

/-- Refresh modes of the display driver that the renderer uses. -/
inductive RefreshMode where
  | FAST_REFRESH
  | FULL_REFRESH
deriving DecidableEq

/-- A command to the display driver. -/
inductive DisplayCmd where
  | displayBuffer (mode : RefreshMode)
  | displayWindow (x y w h : Int)
deriving DecidableEq

/-- The display driver as the renderer sees it: the framebuffer it hands out and the
commands it has received, oldest first. -/
structure EInkDisplay where
  frameBuffer : FrameBuffer
  commands : List DisplayCmd := []

/-- The compiler builtin `__builtin_popcount` on a 32-bit value: the number of 1 bits. -/
def popcount (d : Nat) : Nat := ((List.range 32).filter (fun i => d.testBit i)).length

/-- Index of the lowest 1 bit among bits `i, ..., i + k - 1`, or `i + k`. -/
def lowBitFrom (d : Nat) : Nat → Nat → Nat
  | 0, i => i
  | k + 1, i => if d.testBit i then i else lowBitFrom d k (i + 1)

/-- The compiler builtin `__builtin_ctz` on a 32-bit value: the number of trailing 0
bits. -/
def ctz (d : Nat) : Int := (lowBitFrom d 32 0 : Nat)

/-- Number of 0 bits from bit `31 - i` downwards before the first 1 bit, counting from
`i`, at most `k` more. -/
def highZerosFrom (d : Nat) : Nat → Nat → Nat
  | 0, i => i
  | k + 1, i => if d.testBit (31 - i) then i else highZerosFrom d k (i + 1)

/-- The compiler builtin `__builtin_clz` on a 32-bit value: the number of leading 0
bits. -/
def clz (d : Nat) : Int := (highZerosFrom d 32 0 : Nat)

/-- The renderer with the display and the buffer it refers to. -/
structure TermRenderer where
  display : EInkDisplay
  buf : TermBuffer
  fastRefreshCount : Int := 0
  lastCursorRow : Int := -1
  lastCursorCol : Int := -1
  cursorVisible : Bool := true

namespace TermRenderer

def setCursorVisible (r : TermRenderer) (v : Bool) : TermRenderer := { r with cursorVisible := v }

/-- The framebuffer after `renderCursor`. -/
def renderCursor (font : TermFont) (r : TermRenderer) (fb : FrameBuffer) : FrameBuffer :=
  if ¬ r.cursorVisible then fb
  else
    let row := r.buf.cursorRow
    let col := r.buf.cursorCol
    let col := if col ≥ TERM_COLS then TERM_COLS - 1 else col
    let cell := r.buf.cellAt row col
    let glyph := font.getGlyph cell.codepoint
    let bgBright := effectiveBg cell
    let bgBright := (255 - bgBright) % 256
    let invertGlyph := decide (bgBright < 128)
    blitGlyph font fb (wrapInt (TERM_OFFSET_X + wrapInt (col * TERM_FONT_W)))
      (wrapInt (row * TERM_FONT_H)) glyph bgBright invertGlyph

/-- The dirty mask of `renderDirty`: the buffer's dirty rows with the previous cursor row
added; a shift count outside `[0, 31]` is undefined in the source and leaves the mask as it
is. -/
def dirtyMask (r : TermRenderer) : Nat :=
  if r.lastCursorRow ≥ 0 then
    if r.lastCursorRow < 32 then
      (r.buf.dirtyRows ||| (1 <<< r.lastCursorRow.toNat)) % 4294967296
    else r.buf.dirtyRows
  else r.buf.dirtyRows

/-- The rows of the mask rendered into the framebuffer, top to bottom. -/
def renderRows (font : TermFont) (buf : TermBuffer) (dirty : Nat) (fb : FrameBuffer) :
    FrameBuffer :=
  forUp 0 TERM_ROWS
    (fun row fb => if dirty &&& (1 <<< row.toNat) ≠ 0 then renderRow font buf row fb else fb) fb

/-- The window of the partial update: `(y, h)` computed from the mask, the cursor row and
the previous cursor row. -/
def updateWindow (r : TermRenderer) (dirty : Nat) : Int × Int :=
  let minRow := ctz dirty
  let maxRow := 31 - clz dirty
  let curRow := r.buf.cursorRow
  let minRow := if curRow < minRow then curRow else minRow
  let maxRow := if curRow > maxRow then curRow else maxRow
  let minRow := if r.lastCursorRow ≥ 0 ∧ r.lastCursorRow < minRow then r.lastCursorRow else minRow
  let maxRow := if r.lastCursorRow ≥ 0 ∧ r.lastCursorRow > maxRow then r.lastCursorRow else maxRow
  (wrapInt (minRow * TERM_FONT_H), wrapInt (wrapInt (wrapInt (maxRow - minRow) + 1) * TERM_FONT_H))

def renderDirty (font : TermFont) (r : TermRenderer) : TermRenderer :=
  let dirty := dirtyMask r
  if dirty = 0 then r
  else
    let dirtyCount : Int := popcount dirty
    let fb := renderRows font r.buf dirty r.display.frameBuffer
    let fb := renderCursor font r fb
    let cmd :=
      if dirtyCount > DIRTY_ROWS_PARTIAL_MAX then DisplayCmd.displayBuffer RefreshMode.FAST_REFRESH
      else DisplayCmd.displayWindow 0 (updateWindow r dirty).1 DISPLAY_W (updateWindow r dirty).2
    let count := wrapInt (r.fastRefreshCount + 1)
    let cmds := r.display.commands ++ [cmd]
    let full := decide (count ≥ FULL_REFRESH_INTERVAL)
    let cmds := if full then cmds ++ [DisplayCmd.displayBuffer RefreshMode.FULL_REFRESH] else cmds
    let count := if full then 0 else count
    { r with display := { frameBuffer := fb, commands := cmds },
             fastRefreshCount := count,
             lastCursorRow := r.buf.cursorRow, lastCursorCol := r.buf.cursorCol,
             buf := r.buf.clearDirty }

def renderFull (font : TermFont) (r : TermRenderer) : TermRenderer :=
  let buf := r.buf.markAllDirty
  let fb := forUp 0 TERM_ROWS (fun row fb => renderRow font buf row fb) r.display.frameBuffer
  let fb := renderCursor font { r with buf := buf } fb
  { r with display := { frameBuffer := fb,
                        commands := r.display.commands
                          ++ [DisplayCmd.displayBuffer RefreshMode.FULL_REFRESH] },
           fastRefreshCount := 0,
           lastCursorRow := buf.cursorRow, lastCursorCol := buf.cursorCol,
           buf := buf.clearDirty }

end TermRenderer

/-- The number of black pixels among the 16 background pixels of the aligned 4x4 block
whose top-left glyph coordinate is `(4 * bx, 4 * by)`. -/
def blackInBlock (bgBright bx bi : Nat) : Nat :=
  ((List.range 4).map (fun j =>
    ((List.range 4).filter (fun i =>
      drawBlack false (decide (bgBright < 128)) bgBright (4 * bx + i) (4 * bi + j))).length)).sum

/-- The framebuffer bit of the pixel `(x, y)`: bit `7 - x % 8` of byte
`y * (DISPLAY_W / 8) + x / 8`; `true` is white. -/
def FrameBuffer.pixel (fb : FrameBuffer) (x y : Int) : Bool :=
  (fb.bytes (y * fbStride + x / 8)).testBit (7 - x % 8).toNat

/-- The colour `blitGlyph` gives the glyph pixel `(gx, gy)`. -/
def glyphBlack (font : TermFont) (glyph : Int → Nat) (bgBright : Nat) (invertGlyph : Bool)
    (gx gy : Nat) : Bool :=
  drawBlack (isGlyphPixel font glyph gx gy) invertGlyph bgBright gx gy

/-- Specification: the set `D` of rows that `render_dirty` re-renders: the dirty rows of the
buffer united with the previous cursor row, if there is one. -/
def TermRenderer.refreshRows (r : TermRenderer) : Finset Nat :=
  (Finset.range 32).filter
    (fun i => r.buf.dirtyRows.testBit i = true ∨ (i : Int) = r.lastCursorRow)

/-- A call of one of the two rendering methods, with the buffer as the parser has left it
at the time of the call. -/
inductive RenderCall where
  | renderDirty (buf : TermBuffer)
  | renderFull (buf : TermBuffer)

namespace TermRenderer

/-- The renderer after one call. -/
def call (font : TermFont) (r : TermRenderer) : RenderCall → TermRenderer
  | RenderCall.renderDirty b => renderDirty font { r with buf := b }
  | RenderCall.renderFull b => renderFull font { r with buf := b }

/-- The renderer after a sequence of calls. -/
def run (font : TermFont) (r : TermRenderer) (calls : List RenderCall) : TermRenderer :=
  calls.foldl (call font) r

/-- The display commands a call issues: what it appends to the commands received. -/
def issued (font : TermFont) (r : TermRenderer) (c : RenderCall) : List DisplayCmd :=
  (call font r c).display.commands.drop r.display.commands.length

/-- Specification: the number of refreshing calls since the last full refresh, read off the
commands the calls issue, starting from `n`: a call that issues `FULL_REFRESH` makes it 0,
another call that issues a command adds 1, a call that issues nothing leaves it. -/
def sinceFull (font : TermFont) : TermRenderer → List RenderCall → Nat → Nat
  | _, [], n => n
  | r, c :: cs, n =>
    sinceFull font (call font r c) cs
      (if DisplayCmd.displayBuffer RefreshMode.FULL_REFRESH ∈ issued font r c then 0
       else if issued font r c = [] then n else n + 1)

end TermRenderer

/-! # Theorems -/

theorem loopUp_inv {σ : Type} (P : σ → Prop) (f : Int → σ → σ)
    (h : ∀ i s, P s → P (f i s)) : ∀ (k : Nat) (i : Int) (s : σ), P s → P (loopUp f k i s) := by
  intro k
  induction k with
  | zero => intro i s hs; exact hs
  | succ k ih => intro i s hs; exact ih (i + 1) (f i s) (h i s hs)

theorem loopDown_inv {σ : Type} (P : σ → Prop) (f : Int → σ → σ)
    (h : ∀ i s, P s → P (f i s)) : ∀ (k : Nat) (i : Int) (s : σ), P s → P (loopDown f k i s) := by
  intro k
  induction k with
  | zero => intro i s hs; exact hs
  | succ k ih => intro i s hs; exact ih (i - 1) (f i s) (h i s hs)

theorem forUp_frame {σ α : Type} (g : σ → α) (f : Int → σ → σ)
    (h : ∀ i s, g (f i s) = g s) (lo hi : Int) (s : σ) : g (forUp lo hi f s) = g s :=
  loopUp_inv (fun t => g t = g s) f (fun i t ht => (h i t).trans ht) _ _ s rfl

theorem forDown_frame {σ α : Type} (g : σ → α) (f : Int → σ → σ)
    (h : ∀ i s, g (f i s) = g s) (hi lo : Int) (s : σ) : g (forDown hi lo f s) = g s :=
  loopDown_inv (fun t => g t = g s) f (fun i t ht => (h i t).trans ht) _ _ s rfl

namespace TermBuffer

@[simp] theorem ctl_markRowDirty (b : TermBuffer) (r : Int) : (markRowDirty b r).ctl = b.ctl := by
  unfold markRowDirty; split <;> rfl

@[simp] theorem ctl_clearCell (b : TermBuffer) (r c : Int) : (clearCell b r c).ctl = b.ctl := by
  cases b; rfl

@[simp] theorem ctl_clearRow (b : TermBuffer) (r : Int) : (clearRow b r).ctl = b.ctl := by
  unfold clearRow
  rw [ctl_markRowDirty]
  exact forUp_frame ctl _ (fun c s => ctl_clearCell s r c) _ _ b

theorem ctl_clearRows (b : TermBuffer) (lo hi : Int) :
    (forUp lo hi (fun r b => clearRow b r) b).ctl = b.ctl :=
  forUp_frame ctl _ (fun r s => ctl_clearRow s r) _ _ b

@[simp] theorem ctl_scrollRegionUp (b : TermBuffer) (t bo n : Int) :
    (scrollRegionUp b t bo n).ctl = b.ctl := by
  unfold scrollRegionUp
  split
  · rfl
  · simp only []
    rw [ctl_clearRows]
    exact forUp_frame ctl _ (fun r s => by rw [ctl_markRowDirty]; rfl) _ _ b

@[simp] theorem ctl_scrollRegionDown (b : TermBuffer) (t bo n : Int) :
    (scrollRegionDown b t bo n).ctl = b.ctl := by
  unfold scrollRegionDown
  split
  · rfl
  · simp only []
    rw [ctl_clearRows]
    exact forDown_frame ctl _ (fun r s => by rw [ctl_markRowDirty]; rfl) _ _ b

@[simp] theorem ctl_scrollUp (b : TermBuffer) (n : Int) : (scrollUp b n).ctl = b.ctl :=
  ctl_scrollRegionUp b _ _ n

@[simp] theorem ctl_scrollDown (b : TermBuffer) (n : Int) : (scrollDown b n).ctl = b.ctl :=
  ctl_scrollRegionDown b _ _ n

theorem ctl_clearCells (b : TermBuffer) (lo hi : Int) :
    (forUp lo hi (fun c b => clearCell b b.curRow c) b).ctl = b.ctl :=
  forUp_frame ctl _ (fun c s => ctl_clearCell s s.curRow c) _ _ b

@[simp] theorem ctl_eraseLine (b : TermBuffer) (m : Int) : (eraseLine b m).ctl = b.ctl := by
  unfold eraseLine
  simp only []
  split_ifs
  · rw [ctl_clearCells, ctl_markRowDirty]
  · rw [ctl_clearCells, ctl_markRowDirty]
  · rw [ctl_clearRow, ctl_markRowDirty]
  · rw [ctl_markRowDirty]

@[simp] theorem ctl_eraseDisplay (b : TermBuffer) (m : Int) : (eraseDisplay b m).ctl = b.ctl := by
  unfold eraseDisplay
  simp only []
  split_ifs
  · rw [ctl_clearRows, ctl_eraseLine]
  · rw [ctl_eraseLine, ctl_clearRows]
  · rw [ctl_clearRows]
  · rfl

@[simp] theorem ctl_insertLines (b : TermBuffer) (n : Int) : (insertLines b n).ctl = b.ctl := by
  unfold insertLines; split_ifs
  · rfl
  · exact ctl_scrollRegionDown b _ _ n

@[simp] theorem ctl_deleteLines (b : TermBuffer) (n : Int) : (deleteLines b n).ctl = b.ctl := by
  unfold deleteLines; split_ifs
  · rfl
  · exact ctl_scrollRegionUp b _ _ n

@[simp] theorem ctl_insertChars (b : TermBuffer) (n : Int) : (insertChars b n).ctl = b.ctl := by
  unfold insertChars
  simp only []
  rw [ctl_clearCells]
  refine Eq.trans (forDown_frame ctl _ ?_ _ _ _) (ctl_markRowDirty _ _)
  intro c s; rfl

@[simp] theorem ctl_deleteChars (b : TermBuffer) (n : Int) : (deleteChars b n).ctl = b.ctl := by
  unfold deleteChars
  simp only []
  rw [ctl_clearCells]
  refine Eq.trans (forUp_frame ctl _ ?_ _ _ _) (ctl_markRowDirty _ _)
  intro c s; rfl

@[simp] theorem ctl_eraseChars (b : TermBuffer) (n : Int) : (eraseChars b n).ctl = b.ctl := by
  unfold eraseChars
  simp only []
  rw [ctl_clearCells, ctl_markRowDirty]


theorem eq_of_parts {b b' : TermBuffer} (hc : b.cells = b'.cells)
    (hd : b.dirtyRows = b'.dirtyRows) (h : b.ctl = b'.ctl) : b = b' := by
  cases b; cases b'
  simp only [ctl, Ctl.mk.injEq] at h
  simp only at hc hd
  simp only [TermBuffer.mk.injEq]
  tauto


end TermBuffer

theorem TERM_COLS_eq : TERM_COLS = 78 := by decide
theorem TERM_ROWS_eq : TERM_ROWS = 24 := by decide

theorem cellIdx_eq (r c : Int) : cellIdx r c = r * 78 + c := by
  unfold cellIdx; rw [TERM_COLS_eq]

theorem inGrid_iff (j : Int) : inGrid j ↔ 0 ≤ j ∧ j < 1872 := by
  unfold inGrid; rw [TERM_COLS_eq, TERM_ROWS_eq]; norm_num

theorem inGrid_cellIdx {r c : Int} (hr : 0 ≤ r ∧ r < 24) (hc : 0 ≤ c ∧ c < 78) :
    inGrid (cellIdx r c) := by
  rw [inGrid_iff, cellIdx_eq]; omega

theorem Grid.set_apply (g : Grid) (i : Int) (c : TermCell) (j : Int) :
    (g.set i c) j = if j = i ∧ inGrid i then c else g j := rfl

namespace TermBuffer

theorem cells_loop_clearCell (row : Int) (j : Int) :
    ∀ (k : Nat) (lo : Int) (b : TermBuffer),
      (loopUp (fun c b => clearCell b row c) k lo b).cells j =
        if cellIdx row lo ≤ j ∧ j < cellIdx row (lo + k) ∧ inGrid j then TermCell.blank
        else b.cells j := by
  intro k
  induction k with
  | zero =>
    intro lo b
    simp only [loopUp, cellIdx_eq]
    rw [if_neg]; push_cast; omega
  | succ k ih =>
    intro lo b
    simp only [loopUp]
    rw [ih]
    simp only [clearCell, Grid.set_apply, TermCell.clear, cellIdx_eq, inGrid_iff]
    push_cast
    split_ifs <;> first | rfl | (exfalso; omega)


@[simp] theorem cells_markRowDirty (b : TermBuffer) (r : Int) :
    (markRowDirty b r).cells = b.cells := by
  unfold markRowDirty; split <;> rfl

theorem cells_clearRow (b : TermBuffer) (r j : Int) :
    (clearRow b r).cells j =
      if cellIdx r 0 ≤ j ∧ j < cellIdx (r + 1) 0 ∧ inGrid j then TermCell.blank else b.cells j := by
  unfold clearRow forUp
  rw [cells_markRowDirty, cells_loop_clearCell]
  simp only [cellIdx_eq, TERM_COLS_eq, inGrid_iff]
  norm_num
  split_ifs <;> first | rfl | (exfalso; omega)

theorem cells_loop_clearRow (j : Int) :
    ∀ (k : Nat) (lo : Int) (b : TermBuffer),
      (loopUp (fun r b => clearRow b r) k lo b).cells j =
        if cellIdx lo 0 ≤ j ∧ j < cellIdx (lo + k) 0 ∧ inGrid j then TermCell.blank
        else b.cells j := by
  intro k
  induction k with
  | zero =>
    intro lo b
    simp only [loopUp, cellIdx_eq]
    rw [if_neg]; push_cast; omega
  | succ k ih =>
    intro lo b
    simp only [loopUp]
    rw [ih, cells_clearRow]
    simp only [cellIdx_eq, inGrid_iff]
    push_cast
    split_ifs <;> first | rfl | (exfalso; omega)

theorem cells_clearRows (b : TermBuffer) (lo hi j : Int) :
    (forUp lo hi (fun r b => clearRow b r) b).cells j =
      if cellIdx lo 0 ≤ j ∧ j < cellIdx hi 0 ∧ inGrid j then TermCell.blank else b.cells j := by
  unfold forUp
  rw [cells_loop_clearRow]
  simp only [cellIdx_eq, inGrid_iff]
  split_ifs <;> first | rfl | (exfalso; omega)

theorem cells_loop_copyUp (n j : Int) (hn : 0 ≤ n) :
    ∀ (k : Nat) (lo : Int) (b : TermBuffer),
      (loopUp (fun r b => markRowDirty { b with cells := b.cells.copyRow r (r + n) } r) k lo b).cells j =
        if cellIdx lo 0 ≤ j ∧ j < cellIdx (lo + k) 0 ∧ inGrid j then b.cells (j + n * 78)
        else b.cells j := by
  intro k
  induction k with
  | zero =>
    intro lo b
    simp only [loopUp, cellIdx_eq]
    rw [if_neg]; push_cast; omega
  | succ k ih =>
    intro lo b
    simp only [loopUp]
    rw [ih]
    simp only [cells_markRowDirty, Grid.copyRow, cellIdx_eq, inGrid_iff, TERM_COLS_eq]
    push_cast
    split_ifs <;> first | rfl | (exfalso; omega) | (congr 1; omega)

/-- Cells after a region scroll up of a region `[top, bottom]` by `n ≥ 1` rows, with
`m = min n (bottom - top + 1)`: rows `[top, bottom - m]` hold the old rows `m` below, rows
`[bottom - m + 1, bottom]` are blank, everything else is as before. -/
theorem cells_scrollRegionUp (b : TermBuffer) (top bottom n j : Int) (hn : 1 ≤ n)
    (htb : top ≤ bottom) :
    (scrollRegionUp b top bottom n).cells j =
      if cellIdx top 0 ≤ j ∧ j < cellIdx (bottom - min n (bottom - top + 1) + 1) 0 ∧ inGrid j then
        b.cells (j + min n (bottom - top + 1) * 78)
      else if cellIdx (bottom - min n (bottom - top + 1) + 1) 0 ≤ j ∧ j < cellIdx (bottom + 1) 0
          ∧ inGrid j then TermCell.blank
      else b.cells j := by
  unfold scrollRegionUp
  rw [if_neg (by omega)]
  have hm : (if n > bottom - top + 1 then bottom - top + 1 else n) = min n (bottom - top + 1) := by
    split_ifs <;> omega
  simp only [hm]
  have hm1 : 1 ≤ min n (bottom - top + 1) := by omega
  have hm2 : min n (bottom - top + 1) ≤ bottom - top + 1 := by omega
  generalize min n (bottom - top + 1) = m at hm1 hm2 ⊢
  rw [cells_clearRows]
  unfold forUp
  rw [cells_loop_copyUp m j (by omega)]
  simp only [cellIdx_eq, inGrid_iff]
  split_ifs <;> first | rfl | (exfalso; omega)

end TermBuffer

namespace TermBuffer

theorem slots_of_ctl {b b' : TermBuffer} (h : b'.ctl = b.ctl) : b'.slots = b.slots := by
  cases b; cases b'
  simp only [ctl, Ctl.mk.injEq] at h
  simp only [slots, Slots.mk.injEq]
  tauto

@[simp] theorem slots_setBgBright (b : TermBuffer) (v : Nat) : (setBgBright b v).slots = b.slots := by
  cases b; rfl
@[simp] theorem slots_clearDirty (b : TermBuffer) : (clearDirty b).slots = b.slots := by
  cases b; rfl
@[simp] theorem slots_markAllDirty (b : TermBuffer) : (markAllDirty b).slots = b.slots := by
  cases b; rfl
@[simp] theorem slots_markRowDirty (b : TermBuffer) (r : Int) : (markRowDirty b r).slots = b.slots :=
  slots_of_ctl (ctl_markRowDirty b r)
@[simp] theorem slots_clampCursor (b : TermBuffer) : (clampCursor b).slots = b.slots := by
  unfold clampCursor; simp only []; repeat' split
  all_goals rfl
@[simp] theorem slots_setCursor (b : TermBuffer) (r c : Int) : (setCursor b r c).slots = b.slots := by
  unfold setCursor; rw [slots_clampCursor]; rfl
@[simp] theorem slots_moveCursorUp (b : TermBuffer) (n : Int) : (moveCursorUp b n).slots = b.slots := by
  unfold moveCursorUp; simp only []; split <;> rfl
@[simp] theorem slots_moveCursorDown (b : TermBuffer) (n : Int) : (moveCursorDown b n).slots = b.slots := by
  unfold moveCursorDown; simp only []; split <;> rfl
@[simp] theorem slots_moveCursorForward (b : TermBuffer) (n : Int) :
    (moveCursorForward b n).slots = b.slots := by
  unfold moveCursorForward; simp only []; split <;> rfl
@[simp] theorem slots_moveCursorBack (b : TermBuffer) (n : Int) : (moveCursorBack b n).slots = b.slots := by
  unfold moveCursorBack; simp only []; split <;> rfl
@[simp] theorem slots_carriageReturn (b : TermBuffer) : (carriageReturn b).slots = b.slots := by
  cases b; rfl
@[simp] theorem slots_scrollUp (b : TermBuffer) (n : Int) : (scrollUp b n).slots = b.slots :=
  slots_of_ctl (ctl_scrollUp b n)
@[simp] theorem slots_scrollDown (b : TermBuffer) (n : Int) : (scrollDown b n).slots = b.slots :=
  slots_of_ctl (ctl_scrollDown b n)
@[simp] theorem slots_lineFeed (b : TermBuffer) : (lineFeed b).slots = b.slots := by
  unfold lineFeed; split_ifs
  · exact slots_scrollUp b 1
  · rfl
  · rfl
@[simp] theorem slots_reverseIndex (b : TermBuffer) : (reverseIndex b).slots = b.slots := by
  unfold reverseIndex; split_ifs
  · exact slots_scrollDown b 1
  · rfl
  · rfl
theorem putChar_eq (b : TermBuffer) (cp : Nat) :
    putChar b cp =
      advance (markRowDirty (writeCell (wrapIfPending b) cp) (wrapIfPending b).curRow) := rfl

@[simp] theorem slots_wrapIfPending (b : TermBuffer) : (wrapIfPending b).slots = b.slots := by
  unfold wrapIfPending; split
  · rw [slots_lineFeed]; rfl
  · rfl

@[simp] theorem slots_advance (b : TermBuffer) : (advance b).slots = b.slots := by
  unfold advance; simp only []; split <;> rfl

@[simp] theorem slots_putChar (b : TermBuffer) (cp : Nat) : (putChar b cp).slots = b.slots := by
  rw [putChar_eq, slots_advance, slots_markRowDirty]
  exact slots_wrapIfPending b
@[simp] theorem slots_tab (b : TermBuffer) : (tab b).slots = b.slots := by
  cases b; rfl
@[simp] theorem slots_backspace (b : TermBuffer) : (backspace b).slots = b.slots := by
  unfold backspace; simp only []; split <;> rfl
@[simp] theorem slots_eraseLine (b : TermBuffer) (m : Int) : (eraseLine b m).slots = b.slots :=
  slots_of_ctl (ctl_eraseLine b m)
@[simp] theorem slots_eraseDisplay (b : TermBuffer) (m : Int) : (eraseDisplay b m).slots = b.slots :=
  slots_of_ctl (ctl_eraseDisplay b m)
@[simp] theorem slots_insertLines (b : TermBuffer) (n : Int) : (insertLines b n).slots = b.slots :=
  slots_of_ctl (ctl_insertLines b n)
@[simp] theorem slots_deleteLines (b : TermBuffer) (n : Int) : (deleteLines b n).slots = b.slots :=
  slots_of_ctl (ctl_deleteLines b n)
@[simp] theorem slots_insertChars (b : TermBuffer) (n : Int) : (insertChars b n).slots = b.slots :=
  slots_of_ctl (ctl_insertChars b n)
@[simp] theorem slots_deleteChars (b : TermBuffer) (n : Int) : (deleteChars b n).slots = b.slots :=
  slots_of_ctl (ctl_deleteChars b n)
@[simp] theorem slots_eraseChars (b : TermBuffer) (n : Int) : (eraseChars b n).slots = b.slots :=
  slots_of_ctl (ctl_eraseChars b n)
@[simp] theorem slots_restoreCursor (b : TermBuffer) : (restoreCursor b).slots = b.slots := by
  unfold restoreCursor; rw [slots_clampCursor]; rfl
@[simp] theorem slots_setAttr (b : TermBuffer) (a : Nat) : (setAttr b a).slots = b.slots := by
  cases b; rfl
@[simp] theorem slots_clearAttr (b : TermBuffer) (a : Nat) : (clearAttr b a).slots = b.slots := by
  cases b; rfl
@[simp] theorem slots_resetAttrs (b : TermBuffer) : (resetAttrs b).slots = b.slots := by
  cases b; rfl

end TermBuffer

namespace TermBuffer

@[simp] theorem ctl_markAllDirty (b : TermBuffer) : (markAllDirty b).ctl = b.ctl := by
  cases b; rfl

theorem new_eq : TermBuffer.new = { dirtyRows := 16777215 } := by
  apply eq_of_parts
  · funext j
    unfold TermBuffer.new markAllDirty
    simp only []
    rw [cells_clearRows]
    split_ifs <;> rfl
  · rfl
  · unfold TermBuffer.new
    rw [ctl_markAllDirty, ctl_clearRows]
    rfl

@[simp] theorem regionOK_saveCursor (b : TermBuffer) :
    (saveCursor b).slots.regionOK ↔ b.slots.regionOK := by
  cases b; exact Iff.rfl

@[simp] theorem regionOK_setScrollRegion (b : TermBuffer) (t bo : Int) (hb : b.slots.regionOK) :
    (setScrollRegion b t bo).slots.regionOK := by
  unfold setScrollRegion
  simp only []
  split_ifs <;> simp only [Slots.regionOK, slots, TERM_ROWS_eq] at * <;> omega

@[simp] theorem regionOK_switchScreen (b : TermBuffer) (alt : Bool) (hb : b.slots.regionOK) :
    (switchScreen b alt).slots.regionOK := by
  unfold switchScreen
  split
  · exact hb
  · simp only [Slots.regionOK, slots, TERM_ROWS_eq]; omega

end TermBuffer

theorem ite_prop {α : Type} (P : α → Prop) (c : Prop) [Decidable c] (x y : α)
    (hx : P x) (hy : P y) : P (if c then x else y) := by
  split <;> assumption

namespace VtParser
open TermBuffer

theorem slots_sgrBody (p : VtParser) (b : TermBuffer) (i : Int) :
    (sgrBody p b i).1.slots = b.slots := by
  unfold sgrBody
  repeat' first
    | rfl
    | refine ite_prop (fun r : TermBuffer × Int => r.1.slots = b.slots) _ _ _ ?_ ?_
    | (show TermBuffer.slots _ = b.slots
       refine ite_prop (fun r : TermBuffer => r.slots = b.slots) _ _ _ ?_ ?_)

theorem slots_sgrLoop (p : VtParser) :
    ∀ (fuel : Nat) (i : Int) (b : TermBuffer), (sgrLoop p fuel i b).slots = b.slots := by
  intro fuel
  induction fuel with
  | zero => intro i b; rfl
  | succ k ih =>
    intro i b
    unfold sgrLoop
    split_ifs
    · simp only []
      rw [ih, slots_sgrBody]
    · rfl

@[simp] theorem slots_handleSgr (p : VtParser) : (handleSgr p).buf.slots = p.buf.slots := by
  unfold handleSgr
  split_ifs
  · rfl
  · exact slots_sgrLoop p _ _ _

theorem regionOK_dispatchCsi (p : VtParser) (cmd : Nat) (h : p.buf.slots.regionOK) :
    (dispatchCsi p cmd).buf.slots.regionOK := by
  unfold dispatchCsi
  simp only [apply_ite VtParser.buf, apply_ite TermBuffer.slots, apply_ite Slots.regionOK,
      apply_ite (TermBuffer.switchScreen · true), ite_self, if_true,
      slots_moveCursorUp, slots_moveCursorDown, slots_moveCursorForward,
      slots_moveCursorBack, slots_carriageReturn, slots_setCursor, slots_eraseDisplay,
      slots_eraseLine, slots_insertLines, slots_deleteLines, slots_deleteChars,
      slots_insertChars, slots_scrollUp, slots_scrollDown, slots_handleSgr,
      slots_restoreCursor, slots_eraseChars, regionOK_saveCursor, regionOK_setScrollRegion,
      regionOK_switchScreen, h]

theorem regionOK_handleCsiParam (p : VtParser) (byte : Nat) (h : p.buf.slots.regionOK) :
    (handleCsiParam p byte).buf.slots.regionOK := by
  unfold handleCsiParam
  simp only [apply_ite VtParser.buf, apply_ite TermBuffer.slots, apply_ite Slots.regionOK,
    ite_self, regionOK_dispatchCsi, h]

theorem regionOK_handleCsiEntry (p : VtParser) (byte : Nat) (h : p.buf.slots.regionOK) :
    (handleCsiEntry p byte).buf.slots.regionOK := by
  unfold handleCsiEntry
  simp only [apply_ite VtParser.buf, apply_ite TermBuffer.slots, apply_ite Slots.regionOK,
    ite_self, regionOK_handleCsiParam, h]

@[simp] theorem resetParams_buf (p : VtParser) : (resetParams p).buf = p.buf := by
  cases p; rfl

theorem regionOK_handleEscape (p : VtParser) (byte : Nat) (h : p.buf.slots.regionOK) :
    (handleEscape p byte).buf.slots.regionOK := by
  unfold handleEscape
  simp only [resetParams_buf, apply_ite VtParser.buf, apply_ite TermBuffer.slots, apply_ite Slots.regionOK,
    ite_self, slots_lineFeed, slots_reverseIndex, slots_restoreCursor, regionOK_saveCursor,
    regionOK_setScrollRegion, slots_resetAttrs, slots_setCursor, slots_eraseDisplay, h]

theorem regionOK_handleGroundByte (p : VtParser) (byte : Nat) (h : p.buf.slots.regionOK) :
    (handleGroundByte p byte).buf.slots.regionOK := by
  unfold handleGroundByte
  simp only [apply_ite VtParser.buf, apply_ite TermBuffer.slots, apply_ite Slots.regionOK,
    ite_self, slots_backspace, slots_tab, slots_lineFeed, slots_carriageReturn, slots_putChar, h]

theorem regionOK_handleGround (p : VtParser) (byte : Nat) (h : p.buf.slots.regionOK) :
    (handleGround p byte).buf.slots.regionOK := by
  unfold handleGround
  simp only [apply_ite VtParser.buf, apply_ite TermBuffer.slots, apply_ite Slots.regionOK,
    ite_self, slots_putChar, regionOK_handleGroundByte, h]

theorem regionOK_feed (p : VtParser) (byte : Nat) (h : p.buf.slots.regionOK) :
    (feed p byte).buf.slots.regionOK := by
  unfold feed
  split
  · exact regionOK_handleGround _ _ h
  · exact regionOK_handleEscape _ _ h
  · exact regionOK_handleCsiEntry _ _ h
  · exact regionOK_handleCsiParam _ _ h
  · split_ifs <;> exact h
  · exact h

/-- Feeding bytes keeps a valid scroll region valid, as far as the embedding goes: only
`setScrollRegion` and `switchScreen` write the region, and a store outside the cell array,
which in the source can overwrite it, is not represented. -/
theorem regionOK_feedAll (bytes : List Nat) :
    ∀ p : VtParser, p.buf.slots.regionOK → (feedAll p bytes).buf.slots.regionOK := by
  induction bytes with
  | nil => intro p h; exact h
  | cons x xs ih => intro p h; exact ih (feed p x) (regionOK_feed p x h)

end VtParser

namespace TermBuffer

theorem wrapInt_small {x : Int} (h : -2147483648 ≤ x ∧ x < 2147483648) : wrapInt x = x := by
  unfold wrapInt; omega

@[simp] theorem curRow_markRowDirty (b : TermBuffer) (r : Int) :
    (markRowDirty b r).curRow = b.curRow := congrArg Ctl.curRow (ctl_markRowDirty b r)
@[simp] theorem curCol_markRowDirty (b : TermBuffer) (r : Int) :
    (markRowDirty b r).curCol = b.curCol := congrArg Ctl.curCol (ctl_markRowDirty b r)
@[simp] theorem wrapPending_markRowDirty (b : TermBuffer) (r : Int) :
    (markRowDirty b r).wrapPending = b.wrapPending := congrArg Ctl.wrapPending (ctl_markRowDirty b r)

theorem wrapIfPending_of_not {b : TermBuffer} (h : b.wrapPending = false) : wrapIfPending b = b := by
  unfold wrapIfPending; rw [h]; rfl

/-- The cursor after `putChar`, in terms of the buffer after the deferred wrap. -/
theorem putChar_cursor (b : TermBuffer) (cp : Nat) (hc : 0 ≤ (wrapIfPending b).curCol ∧ (wrapIfPending b).curCol < TERM_COLS) :
    (putChar b cp).curRow = (wrapIfPending b).curRow ∧
    (putChar b cp).curCol = min ((wrapIfPending b).curCol + 1) (TERM_COLS - 1) ∧
    (putChar b cp).wrapPending =
      (if (wrapIfPending b).curCol + 1 ≥ TERM_COLS then true else (wrapIfPending b).wrapPending) := by
  rw [putChar_eq]
  generalize wrapIfPending b = w at *
  unfold advance
  rw [TERM_COLS_eq] at *
  simp only [curCol_markRowDirty, curRow_markRowDirty, wrapPending_markRowDirty, writeCell]
  rw [wrapInt_small (by omega)]
  by_cases h : w.curCol + 1 ≥ 78
  · rw [if_pos h, if_pos h]
    exact ⟨rfl, by simp only []; omega, rfl⟩
  · rw [if_neg h, if_neg h]
    simp only [curCol_markRowDirty, curRow_markRowDirty, wrapPending_markRowDirty]
    exact ⟨trivial, by omega, trivial⟩

theorem putChar_cells (b : TermBuffer) (cp : Nat) :
    (putChar b cp).cells =
      (wrapIfPending b).cells.set (cellIdx (wrapIfPending b).curRow (wrapIfPending b).curCol)
        { codepoint := cp % 65536, attrs := (wrapIfPending b).attrs,
          bgBright := (wrapIfPending b).bgBright } := by
  rw [putChar_eq]
  generalize wrapIfPending b = w
  unfold advance
  simp only []
  split_ifs <;> simp only [cells_markRowDirty, writeCell]

theorem wrapIfPending_of_pending {b : TermBuffer} (h : b.wrapPending = true) :
    wrapIfPending b = lineFeed { b with wrapPending := false, curCol := 0 } := by
  unfold wrapIfPending; rw [h]; rfl

theorem lineFeed_next {b : TermBuffer} (h1 : b.curRow ≠ b.scrollBottom)
    (h2 : b.curRow < TERM_ROWS - 1) : lineFeed b = { b with curRow := b.curRow + 1 } := by
  unfold lineFeed; rw [if_neg h1, if_pos h2]

theorem cellAt_set (g : Grid) (i : Int) (c : TermCell) (j : Int) :
    (g.set i c) j = if j = i ∧ inGrid i then c else g j := rfl

theorem lineFeed_scroll {b : TermBuffer} (h1 : b.curRow = b.scrollBottom) :
    lineFeed b = scrollRegionUp b b.scrollTop b.scrollBottom 1 := by
  unfold lineFeed scrollUp; rw [if_pos h1]

theorem lineFeed_stay {b : TermBuffer} (h1 : b.curRow ≠ b.scrollBottom)
    (h2 : ¬ b.curRow < TERM_ROWS - 1) : lineFeed b = b := by
  unfold lineFeed; rw [if_neg h1, if_neg h2]

theorem putChar_attrs (b : TermBuffer) (cp : Nat) (hw : b.wrapPending = false) :
    (b.putChar cp).attrs = b.attrs ∧ (b.putChar cp).bgBright = b.bgBright := by
  rw [putChar_eq, wrapIfPending_of_not hw]
  unfold advance
  simp only []
  split_ifs <;> exact ⟨congrArg Ctl.attrs (ctl_markRowDirty _ _),
    congrArg Ctl.bgBright (ctl_markRowDirty _ _)⟩

end TermBuffer

namespace TermBuffer

theorem noRegion_setScrollRegion (b : TermBuffer) (t bo : Int) :
    (setScrollRegion b t bo).slots.noRegion = b.slots.noRegion := by
  unfold setScrollRegion
  simp only []
  split_ifs <;> rfl

end TermBuffer

namespace VtParser

open TermBuffer

theorem keep_dispatchCsi (p : VtParser) (cmd : Nat) (h : ¬ p.csiSwitchesOrSaves cmd) :
    (dispatchCsi p cmd).buf.slots.noRegion = p.buf.slots.noRegion := by
  unfold csiSwitchesOrSaves at h
  unfold dispatchCsi
  by_cases hq : p.questionMark = true
  · rw [if_pos hq] at h
    simp only [hq, if_true]
    split_ifs <;> first | rfl | (exfalso; apply h; tauto)
  · rw [if_neg hq] at h
    simp only [hq, h, if_false, Bool.false_eq_true,
      apply_ite VtParser.buf, apply_ite TermBuffer.slots, apply_ite Slots.noRegion,
      slots_moveCursorUp, slots_moveCursorDown, slots_moveCursorForward,
      slots_moveCursorBack, slots_carriageReturn, slots_setCursor, slots_eraseDisplay,
      slots_eraseLine, slots_insertLines, slots_deleteLines, slots_deleteChars,
      slots_insertChars, slots_scrollUp, slots_scrollDown, slots_handleSgr,
      slots_restoreCursor, slots_eraseChars, noRegion_setScrollRegion, ite_self]

theorem keep_handleCsiParam (p : VtParser) (byte : Nat) (h : ¬ p.paramSwitchesOrSaves byte) :
    (handleCsiParam p byte).buf.slots.noRegion = p.buf.slots.noRegion := by
  unfold paramSwitchesOrSaves at h
  unfold handleCsiParam
  by_cases hd : ¬ p.hasIntermediate ∧ p.csiPrefix = 0
  · by_cases hb : byte ≥ 64 ∧ byte ≤ 126
    · have hk := keep_dispatchCsi p byte (fun hc => h ⟨hb, hd, hc⟩)
      simp only [hd, hb, if_true, apply_ite VtParser.buf, apply_ite TermBuffer.slots,
        apply_ite Slots.noRegion, hk, ite_self, and_self, not_false_eq_true]
    · simp only [hb, if_false, apply_ite VtParser.buf, apply_ite TermBuffer.slots,
        apply_ite Slots.noRegion, ite_self]
  · simp only [hd, if_false, apply_ite VtParser.buf, apply_ite TermBuffer.slots,
      apply_ite Slots.noRegion, ite_self]

theorem keep_handleCsiEntry (p : VtParser) (byte : Nat) (h : ¬ p.paramSwitchesOrSaves byte) :
    (handleCsiEntry p byte).buf.slots.noRegion = p.buf.slots.noRegion := by
  unfold handleCsiEntry
  have hk := keep_handleCsiParam { p with state := State.CsiParam } byte h
  simp only [apply_ite VtParser.buf, apply_ite TermBuffer.slots, apply_ite Slots.noRegion, hk,
    ite_self]

theorem keep_handleEscape (p : VtParser) (byte : Nat) (h : byte ≠ 55) :
    (handleEscape p byte).buf.slots.noRegion = p.buf.slots.noRegion := by
  unfold handleEscape
  simp only [h, if_false, resetParams_buf, apply_ite VtParser.buf, apply_ite TermBuffer.slots,
    apply_ite Slots.noRegion, slots_lineFeed, slots_reverseIndex, slots_restoreCursor,
    noRegion_setScrollRegion, slots_resetAttrs, slots_setCursor, slots_eraseDisplay, ite_self]

theorem slots_handleGroundByte (p : VtParser) (byte : Nat) :
    (handleGroundByte p byte).buf.slots = p.buf.slots := by
  unfold handleGroundByte
  simp only [apply_ite VtParser.buf, apply_ite TermBuffer.slots, slots_backspace, slots_tab,
    slots_lineFeed, slots_carriageReturn, slots_putChar, ite_self]

theorem slots_handleGround (p : VtParser) (byte : Nat) :
    (handleGround p byte).buf.slots = p.buf.slots := by
  unfold handleGround
  simp only [apply_ite VtParser.buf, apply_ite TermBuffer.slots, slots_putChar,
    slots_handleGroundByte, ite_self]

theorem keep_feed (p : VtParser) (byte : Nat) (h : ¬ p.switchesOrSaves byte) :
    (feed p byte).buf.slots.noRegion = p.buf.slots.noRegion := by
  unfold switchesOrSaves at h
  unfold feed
  split <;> rename_i hs <;> simp only [hs] at h
  · rw [slots_handleGround]
  · exact keep_handleEscape p byte h
  · exact keep_handleCsiEntry p byte h
  · exact keep_handleCsiParam p byte h
  · split_ifs <;> rfl
  · rfl

theorem keep_feedAll (bytes : List Nat) :
    ∀ p : VtParser, avoidsSwitchAndSave p bytes = true →
      (feedAll p bytes).buf.slots.noRegion = p.buf.slots.noRegion := by
  induction bytes with
  | nil => intro p _; rfl
  | cons x xs ih =>
    intro p h
    unfold avoidsSwitchAndSave at h
    simp only [Bool.and_eq_true, Bool.not_eq_true', decide_eq_false_iff_not] at h
    exact (ih (feed p x) h.2).trans (keep_feed p x h.1)

theorem loop_setParam_zero (j : Int) :
    ∀ (k : Nat) (lo : Int) (ps : Int → Int),
      loopUp (fun i ps => setParam ps i 0) k lo ps j =
        if lo ≤ j ∧ j < lo + k then 0 else ps j := by
  intro k
  induction k with
  | zero => intro lo ps; simp only [loopUp]; rw [if_neg]; push_cast; omega
  | succ k ih =>
    intro lo ps
    simp only [loopUp]
    rw [ih]
    unfold setParam
    push_cast
    split_ifs <;> first | rfl | (exfalso; omega)

theorem resetParams_params_zero (p : VtParser) : (resetParams p).params 0 = 0 := by
  unfold resetParams forUp
  simp only []
  rw [loop_setParam_zero]
  rw [if_pos]
  decide

theorem feed_esc (p : VtParser) (hs : p.state = State.Ground) :
    (feed p 27).state = State.Escape ∧ (feed p 27).buf = p.buf := by
  unfold feed
  simp only [hs]
  unfold handleGround
  split_ifs with h1 h2
  · exact absurd h2 (by decide)
  · exact ⟨rfl, rfl⟩
  · exact ⟨rfl, rfl⟩

theorem feed_csi_question (q : VtParser) (hs : q.state = State.Escape) :
    readingPrivate (feed (feed q 91) 63) q.buf 0 0 := by
  have h1 : feed q 91 = resetParams { q with state := State.CsiEntry } := by
    unfold feed
    simp only [hs]
    unfold handleEscape
    rw [if_pos rfl]
  rw [h1]
  have h0 := resetParams_params_zero { q with state := State.CsiEntry }
  generalize hr : resetParams { q with state := State.CsiEntry } = r at h0
  have hf : r.state = State.CsiEntry ∧ r.buf = q.buf ∧ r.paramCount = 0 ∧
      r.hasIntermediate = false ∧ r.csiPrefix = 0 := by
    rw [← hr]; exact ⟨rfl, rfl, rfl, rfl, rfl⟩
  obtain ⟨f1, f2, f3, f4, f5⟩ := hf
  unfold feed
  simp only [f1]
  unfold handleCsiEntry
  rw [if_pos rfl]
  exact ⟨rfl, f2, rfl, f4, f5, f3, h0⟩

theorem feed_digit (s : VtParser) (b : TermBuffer) (v cnt : Int) (d : Nat)
    (h : readingPrivate s b v cnt) (hc : cnt = 0 ∨ cnt = 1) (hd : 48 ≤ d ∧ d ≤ 57) :
    readingPrivate (feed s d) b (wrapInt (wrapInt (v * 10) + ((d - 48 : Nat) : Int))) 1 := by
  obtain ⟨f1, f2, f3, f4, f5, f6, f7⟩ := h
  unfold feed
  simp only [f1]
  unfold handleCsiParam
  rw [if_pos hd]
  rcases hc with hc | hc
  · subst hc
    simp only [f6, if_true]
    refine ⟨f1, f2, f3, f4, f5, rfl, ?_⟩
    simp only [setParam, sub_self, if_true, f7]
  · subst hc
    have : ¬ s.paramCount = 0 := by rw [f6]; decide
    simp only [this, if_false]
    refine ⟨f1, f2, f3, f4, f5, f6, ?_⟩
    simp only [setParam, f6, sub_self, if_true, f7]

theorem feed_mode_1049 (p : VtParser) (hs : p.state = State.Ground) :
    readingPrivate (feedAll p [27, 91, 63, 49, 48, 52, 57]) p.buf 1049 1 := by
  obtain ⟨e1, e2⟩ := feed_esc p hs
  have h0 := feed_csi_question (feed p 27) e1
  rw [e2] at h0
  have h1 := feed_digit _ _ _ _ 49 h0 (Or.inl rfl) (by decide)
  have h2 := feed_digit _ _ _ _ 48 h1 (Or.inr rfl) (by decide)
  have h3 := feed_digit _ _ _ _ 52 h2 (Or.inr rfl) (by decide)
  have h4 := feed_digit _ _ _ _ 57 h3 (Or.inr rfl) (by decide)
  have hv : wrapInt (wrapInt (wrapInt (wrapInt (wrapInt (wrapInt (wrapInt (wrapInt
      ((0 : Int) * 10) + ((49 - 48 : Nat) : Int)) * 10) + ((48 - 48 : Nat) : Int)) * 10)
        + ((52 - 48 : Nat) : Int)) * 10) + ((57 - 48 : Nat) : Int)) = 1049 := by decide
  rw [hv] at h4
  exact h4

theorem handleCsiParam_final (s : VtParser) (byte : Nat) (hb : byte ≥ 64 ∧ byte ≤ 126)
    (hc : ¬ s.hasIntermediate = true ∧ s.csiPrefix = 0) :
    handleCsiParam s byte = { dispatchCsi s byte with state := State.Ground } := by
  unfold handleCsiParam
  rw [if_neg (show ¬ (byte ≥ 48 ∧ byte ≤ 57) by omega), if_neg (show ¬ byte = 59 by omega),
    if_neg (show ¬ (byte ≥ 32 ∧ byte ≤ 47) by omega), if_pos hb]
  simp only [if_pos hc]

theorem feed_private_final (s : VtParser) (b : TermBuffer) (h : readingPrivate s b 1049 1) :
    ((feed s 104).state = State.Ground ∧ (feed s 104).buf = (b.saveCursor).switchScreen true) ∧
    ((feed s 108).state = State.Ground ∧
      (feed s 108).buf = (b.switchScreen false).restoreCursor) := by
  obtain ⟨f1, f2, f3, f4, f5, f6, f7⟩ := h
  have hp : s.param 0 0 = 1049 := by
    unfold param; rw [f6, f7]; decide
  have hd104 : (dispatchCsi s 104).buf = (s.buf.saveCursor).switchScreen true := by
    unfold dispatchCsi
    simp only [f3, hp, if_true]
    norm_num
  have hd108 : (dispatchCsi s 108).buf = (s.buf.switchScreen false).restoreCursor := by
    unfold dispatchCsi
    simp only [f3, hp, if_true]
    norm_num
  have hc : ¬ s.hasIntermediate = true ∧ s.csiPrefix = 0 := by rw [f4, f5]; decide
  unfold feed
  simp only [f1]
  rw [handleCsiParam_final s 104 (by decide) hc, handleCsiParam_final s 108 (by decide) hc]
  simp only []
  rw [hd104, hd108, f2]
  exact ⟨⟨trivial, rfl⟩, trivial, rfl⟩

end VtParser

namespace TermBuffer

theorem altStore_of_slots {b b' : TermBuffer} (h : b'.slots = b.slots) :
    b'.altStore = b.altStore := by
  cases b; cases b'
  simp only [slots, Slots.mk.injEq] at h
  simp only [altStore, AltStore.mk.injEq]
  tauto

theorem altStore_saveCursor (b : TermBuffer) : (saveCursor b).altStore = b.altStore := by
  cases b; rfl

theorem altStore_setScrollRegion (b : TermBuffer) (t bo : Int) :
    (setScrollRegion b t bo).altStore = b.altStore := by
  unfold setScrollRegion
  simp only []
  split_ifs <;> rfl

theorem altStore_run (b : TermBuffer) (op : BufOp) : (op.run b).altStore = b.altStore := by
  cases op <;>
    first
    | exact altStore_saveCursor b
    | exact altStore_setScrollRegion b _ _
    | exact altStore_of_slots (by simp only [BufOp.run, slots_putChar, slots_setCursor,
        slots_moveCursorUp, slots_moveCursorDown, slots_moveCursorForward, slots_moveCursorBack,
        slots_carriageReturn, slots_lineFeed, slots_reverseIndex, slots_tab, slots_backspace,
        slots_eraseLine, slots_eraseDisplay, slots_scrollUp, slots_scrollDown, slots_insertLines,
        slots_deleteLines, slots_insertChars, slots_deleteChars, slots_restoreCursor,
        slots_eraseChars, slots_setAttr, slots_clearAttr, slots_resetAttrs, slots_setBgBright,
        slots_clearDirty, slots_markRowDirty, slots_markAllDirty])

theorem altStore_runAll (ops : List BufOp) :
    ∀ b : TermBuffer, (BufOp.runAll b ops).altStore = b.altStore := by
  induction ops with
  | nil => intro b; rfl
  | cons op ops ih => intro b; exact (ih (op.run b)).trans (altStore_run b op)

/-- Entering the alternate screen from the primary one. -/
theorem switchScreen_enter (b : TermBuffer) (h : b.altActive = false) :
    (∀ j, (switchScreen b true).cells j = if inGrid j then TermCell.blank else b.cells j) ∧
    (switchScreen b true).curRow = 0 ∧ (switchScreen b true).curCol = 0 ∧
    (switchScreen b true).altCells = Grid.copyAll b.altCells b.cells ∧
    (switchScreen b true).altSavedRow = b.curRow ∧
    (switchScreen b true).altSavedCol = b.curCol ∧
    (switchScreen b true).altActive = true ∧
    (switchScreen b true).savedRow = b.savedRow ∧
    (switchScreen b true).savedCol = b.savedCol := by
  have hs : switchScreen b true =
      { enterAlt b with scrollTop := 0, scrollBottom := TERM_ROWS - 1, wrapPending := false,
                        altActive := true } := by
    unfold switchScreen
    rw [if_neg (by rw [h]; decide), if_pos rfl]
  have hctl := ctl_clearRows
    { b with altSavedRow := b.curRow, altSavedCol := b.curCol,
             altCells := Grid.copyAll b.altCells b.cells } 0 TERM_ROWS
  have hcells := cells_clearRows
    { b with altSavedRow := b.curRow, altSavedCol := b.curCol,
             altCells := Grid.copyAll b.altCells b.cells } 0 TERM_ROWS
  rw [hs]
  unfold enterAlt
  generalize forUp 0 TERM_ROWS (fun r b => clearRow b r)
    { b with altSavedRow := b.curRow, altSavedCol := b.curCol,
             altCells := Grid.copyAll b.altCells b.cells } = L at hctl hcells
  refine ⟨?_, rfl, rfl, congrArg Ctl.altCells hctl, congrArg Ctl.altSavedRow hctl,
    congrArg Ctl.altSavedCol hctl, rfl, congrArg Ctl.savedRow hctl, congrArg Ctl.savedCol hctl⟩
  intro j
  show L.cells j = _
  rw [hcells]
  simp only [cellIdx_eq, inGrid_iff, TERM_ROWS_eq]
  split_ifs <;> first | rfl | (exfalso; omega)

/-- Leaving the alternate screen. -/
theorem switchScreen_leave (b : TermBuffer) (h : b.altActive = true) :
    (switchScreen b false).cells = Grid.copyAll b.cells b.altCells ∧
    (switchScreen b false).curRow = b.altSavedRow ∧
    (switchScreen b false).curCol = b.altSavedCol ∧
    (switchScreen b false).savedRow = b.savedRow ∧
    (switchScreen b false).savedCol = b.savedCol ∧
    (switchScreen b false).altActive = false := by
  have hs : switchScreen b false =
      { leaveAlt b with scrollTop := 0, scrollBottom := TERM_ROWS - 1, wrapPending := false,
                        altActive := false } := by
    unfold switchScreen
    rw [if_neg (by rw [h]; decide), if_neg (by decide)]
  rw [hs]
  exact ⟨rfl, rfl, rfl, rfl, rfl, rfl⟩

end TermBuffer

namespace TermBuffer

theorem clampCursor_of_inside (b : TermBuffer) (hr : 0 ≤ b.curRow ∧ b.curRow < TERM_ROWS)
    (hc : 0 ≤ b.curCol ∧ b.curCol < TERM_COLS) : clampCursor b = b := by
  have h1 : ¬ b.curRow < 0 := by omega
  have h2 : ¬ b.curRow ≥ TERM_ROWS := by omega
  have h3 : ¬ b.curCol < 0 := by omega
  have h4 : ¬ b.curCol ≥ TERM_COLS := by omega
  unfold clampCursor
  simp only [h1, h2, h3, h4, if_false]

end TermBuffer

namespace VtParser

open TermBuffer

theorem feedAll_append (p : VtParser) (xs ys : List Nat) :
    feedAll p (xs ++ ys) = feedAll (feedAll p xs) ys := by
  unfold feedAll; rw [List.foldl_append]

theorem feed_enter1049 (p : VtParser) (hs : p.state = State.Ground) :
    (feedAll p enter1049).state = State.Ground ∧
    (feedAll p enter1049).buf = (p.buf.saveCursor).switchScreen true := by
  have h := feed_mode_1049 p hs
  have e : feedAll p enter1049 = feed (feedAll p [27, 91, 63, 49, 48, 52, 57]) 104 :=
    feedAll_append p [27, 91, 63, 49, 48, 52, 57] [104]
  rw [e]
  exact (feed_private_final _ _ h).1

theorem feed_leave1049 (p : VtParser) (hs : p.state = State.Ground) :
    (feedAll p leave1049).state = State.Ground ∧
    (feedAll p leave1049).buf = (p.buf.switchScreen false).restoreCursor := by
  have h := feed_mode_1049 p hs
  have e : feedAll p leave1049 = feed (feedAll p [27, 91, 63, 49, 48, 52, 57]) 108 :=
    feedAll_append p [27, 91, 63, 49, 48, 52, 57] [108]
  rw [e]
  exact (feed_private_final _ _ h).2

end VtParser

open TermBuffer VtParser

theorem freshTerminal_eq : freshTerminal = { buf := { dirtyRows := 16777215 } } := by
  unfold freshTerminal VtParser.new
  rw [TermBuffer.new_eq]

theorem putChar_twice_at_margin (b : TermBuffer) (r : Int) (a c : Nat)
    (hr0 : 0 ≤ r) (hr1 : r < TERM_ROWS - 1) (hsb : r ≠ b.scrollBottom)
    (ha : a < 65536) (hc : c < 65536)
    (hrow : b.curRow = r) (hcol : b.curCol = TERM_COLS - 1) (hw : b.wrapPending = false) :
    (b.putChar a).cellAt r (TERM_COLS - 1) = { codepoint := a, attrs := b.attrs, bgBright := b.bgBright } ∧
    (b.putChar a).curRow = r ∧ (b.putChar a).curCol = TERM_COLS - 1 ∧
    (b.putChar a).wrapPending = true ∧
    (∀ col : Int, 0 ≤ col → col < TERM_COLS →
      ((b.putChar a).putChar c).cellAt r col = (b.putChar a).cellAt r col) ∧
    ((b.putChar a).putChar c).cellAt (r + 1) 0
      = { codepoint := c, attrs := b.attrs, bgBright := b.bgBright } ∧
    (∀ i : Int, i ≠ cellIdx (r + 1) 0 →
      ((b.putChar a).putChar c).cells i = (b.putChar a).cells i) ∧
    ((b.putChar a).putChar c).curRow = r + 1 ∧ ((b.putChar a).putChar c).curCol = 1 ∧
    ((b.putChar a).putChar c).wrapPending = false := by
  have hw0 := wrapIfPending_of_not hw
  have h1 := putChar_cursor b a (by rw [hw0, hcol, TERM_COLS_eq]; omega)
  have hcells1 := putChar_cells b a
  rw [hw0] at h1 hcells1
  rw [hcol, hrow] at h1 hcells1
  obtain ⟨h1r, h1c, h1w⟩ := h1
  have h1c' : (b.putChar a).curCol = TERM_COLS - 1 := by rw [h1c, TERM_COLS_eq]; omega
  have h1w' : (b.putChar a).wrapPending = true := by rw [h1w, TERM_COLS_eq]; simp
  -- the buffer after the first character
  generalize hb1 : b.putChar a = b1 at *
  have hslots : b1.slots = b.slots := by rw [← hb1]; exact slots_putChar b a
  have hsb1 : b1.scrollBottom = b.scrollBottom := congrArg Slots.scrollBottom hslots
  have hattr : b1.attrs = b.attrs ∧ b1.bgBright = b.bgBright := by
    rw [← hb1, putChar_eq, hw0]
    unfold advance
    simp only []
    split_ifs <;> exact ⟨congrArg Ctl.attrs (ctl_markRowDirty _ _),
      congrArg Ctl.bgBright (ctl_markRowDirty _ _)⟩
  have hwp := wrapIfPending_of_pending h1w'
  rw [lineFeed_next (by simp only []; rw [h1r, hsb1]; exact hsb)
        (by simp only []; rw [h1r]; exact hr1)] at hwp
  have h2 := putChar_cursor b1 c (by rw [hwp, TERM_COLS_eq]; simp)
  have hcells2 := putChar_cells b1 c
  rw [hwp] at h2 hcells2
  simp only [h1r, hattr.1, hattr.2] at h2 hcells2
  obtain ⟨h2r, h2c, h2w⟩ := h2
  refine ⟨?_, h1r, h1c', h1w', ?_, ?_, ?_, h2r, ?_, ?_⟩
  · unfold cellAt
    rw [hcells1, cellAt_set, if_pos]
    · rw [Nat.mod_eq_of_lt ha]
    · refine ⟨rfl, ?_⟩
      rw [inGrid_iff, cellIdx_eq, TERM_COLS_eq]; rw [TERM_ROWS_eq] at hr1; omega
  · intro col h0 h78
    unfold cellAt
    rw [hcells2, cellAt_set, if_neg]
    rw [cellIdx_eq, cellIdx_eq]; rw [TERM_COLS_eq] at h78; omega
  · unfold cellAt
    rw [hcells2, cellAt_set, if_pos]
    · rw [Nat.mod_eq_of_lt hc]
    · refine ⟨rfl, ?_⟩
      rw [inGrid_iff, cellIdx_eq]; rw [TERM_ROWS_eq] at hr1; omega
  · intro i hi
    rw [hcells2, cellAt_set, if_neg]
    intro h; exact hi h.1
  · rw [h2c, TERM_COLS_eq]; norm_num
  · rw [h2w, TERM_COLS_eq]; norm_num

theorem wrap_scenario :
    (∀ col : Int, 0 ≤ col → col < TERM_COLS →
      (feedAll freshTerminal (List.replicate 78 65 ++ [66])).buf.cellAt 0 col
        = { codepoint := 65, attrs := 0, bgBright := 255 }) ∧
    (feedAll freshTerminal (List.replicate 78 65 ++ [66])).buf.cellAt 1 0
      = { codepoint := 66, attrs := 0, bgBright := 255 } ∧
    (feedAll freshTerminal (List.replicate 78 65 ++ [66])).buf.curRow = 1 ∧
    (feedAll freshTerminal (List.replicate 78 65 ++ [66])).buf.curCol = 1 := by
  rw [freshTerminal_eq]
  decide!

theorem digitsFrom_ge (ds : List Nat) : ∀ a : Nat, a ≤ digitsFrom a ds := by
  induction ds with
  | nil => intro a; exact le_refl a
  | cons d ds ih =>
    intro a
    unfold digitsFrom
    rw [List.foldl_cons]
    exact le_trans (by omega) (ih (a * 10 + (d - 48)))

theorem digitsFrom_cons (a d : Nat) (ds : List Nat) :
    digitsFrom a (d :: ds) = digitsFrom (a * 10 + (d - 48)) ds := rfl

namespace VtParser

theorem resetParams_params (p : VtParser) (i : Nat) (hi : i < 16) :
    (resetParams p).params i = 0 := by
  unfold resetParams forUp
  simp only []
  rw [loop_setParam_zero, if_pos]
  have : MAX_PARAMS = 16 := rfl
  rw [this]
  omega

theorem feed_csi_open (p : VtParser) (hs : p.state = State.Ground) :
    csiOpened (feedAll p [27, 91]) p := by
  have h27 : (feed p 27).state = State.Escape ∧ (feed p 27).buf = p.buf ∧
      (feed p 27).serialOut = p.serialOut ∧ (feed p 27).cursorVisible = p.cursorVisible := by
    unfold feed
    simp only [hs]
    unfold handleGround
    split_ifs with h1 h2
    · exact absurd h2 (by decide)
    · exact ⟨rfl, rfl, rfl, rfl⟩
    · exact ⟨rfl, rfl, rfl, rfl⟩
  obtain ⟨e1, e2, e3, e4⟩ := h27
  have e : feedAll p [27, 91] = feed (feed p 27) 91 := rfl
  rw [e]
  generalize feed p 27 = q at e1 e2 e3 e4
  have h1 : feed q 91 = resetParams { q with state := State.CsiEntry } := by
    unfold feed
    simp only [e1]
    unfold handleEscape
    rw [if_pos rfl]
  rw [h1]
  refine ⟨rfl, e2, e3, e4, rfl, rfl, rfl, rfl, ?_⟩
  intro i hi
  exact resetParams_params _ i hi

theorem wrapInt_digit (v e : Nat) (h : v * 10 + e < 2147483648) :
    wrapInt (wrapInt ((v : Int) * 10) + (e : Int)) = ((v * 10 + e : Nat) : Int) := by
  have h1 : wrapInt ((v : Int) * 10) = (v : Int) * 10 :=
    TermBuffer.wrapInt_small (by omega)
  rw [h1, TermBuffer.wrapInt_small (by omega)]
  push_cast
  rfl

theorem csi_first_digit (s p : VtParser) (d : Nat) (h : csiOpened s p) (hd : isDigit d) :
    csiParsed (feed s d) p [d - 48] := by
  obtain ⟨f1, f2, f3, f4, f5, f6, f7, f8, f9⟩ := h
  unfold isDigit at hd
  unfold feed
  simp only [f1]
  unfold handleCsiEntry
  rw [if_neg (by omega), if_neg (by omega)]
  unfold handleCsiParam
  rw [if_pos hd]
  simp only [f8, if_true]
  refine ⟨rfl, f2, f3, f4, f5, f6, f7, rfl, ?_⟩
  intro i hi
  simp only [setParam, sub_self]
  have h0 := f9 0 (by omega)
  simp only [Nat.cast_zero] at h0
  by_cases hi0 : i = 0
  · subst hi0
    simp only [Nat.cast_zero, if_true, h0, List.getD_cons_zero]
    have := wrapInt_digit 0 (d - 48) (by omega)
    simp only [Nat.cast_zero, zero_mul, zero_add] at this ⊢
    exact this
  · have : ¬ ((i : Int) = 0) := by omega
    rw [if_neg this, f9 i hi]
    obtain ⟨k, rfl⟩ := Nat.exists_eq_succ_of_ne_zero hi0
    simp

theorem csi_digit (s p : VtParser) (vals : List Nat) (v d : Nat)
    (h : csiParsed s p (vals ++ [v])) (hd : isDigit d) (hlen : vals.length < 16)
    (hv : v * 10 + (d - 48) < 2147483648) :
    csiParsed (feed s d) p (vals ++ [v * 10 + (d - 48)]) := by
  obtain ⟨f1, f2, f3, f4, f5, f6, f7, f8, f9⟩ := h
  unfold isDigit at hd
  rw [List.length_append, List.length_singleton] at f8
  unfold feed
  simp only [f1]
  unfold handleCsiParam
  rw [if_pos hd]
  have hne : ¬ s.paramCount = 0 := by rw [f8]; omega
  simp only [hne, if_false]
  refine ⟨f1, f2, f3, f4, f5, f6, f7, ?_, ?_⟩
  · rw [f8, List.length_append, List.length_singleton]
  · intro i hi
    have hcur := f9 vals.length hlen
    rw [List.getD_append_right _ _ _ _ (le_refl _)] at hcur
    simp only [Nat.sub_self, List.getD_cons_zero] at hcur
    have hidx : s.paramCount - 1 = (vals.length : Int) := by rw [f8]; push_cast; omega
    simp only [setParam, hidx, hcur]
    by_cases hi0 : i = vals.length
    · subst hi0
      rw [if_pos rfl, List.getD_append_right _ _ _ _ (le_refl _)]
      simp only [Nat.sub_self, List.getD_cons_zero]
      exact wrapInt_digit v (d - 48) hv
    · have : ¬ ((i : Int) = (vals.length : Int)) := by omega
      rw [if_neg this, f9 i hi]
      congr 1
      by_cases hlt : i < vals.length
      · rw [List.getD_append _ _ _ _ hlt, List.getD_append _ _ _ _ hlt]
      · have hge : vals.length ≤ i := by omega
        rw [List.getD_append_right _ _ _ _ hge, List.getD_append_right _ _ _ _ hge]
        obtain ⟨k, hk⟩ : ∃ k, i - vals.length = k + 1 := ⟨i - vals.length - 1, by omega⟩
        rw [hk]
        rfl

theorem csi_digits (p : VtParser) (vals : List Nat) (hlen : vals.length < 16) (ds : List Nat) :
    ∀ (s : VtParser) (v : Nat), csiParsed s p (vals ++ [v]) → (∀ d ∈ ds, isDigit d) →
      digitsFrom v ds < 2147483648 →
      csiParsed (feedAll s ds) p (vals ++ [digitsFrom v ds]) := by
  induction ds with
  | nil => intro s v h _ _; exact h
  | cons d ds ih =>
    intro s v h hd hv
    rw [digitsFrom_cons] at hv ⊢
    have hstep := csi_digit s p vals v d h (hd d (List.mem_cons_self _ _)) hlen
      (lt_of_le_of_lt (digitsFrom_ge ds _) hv)
    exact ih (feed s d) _ hstep (fun x hx => hd x (List.mem_cons_of_mem _ hx)) hv

theorem csi_semicolon (s p : VtParser) (vals : List Nat) (h : csiParsed s p vals)
    (hlen : vals.length < 16) : csiParsed (feed s 59) p (vals ++ [0]) := by
  obtain ⟨f1, f2, f3, f4, f5, f6, f7, f8, f9⟩ := h
  unfold feed
  simp only [f1]
  unfold handleCsiParam
  rw [if_neg (by decide), if_pos rfl]
  have hlt : s.paramCount < MAX_PARAMS := by
    rw [f8]; have : MAX_PARAMS = 16 := rfl; rw [this]; omega
  rw [if_pos hlt]
  refine ⟨f1, f2, f3, f4, f5, f6, f7, ?_, ?_⟩
  · simp only []; rw [f8, List.length_append, List.length_singleton]; push_cast; rfl
  · intro i hi
    simp only []
    rw [f9 i hi]
    congr 1
    by_cases hlt : i < vals.length
    · rw [List.getD_append _ _ _ _ hlt]
    · have hge : vals.length ≤ i := by omega
      rw [List.getD_append_right _ _ _ _ hge, List.getD_eq_default _ _ hge]
      cases i - vals.length <;> rfl

/-- The first field of a parameter string. -/
theorem csi_first_field (s p : VtParser) (d : Nat) (ds : List Nat) (h : csiOpened s p)
    (hd : ∀ x ∈ d :: ds, isDigit x) (hv : digitsValue (d :: ds) < 2147483648) :
    csiParsed (feedAll s (d :: ds)) p [digitsValue (d :: ds)] := by
  have h1 := csi_first_digit s p d h (hd d (List.mem_cons_self _ _))
  have e : digitsValue (d :: ds) = digitsFrom (d - 48) ds := by
    unfold digitsValue; rw [digitsFrom_cons]; simp
  rw [e] at hv ⊢
  exact csi_digits p [] (by decide) ds (feed s d) (d - 48) h1
    (fun x hx => hd x (List.mem_cons_of_mem _ hx)) hv

/-- A further field of a parameter string, with the `;` before it. -/
theorem csi_next_field (s p : VtParser) (vals : List Nat) (ds : List Nat)
    (h : csiParsed s p vals) (hlen : vals.length < 16)
    (hd : ∀ x ∈ ds, isDigit x) (hv : digitsValue ds < 2147483648) :
    csiParsed (feedAll s (59 :: ds)) p (vals ++ [digitsValue ds]) := by
  have h1 := csi_semicolon s p vals h hlen
  exact csi_digits p vals hlen ds (feed s 59) 0 h1 hd hv

/-- The parameter accessor on a parsed parameter string. -/
theorem param_of_parsed (s p : VtParser) (vals : List Nat) (h : csiParsed s p vals)
    (i : Nat) (hi : i < 16) (dflt : Int) :
    s.param i dflt = if vals.getD i 0 = 0 then dflt else ((vals.getD i 0 : Nat) : Int) := by
  obtain ⟨-, -, -, -, -, -, -, f8, f9⟩ := h
  unfold param
  rw [f8, f9 i hi]
  by_cases hlt : i < vals.length
  · rw [if_neg (by omega)]
    simp only [Nat.cast_eq_zero]
  · have hge : vals.length ≤ i := by omega
    rw [if_pos (by omega), List.getD_eq_default _ _ hge, if_pos rfl]

end VtParser

namespace TermBuffer

theorem setCursor_eq (b : TermBuffer) (row col : Int) :
    setCursor b row col =
      { b with curRow := min (max row 0) (TERM_ROWS - 1),
               curCol := min (max col 0) (TERM_COLS - 1), wrapPending := false } := by
  unfold setCursor clampCursor
  simp only [TERM_ROWS_eq, TERM_COLS_eq]
  split_ifs <;> simp only [] at * <;> first | omega | (congr 1 <;> omega)

end TermBuffer

namespace VtParser

theorem dispatchCsi_cup (s : VtParser) (hq : s.questionMark = false) (cmd : Nat)
    (h : cmd = 72 ∨ cmd = 102) :
    dispatchCsi s cmd =
      { s with buf := s.buf.setCursor (wrapInt (s.param 0 1 - 1)) (wrapInt (s.param 1 1 - 1)) } := by
  unfold dispatchCsi
  simp only [hq, Bool.false_eq_true, if_false]
  rcases h with rfl | rfl <;> norm_num

/-- The state a complete, dispatched CSI sequence without prefix or intermediates ends in. -/
theorem feed_final (s p : VtParser) (vals : List Nat) (h : csiParsed s p vals) (byte : Nat)
    (hb : byte ≥ 64 ∧ byte ≤ 126) :
    feed s byte = { dispatchCsi s byte with state := State.Ground } := by
  obtain ⟨f1, -, -, -, -, f6, f7, -, -⟩ := h
  unfold feed
  simp only [f1]
  exact handleCsiParam_final s byte hb ⟨by rw [f6]; decide, f7⟩

/-- Two parameter fields after `ESC [`. -/
theorem csi_two_fields (p : VtParser) (hs : p.state = State.Ground) (d : Nat) (ds cs : List Nat)
    (hr : ∀ x ∈ d :: ds, isDigit x) (hc : ∀ x ∈ cs, isDigit x)
    (hrv : digitsValue (d :: ds) < 2147483648) (hcv : digitsValue cs < 2147483648) :
    csiParsed (feedAll p ([27, 91] ++ (d :: ds) ++ [59] ++ cs)) p
      [digitsValue (d :: ds), digitsValue cs] := by
  have h0 := feed_csi_open p hs
  have h1 := csi_first_field _ p d ds h0 hr hrv
  have h2 := csi_next_field _ p [digitsValue (d :: ds)] cs h1 (by simp) hc hcv
  rw [List.append_assoc, feedAll_append, feedAll_append]
  exact h2

end VtParser

theorem decDigits_small : ∀ n : Nat, n < 100 →
    decDigits n = if n < 10 then [48 + n] else [48 + n / 10, 48 + n % 10] := by
  decide

theorem decDigits_length_small (n : Nat) (h : n < 100) : (decDigits n).length ≤ 2 := by
  rw [decDigits_small n h]
  split_ifs <;> simp

namespace VtParser

theorem dispatchCsi_dsr (s : VtParser) (hq : s.questionMark = false) :
    dispatchCsi s 110 =
      if s.param 0 0 = 6 then
        { s with serialOut := s.serialOut ++
            ([27, 91] ++ decBytes (wrapInt (s.buf.cursorRow + 1)) ++ [59]
              ++ decBytes (wrapInt (s.buf.cursorCol + 1)) ++ [82]).take 19 }
      else s := by
  unfold dispatchCsi
  simp only [hq, Bool.false_eq_true, if_false, if_true, Nat.reduceEqDiff, or_self]

/-- One parameter field after `ESC [`. -/
theorem csi_one_field (p : VtParser) (hs : p.state = State.Ground) (d : Nat) (ds : List Nat)
    (hr : ∀ x ∈ d :: ds, isDigit x) (hrv : digitsValue (d :: ds) < 2147483648) :
    csiParsed (feedAll p ([27, 91] ++ (d :: ds))) p [digitsValue (d :: ds)] := by
  have h0 := feed_csi_open p hs
  have h1 := csi_first_field _ p d ds h0 hr hrv
  rw [feedAll_append]
  exact h1

end VtParser

theorem decBytes_small (n : Nat) (h : n < 99) :
    decBytes (wrapInt ((n : Int) + 1)) = decDigits (n + 1) := by
  rw [TermBuffer.wrapInt_small (by omega)]
  unfold decBytes
  rw [if_neg (by omega)]
  congr 1

theorem lumRGB_small (r g b : Nat) (hr : r ≤ 255) (hg : g ≤ 255) (hb : b ≤ 255) :
    lumRGB (r : Int) (g : Int) (b : Int) = (77 * r + 150 * g + 29 * b) >>> 8 := by
  unfold lumRGB
  have e1 : wrapInt ((r : Int) * 77) = (r : Int) * 77 := TermBuffer.wrapInt_small (by omega)
  have e2 : wrapInt ((g : Int) * 150) = (g : Int) * 150 := TermBuffer.wrapInt_small (by omega)
  have e3 : wrapInt ((b : Int) * 29) = (b : Int) * 29 := TermBuffer.wrapInt_small (by omega)
  rw [e1, e2, e3]
  have e4 : wrapInt ((r : Int) * 77 + (g : Int) * 150) = (r : Int) * 77 + (g : Int) * 150 :=
    TermBuffer.wrapInt_small (by omega)
  rw [e4]
  have e5 : wrapInt ((r : Int) * 77 + (g : Int) * 150 + (b : Int) * 29)
      = (r : Int) * 77 + (g : Int) * 150 + (b : Int) * 29 := TermBuffer.wrapInt_small (by omega)
  rw [e5, Nat.shiftRight_eq_div_pow]
  have hx : ((r : Int) * 77 + (g : Int) * 150 + (b : Int) * 29) / 256 % 256
      = (((77 * r + 150 * g + 29 * b) / 2 ^ 8 : Nat) : Int) := by
    rw [Int.emod_eq_of_lt (by omega) (by omega)]
    push_cast
    omega
  rw [hx, Int.toNat_ofNat]

theorem lumRGB_lt (r g b : Nat) (hr : r ≤ 255) (hg : g ≤ 255) (hb : b ≤ 255) :
    (77 * r + 150 * g + 29 * b) >>> 8 < 256 := by
  rw [Nat.shiftRight_eq_div_pow]
  omega

namespace VtParser

theorem sgrBody_38_5 (s : VtParser) (b : TermBuffer) (i : Int) (h0 : s.params i = 38)
    (h1 : i + 1 < s.paramCount) (h2 : s.params (i + 1) = 5) (h3 : i + 2 < s.paramCount) :
    sgrBody s b i =
      (if s.params (i + 2) ≥ 8 ∧ s.params (i + 2) < 16 then b.setAttr TermCell.ATTR_BOLD else b,
        i + 2) := by
  unfold sgrBody
  simp only [h0, h1, h2, h3, and_self, if_true, Int.reduceEq, Int.reduceLE, Int.reduceLT,
    if_false, and_false, false_and, and_true, true_and]

theorem sgrBody_48_2 (s : VtParser) (b : TermBuffer) (i : Int) (h0 : s.params i = 48)
    (h1 : i + 1 < s.paramCount) (h2 : s.params (i + 1) = 2) (h3 : i + 4 < s.paramCount) :
    sgrBody s b i =
      (b.setBgBright (lumRGB (s.params (i + 2)) (s.params (i + 3)) (s.params (i + 4))),
        i + 4) := by
  unfold sgrBody
  simp only [h0, h1, h2, h3, and_self, if_true, Int.reduceEq, Int.reduceLE, Int.reduceLT,
    if_false, and_false, false_and, and_true, true_and]

theorem dispatchCsi_sgr (s : VtParser) (hq : s.questionMark = false) :
    dispatchCsi s 109 = handleSgr s := by
  unfold dispatchCsi
  simp only [hq, Bool.false_eq_true, if_false, if_true, Nat.reduceEqDiff, or_self]

/-- The parameters of `ESC [ 38 ; 5 ; ns`. -/
theorem csi_38_5 (p : VtParser) (hs : p.state = State.Ground) (ns : List Nat)
    (hn : ∀ x ∈ ns, isDigit x) (hnv : digitsValue ns < 2147483648) :
    csiParsed (feedAll p ([27, 91, 51, 56, 59, 53, 59] ++ ns)) p [38, 5, digitsValue ns] := by
  have h0 := feed_csi_open p hs
  have h1 := csi_first_field _ p 51 [56] h0 (by decide) (by decide)
  have h2 := csi_next_field _ p [digitsValue [51, 56]] [53] h1 (by decide) (by decide)
    (by decide)
  have h3 := csi_next_field _ p ([digitsValue [51, 56]] ++ [digitsValue [53]]) ns h2
    (by decide) hn hnv
  have e : ([27, 91, 51, 56, 59, 53, 59] ++ ns : List Nat)
      = [27, 91] ++ ([51, 56] ++ ((59 :: [53]) ++ (59 :: ns))) := rfl
  rw [e, feedAll_append, feedAll_append, feedAll_append]
  exact h3

/-- The parameters of `ESC [ 48 ; 2 ; rs ; gs ; bs`. -/
theorem csi_48_2 (p : VtParser) (hs : p.state = State.Ground) (rs gs bs : List Nat)
    (hr : ∀ x ∈ rs, isDigit x) (hg : ∀ x ∈ gs, isDigit x) (hb : ∀ x ∈ bs, isDigit x)
    (hrv : digitsValue rs < 2147483648) (hgv : digitsValue gs < 2147483648)
    (hbv : digitsValue bs < 2147483648) :
    csiParsed (feedAll p ([27, 91, 52, 56, 59, 50, 59] ++ rs ++ [59] ++ gs ++ [59] ++ bs)) p
      [48, 2, digitsValue rs, digitsValue gs, digitsValue bs] := by
  have h0 := feed_csi_open p hs
  have h1 := csi_first_field _ p 52 [56] h0 (by decide) (by decide)
  have h2 := csi_next_field _ p [digitsValue [52, 56]] [50] h1 (by decide) (by decide)
    (by decide)
  have h3 := csi_next_field _ p ([digitsValue [52, 56]] ++ [digitsValue [50]]) rs h2
    (by decide) hr hrv
  have h4 := csi_next_field _ p ([digitsValue [52, 56]] ++ [digitsValue [50]] ++ [digitsValue rs])
    gs h3 (by simp) hg hgv
  have h5 := csi_next_field _ p
    ([digitsValue [52, 56]] ++ [digitsValue [50]] ++ [digitsValue rs] ++ [digitsValue gs])
    bs h4 (by simp) hb hbv
  have e : ([27, 91, 52, 56, 59, 50, 59] ++ rs ++ [59] ++ gs ++ [59] ++ bs : List Nat)
      = [27, 91] ++ ([52, 56] ++ ((59 :: [50]) ++ ((59 :: rs) ++ ((59 :: gs) ++ (59 :: bs))))) := by
    simp
  rw [e, feedAll_append, feedAll_append, feedAll_append, feedAll_append, feedAll_append]
  exact h5

theorem handleSgr_38_5 (s p : VtParser) (n : Nat) (h : csiParsed s p [38, 5, n]) :
    (handleSgr s).buf =
      if 8 ≤ n ∧ n < 16 then p.buf.setAttr TermCell.ATTR_BOLD else p.buf := by
  obtain ⟨-, f2, -, -, -, -, -, f8, f9⟩ := h
  have q0 : s.params 0 = 38 := f9 0 (by decide)
  have q1 : s.params (0 + 1) = 5 := f9 1 (by decide)
  have q2 : s.params (0 + 2) = (n : Int) := f9 2 (by decide)
  have hc : s.paramCount = 3 := f8
  unfold handleSgr
  rw [if_neg (by rw [hc]; decide)]
  have ht : s.paramCount.toNat = 3 := by rw [hc]; rfl
  simp only [ht]
  unfold sgrLoop
  rw [if_pos (by rw [hc]; decide),
    sgrBody_38_5 s s.buf 0 q0 (by rw [hc]; decide) q1 (by rw [hc]; decide)]
  simp only []
  unfold sgrLoop
  rw [if_neg (by rw [hc]; decide), q2, f2]
  by_cases hn : 8 ≤ n ∧ n < 16
  · rw [if_pos hn, if_pos (by omega)]
  · rw [if_neg hn, if_neg (by omega)]

theorem handleSgr_48_2 (s p : VtParser) (r g b : Nat) (h : csiParsed s p [48, 2, r, g, b]) :
    (handleSgr s).buf = p.buf.setBgBright (lumRGB (r : Int) (g : Int) (b : Int)) := by
  obtain ⟨-, f2, -, -, -, -, -, f8, f9⟩ := h
  have q0 : s.params 0 = 48 := f9 0 (by decide)
  have q1 : s.params (0 + 1) = 2 := f9 1 (by decide)
  have q2 : s.params (0 + 2) = (r : Int) := f9 2 (by decide)
  have q3 : s.params (0 + 3) = (g : Int) := f9 3 (by decide)
  have q4 : s.params (0 + 4) = (b : Int) := f9 4 (by decide)
  have hc : s.paramCount = 5 := f8
  unfold handleSgr
  rw [if_neg (by rw [hc]; decide)]
  have ht : s.paramCount.toNat = 5 := by rw [hc]; rfl
  simp only [ht]
  unfold sgrLoop
  rw [if_pos (by rw [hc]; decide),
    sgrBody_48_2 s s.buf 0 q0 (by rw [hc]; decide) q1 (by rw [hc]; decide)]
  simp only []
  unfold sgrLoop
  rw [if_neg (by rw [hc]; decide), q2, q3, q4, f2]

end VtParser

namespace VtParser

theorem feed_osc_payload (payload : List Nat) : ∀ (s : VtParser), s.state = State.OscString →
    (∀ x ∈ payload, x ≠ 7 ∧ x ≠ 27) → feedAll s payload = s := by
  induction payload with
  | nil => intro s _ _; rfl
  | cons x xs ih =>
    intro s hs hx
    have h1 : feed s x = s := by
      unfold feed
      simp only [hs]
      have := hx x (List.mem_cons_self _ _)
      rw [if_neg (by omega)]
    show feedAll (feed s x) xs = s
    rw [h1]
    exact ih s hs (fun y hy => hx y (List.mem_cons_of_mem _ hy))

theorem feed_esc_full (p : VtParser) (hs : p.state = State.Ground) :
    feed p 27 = { p with state := State.Escape,
                         utf8Remaining := if p.utf8Remaining > 0 then 0 else p.utf8Remaining } := by
  unfold feed
  simp only [hs]
  unfold handleGround
  split_ifs with h1 h2
  · exact absurd h2 (by decide)
  · rfl
  · rfl

end VtParser

namespace VtParser

theorem entry_as_param (s : VtParser) (hs : s.state = State.CsiEntry) (b : Nat)
    (hb : b ≠ 63 ∧ b ≠ 62 ∧ b ≠ 61 ∧ b ≠ 60) :
    feed s b = feed { s with state := State.CsiParam } b := by
  unfold feed
  simp only [hs]
  unfold handleCsiEntry
  rw [if_neg hb.1, if_neg (by omega)]

theorem body_step (s : VtParser) (hs : s.state = State.CsiParam) (x : Nat) (hx : isCsiBody x) :
    (feed s x).state = State.CsiParam ∧ (feed s x).buf = s.buf ∧
    (feed s x).serialOut = s.serialOut ∧
    (csiBlocked s ∨ (32 ≤ x ∧ x ≤ 47) → csiBlocked (feed s x)) := by
  unfold feed
  simp only [hs]
  unfold handleCsiParam
  unfold isCsiBody isDigit at hx
  by_cases h1 : x ≥ 48 ∧ x ≤ 57
  · rw [if_pos h1]
    refine ⟨?_, ?_, ?_, ?_⟩
    · simp only []; split_ifs <;> exact hs
    · simp only []; split_ifs <;> rfl
    · simp only []; split_ifs <;> rfl
    · intro hb
      rcases hb with hb | hb
      · unfold csiBlocked at hb ⊢
        simp only []
        split_ifs <;> exact hb
      · omega
  · rw [if_neg h1]
    by_cases h2 : x = 59
    · rw [if_pos h2]
      refine ⟨?_, ?_, ?_, ?_⟩
      · split_ifs <;> exact hs
      · split_ifs <;> rfl
      · split_ifs <;> rfl
      · intro hb
        rcases hb with hb | hb
        · unfold csiBlocked at hb ⊢
          split_ifs <;> exact hb
        · omega
    · rw [if_neg h2]
      have h3 : x ≥ 32 ∧ x ≤ 47 := by omega
      rw [if_pos h3]
      exact ⟨hs, rfl, rfl, fun _ => Or.inl rfl⟩

theorem body_loop (body : List Nat) : ∀ (s : VtParser), s.state = State.CsiParam →
    (∀ x ∈ body, isCsiBody x) →
    (feedAll s body).state = State.CsiParam ∧ (feedAll s body).buf = s.buf ∧
    (feedAll s body).serialOut = s.serialOut ∧
    (csiBlocked s ∨ (∃ x ∈ body, 32 ≤ x ∧ x ≤ 47) → csiBlocked (feedAll s body)) := by
  induction body with
  | nil =>
    intro s hs _
    refine ⟨hs, rfl, rfl, ?_⟩
    intro h
    rcases h with h | ⟨x, hx, -⟩
    · exact h
    · exact absurd hx (List.not_mem_nil _)
  | cons x xs ih =>
    intro s hs hx
    obtain ⟨a1, a2, a3, a4⟩ := body_step s hs x (hx x (List.mem_cons_self _ _))
    obtain ⟨b1, b2, b3, b4⟩ := ih (feed s x) a1 (fun y hy => hx y (List.mem_cons_of_mem _ hy))
    show (feedAll (feed s x) xs).state = State.CsiParam ∧ (feedAll (feed s x) xs).buf = s.buf ∧
      (feedAll (feed s x) xs).serialOut = s.serialOut ∧
      (csiBlocked s ∨ (∃ y ∈ x :: xs, 32 ≤ y ∧ y ≤ 47) → csiBlocked (feedAll (feed s x) xs))
    refine ⟨b1, b2.trans a2, b3.trans a3, ?_⟩
    intro h
    apply b4
    rcases h with h | ⟨y, hy, hy2⟩
    · exact Or.inl (a4 (Or.inl h))
    · rcases List.mem_cons.mp hy with rfl | hy
      · exact Or.inl (a4 (Or.inr hy2))
      · exact Or.inr ⟨y, hy, hy2⟩

theorem blocked_final (s : VtParser) (hs : s.state = State.CsiParam) (hb : csiBlocked s)
    (fin : Nat) (hf : 64 ≤ fin ∧ fin ≤ 126) :
    feed s fin = { s with state := State.Ground } := by
  unfold feed
  simp only [hs]
  unfold handleCsiParam
  rw [if_neg (show ¬ (fin ≥ 48 ∧ fin ≤ 57) by omega), if_neg (show ¬ fin = 59 by omega),
    if_neg (show ¬ (fin ≥ 32 ∧ fin ≤ 47) by omega), if_pos hf]
  have hc : ¬ (¬ s.hasIntermediate = true ∧ s.csiPrefix = 0) := by
    unfold csiBlocked at hb
    rcases hb with hb | hb
    · exact fun h => h.1 hb
    · exact fun h => hb h.2
  simp only [if_neg hc]

/-- A CSI body and final byte read in CsiParam with dispatch blocked. -/
theorem blocked_rest (s : VtParser) (hs : s.state = State.CsiParam) (body : List Nat)
    (fin : Nat) (hbody : ∀ x ∈ body, isCsiBody x) (hf : 64 ≤ fin ∧ fin ≤ 126)
    (hb : csiBlocked s ∨ (∃ x ∈ body, 32 ≤ x ∧ x ≤ 47)) :
    (feedAll s (body ++ [fin])).state = State.Ground ∧
    (feedAll s (body ++ [fin])).buf = s.buf ∧
    (feedAll s (body ++ [fin])).serialOut = s.serialOut := by
  obtain ⟨b1, b2, b3, b4⟩ := body_loop body s hs hbody
  rw [feedAll_append]
  show (feed (feedAll s body) fin).state = State.Ground ∧
    (feed (feedAll s body) fin).buf = s.buf ∧ (feed (feedAll s body) fin).serialOut = s.serialOut
  rw [blocked_final _ b1 (b4 hb) fin hf]
  exact ⟨rfl, b2, b3⟩

/-- In CsiEntry, a sequence that starts with a body byte or the final byte is read as in
CsiParam. -/
theorem entry_rest (s : VtParser) (hs : s.state = State.CsiEntry) (body : List Nat)
    (fin : Nat) (hbody : ∀ x ∈ body, isCsiBody x) (hf : 64 ≤ fin ∧ fin ≤ 126) :
    feedAll s (body ++ [fin]) = feedAll { s with state := State.CsiParam } (body ++ [fin]) := by
  cases body with
  | nil =>
    show feed s fin = feed { s with state := State.CsiParam } fin
    exact entry_as_param s hs fin (by omega)
  | cons x xs =>
    show feedAll (feed s x) (xs ++ [fin])
      = feedAll (feed { s with state := State.CsiParam } x) (xs ++ [fin])
    have hx := hbody x (List.mem_cons_self _ _)
    unfold isCsiBody isDigit at hx
    rw [entry_as_param s hs x (by omega)]

end VtParser

theorem lead2_bits : ∀ a : Nat, a < 32 → (192 + a) &&& 31 = a := by decide
theorem lead3_bits : ∀ a : Nat, a < 16 → (224 + a) &&& 15 = a := by decide
theorem lead4_bits : ∀ a : Nat, a < 8 → (240 + a) &&& 7 = a := by decide
theorem cont_bits : ∀ x : Nat, x < 64 → (128 + x) &&& 192 = 128 ∧ (128 + x) &&& 63 = x := by
  decide

theorem shift_or (a x : Nat) (hx : x < 64) : (a <<< 6) ||| x = a * 64 + x := by
  rw [Nat.shiftLeft_eq, Nat.mul_comm a (2 ^ 6), ← Nat.mul_add_lt_is_or hx a]

namespace VtParser

theorem feed_ground (p : VtParser) (b : Nat) (hs : p.state = State.Ground) :
    feed p b = handleGround p b := by
  unfold feed
  rw [hs]

theorem handleGroundByte_lead (p : VtParser) (b : Nat) (hb : 192 ≤ b ∧ b < 248) :
    handleGroundByte p b =
      if b < 224 then { p with utf8Cp := b &&& 31, utf8Remaining := 1 }
      else if b < 240 then { p with utf8Cp := b &&& 15, utf8Remaining := 2 }
      else { p with utf8Cp := b &&& 7, utf8Remaining := 3 } := by
  unfold handleGroundByte
  rw [if_neg (show ¬ b = 27 by omega), if_neg (show ¬ b = 7 by omega),
    if_neg (show ¬ b = 8 by omega), if_neg (show ¬ b = 9 by omega),
    if_neg (show ¬ (b = 10 ∨ b = 11 ∨ b = 12) by omega), if_neg (show ¬ b = 13 by omega),
    if_neg (show ¬ (b ≥ 32 ∧ b < 127) by omega)]
  by_cases h1 : b < 224
  · rw [if_pos ⟨hb.1, h1⟩, if_pos h1]
  · rw [if_neg (fun h => h1 h.2), if_neg h1]
    by_cases h2 : b < 240
    · rw [if_pos ⟨by omega, h2⟩, if_pos h2]
    · rw [if_neg (fun h => h2 h.2), if_neg h2, if_pos ⟨by omega, hb.2⟩]

/-- A continuation byte while more than one is awaited: only the decoder fields change. -/
theorem feed_cont_more (q : VtParser) (c : Nat) (hs : q.state = State.Ground)
    (hr : q.utf8Remaining > 1) (hc : c &&& 192 = 128) :
    feed q c = { q with utf8Cp := ((q.utf8Cp <<< 6) ||| (c &&& 63)) % 4294967296,
                        utf8Remaining := q.utf8Remaining - 1 } := by
  rw [feed_ground q c hs]
  unfold handleGround
  rw [if_pos (by omega), if_pos hc]
  simp only []
  rw [if_neg (by omega)]

/-- The last awaited continuation byte: the decoded code point is printed. -/
theorem feed_cont_last (q : VtParser) (c : Nat) (hs : q.state = State.Ground)
    (hr : q.utf8Remaining = 1) (hc : c &&& 192 = 128) :
    feed q c = { q with utf8Cp := ((q.utf8Cp <<< 6) ||| (c &&& 63)) % 4294967296,
                        utf8Remaining := 0,
                        buf := q.buf.putChar
                          (((q.utf8Cp <<< 6) ||| (c &&& 63)) % 4294967296 % 65536) } := by
  rw [feed_ground q c hs]
  unfold handleGround
  rw [if_pos (by omega), if_pos hc]
  simp only [hr, sub_self, if_true]

theorem feed_lead (p : VtParser) (b : Nat) (hs : p.state = State.Ground)
    (hb : 192 ≤ b ∧ b < 248) :
    feed p b = handleGroundByte { p with utf8Remaining := if p.utf8Remaining > 0 then 0
                                                            else p.utf8Remaining } b := by
  have hnc : ¬ b &&& 192 = 128 := by
    have : ∀ x : Nat, x < 56 → ¬ (192 + x) &&& 192 = 128 := by decide
    have h := this (b - 192) (by omega)
    rwa [show 192 + (b - 192) = b by omega] at h
  rw [feed_ground p b hs]
  unfold handleGround
  by_cases h : p.utf8Remaining > 0
  · rw [if_pos h, if_neg hnc, if_pos h]
  · rw [if_neg h, if_neg h]

/-- What a lead byte does: it only arms the decoder. -/
theorem feed_lead_fields (p : VtParser) (b : Nat) (hs : p.state = State.Ground)
    (hb : 192 ≤ b ∧ b < 248) :
    (feed p b).state = State.Ground ∧ (feed p b).buf = p.buf ∧
    (feed p b).serialOut = p.serialOut ∧ (feed p b).utf8Remaining = utf8Need b ∧
    (feed p b).utf8Cp = (if b < 224 then b &&& 31 else if b < 240 then b &&& 15 else b &&& 7) := by
  rw [feed_lead p b hs hb, handleGroundByte_lead _ b hb]
  unfold utf8Need
  by_cases h1 : b < 224
  · simp only [h1, if_true, hs, and_self]
  · by_cases h2 : b < 240
    · simp only [h1, h2, if_true, if_false, hs, and_self]
    · simp only [h1, h2, if_false, hs, and_self]

theorem feed_cont_more_fields (q : VtParser) (x : Nat) (hs : q.state = State.Ground)
    (hr : q.utf8Remaining > 1) (hx : x < 64) (hcp : q.utf8Cp < 67108864) :
    (feed q (128 + x)).state = State.Ground ∧ (feed q (128 + x)).buf = q.buf ∧
    (feed q (128 + x)).serialOut = q.serialOut ∧
    (feed q (128 + x)).utf8Remaining = q.utf8Remaining - 1 ∧
    (feed q (128 + x)).utf8Cp = q.utf8Cp * 64 + x := by
  rw [feed_cont_more q _ hs hr (cont_bits x hx).1, (cont_bits x hx).2, shift_or _ _ hx,
    Nat.mod_eq_of_lt (show q.utf8Cp * 64 + x < 4294967296 by omega)]
  exact ⟨hs, rfl, rfl, rfl, rfl⟩

theorem feed_cont_last_fields (q : VtParser) (x : Nat) (hs : q.state = State.Ground)
    (hr : q.utf8Remaining = 1) (hx : x < 64) (hcp : q.utf8Cp < 67108864) :
    (feed q (128 + x)).state = State.Ground ∧
    (feed q (128 + x)).buf = q.buf.putChar ((q.utf8Cp * 64 + x) % 65536) ∧
    (feed q (128 + x)).serialOut = q.serialOut ∧
    (feed q (128 + x)).utf8Remaining = 0 := by
  rw [feed_cont_last q _ hs hr (cont_bits x hx).1, (cont_bits x hx).2, shift_or _ _ hx,
    Nat.mod_eq_of_lt (show q.utf8Cp * 64 + x < 4294967296 by omega)]
  exact ⟨hs, rfl, rfl, rfl⟩

/-- A two-byte sequence. -/
theorem decode2 (p : VtParser) (hs : p.state = State.Ground) (a x : Nat) (ha : a < 32)
    (hx : x < 64) :
    (feedAll p [192 + a, 128 + x]).state = State.Ground ∧
    (feedAll p [192 + a, 128 + x]).buf = p.buf.putChar ((a * 64 + x) % 65536) ∧
    (feedAll p [192 + a, 128 + x]).serialOut = p.serialOut ∧
    (feedAll p [192 + a, 128 + x]).utf8Remaining = 0 ∧
    (feedAll p [192 + a]).buf = p.buf := by
  obtain ⟨a1, a2, a3, a4, a5⟩ := feed_lead_fields p (192 + a) hs (by omega)
  rw [if_pos (by omega), lead2_bits a ha] at a5
  have a4' : (feed p (192 + a)).utf8Remaining = 1 := by
    rw [a4]; unfold utf8Need; rw [if_pos (by omega)]
  obtain ⟨b1, b2, b3, b4⟩ := feed_cont_last_fields (feed p (192 + a)) x a1 a4' hx
    (by rw [a5]; omega)
  rw [a5, a2] at b2
  exact ⟨b1, b2, b3.trans a3, b4, a2⟩

/-- A three-byte sequence. -/
theorem decode3 (p : VtParser) (hs : p.state = State.Ground) (a x y : Nat) (ha : a < 16)
    (hx : x < 64) (hy : y < 64) :
    (feedAll p [224 + a, 128 + x, 128 + y]).state = State.Ground ∧
    (feedAll p [224 + a, 128 + x, 128 + y]).buf
      = p.buf.putChar (((a * 64 + x) * 64 + y) % 65536) ∧
    (feedAll p [224 + a, 128 + x, 128 + y]).serialOut = p.serialOut ∧
    (feedAll p [224 + a, 128 + x, 128 + y]).utf8Remaining = 0 ∧
    (feedAll p [224 + a]).buf = p.buf ∧ (feedAll p [224 + a, 128 + x]).buf = p.buf := by
  obtain ⟨a1, a2, a3, a4, a5⟩ := feed_lead_fields p (224 + a) hs (by omega)
  rw [if_neg (by omega), if_pos (by omega), lead3_bits a ha] at a5
  have a4' : (feed p (224 + a)).utf8Remaining = 2 := by
    rw [a4]; unfold utf8Need; rw [if_neg (by omega), if_pos (by omega)]
  obtain ⟨b1, b2, b3, b4, b5⟩ := feed_cont_more_fields (feed p (224 + a)) x a1
    (by rw [a4']; decide) hx (by rw [a5]; omega)
  rw [a5] at b5
  rw [a4'] at b4
  obtain ⟨c1, c2, c3, c4⟩ := feed_cont_last_fields (feed (feed p (224 + a)) (128 + x)) y b1
    (by rw [b4]; decide) hy (by rw [b5]; omega)
  rw [b5, b2, a2] at c2
  exact ⟨c1, c2, (c3.trans b3).trans a3, c4, a2, b2.trans a2⟩

/-- A four-byte sequence. -/
theorem decode4 (p : VtParser) (hs : p.state = State.Ground) (a x y z : Nat) (ha : a < 8)
    (hx : x < 64) (hy : y < 64) (hz : z < 64) :
    (feedAll p [240 + a, 128 + x, 128 + y, 128 + z]).state = State.Ground ∧
    (feedAll p [240 + a, 128 + x, 128 + y, 128 + z]).buf
      = p.buf.putChar ((((a * 64 + x) * 64 + y) * 64 + z) % 65536) ∧
    (feedAll p [240 + a, 128 + x, 128 + y, 128 + z]).serialOut = p.serialOut ∧
    (feedAll p [240 + a, 128 + x, 128 + y, 128 + z]).utf8Remaining = 0 ∧
    (feedAll p [240 + a]).buf = p.buf ∧ (feedAll p [240 + a, 128 + x]).buf = p.buf ∧
    (feedAll p [240 + a, 128 + x, 128 + y]).buf = p.buf := by
  obtain ⟨a1, a2, a3, a4, a5⟩ := feed_lead_fields p (240 + a) hs (by omega)
  rw [if_neg (by omega), if_neg (by omega), lead4_bits a ha] at a5
  have a4' : (feed p (240 + a)).utf8Remaining = 3 := by
    rw [a4]; unfold utf8Need; rw [if_neg (by omega), if_neg (by omega)]
  obtain ⟨b1, b2, b3, b4, b5⟩ := feed_cont_more_fields (feed p (240 + a)) x a1
    (by rw [a4']; decide) hx (by rw [a5]; omega)
  rw [a5] at b5
  rw [a4'] at b4
  obtain ⟨c1, c2, c3, c4, c5⟩ := feed_cont_more_fields (feed (feed p (240 + a)) (128 + x)) y
    b1 (by rw [b4]; decide) hy (by rw [b5]; omega)
  rw [b5] at c5
  rw [b4] at c4
  obtain ⟨d1, d2, d3, d4⟩ := feed_cont_last_fields
    (feed (feed (feed p (240 + a)) (128 + x)) (128 + y)) z c1 (by rw [c4]; decide) hz
    (by rw [c5]; omega)
  rw [c5, c2, b2, a2] at d2
  exact ⟨d1, d2, ((d3.trans c3).trans b3).trans a3, d4, a2, b2.trans a2,
    (c2.trans b2).trans a2⟩

end VtParser

namespace VtParser

/-- Ground handling of a byte reads the decoder state only through the fields compared here. -/
theorem handleGroundByte_congr (q1 q2 : VtParser) (b : Nat) (h1 : q1.buf = q2.buf)
    (h2 : q1.state = q2.state) (h3 : q1.utf8Remaining = q2.utf8Remaining) :
    (handleGroundByte q1 b).buf = (handleGroundByte q2 b).buf ∧
    (handleGroundByte q1 b).state = (handleGroundByte q2 b).state ∧
    (handleGroundByte q1 b).utf8Remaining = (handleGroundByte q2 b).utf8Remaining := by
  unfold handleGroundByte
  by_cases c1 : b = 27
  · rw [if_pos c1, if_pos c1]; exact ⟨h1, rfl, h3⟩
  rw [if_neg c1, if_neg c1]
  by_cases c2 : b = 7
  · rw [if_pos c2, if_pos c2]; exact ⟨h1, h2, h3⟩
  rw [if_neg c2, if_neg c2]
  by_cases c3 : b = 8
  · rw [if_pos c3, if_pos c3]; exact ⟨congrArg TermBuffer.backspace h1, h2, h3⟩
  rw [if_neg c3, if_neg c3]
  by_cases c4 : b = 9
  · rw [if_pos c4, if_pos c4]; exact ⟨congrArg TermBuffer.tab h1, h2, h3⟩
  rw [if_neg c4, if_neg c4]
  by_cases c5 : b = 10 ∨ b = 11 ∨ b = 12
  · rw [if_pos c5, if_pos c5]; exact ⟨congrArg TermBuffer.lineFeed h1, h2, h3⟩
  rw [if_neg c5, if_neg c5]
  by_cases c6 : b = 13
  · rw [if_pos c6, if_pos c6]; exact ⟨congrArg TermBuffer.carriageReturn h1, h2, h3⟩
  rw [if_neg c6, if_neg c6]
  by_cases c7 : b ≥ 32 ∧ b < 127
  · rw [if_pos c7, if_pos c7]; exact ⟨congrArg (fun x => TermBuffer.putChar x b) h1, h2, h3⟩
  rw [if_neg c7, if_neg c7]
  by_cases c8 : b ≥ 192 ∧ b < 224
  · rw [if_pos c8, if_pos c8]; exact ⟨h1, h2, rfl⟩
  rw [if_neg c8, if_neg c8]
  by_cases c9 : b ≥ 224 ∧ b < 240
  · rw [if_pos c9, if_pos c9]; exact ⟨h1, h2, rfl⟩
  rw [if_neg c9, if_neg c9]
  by_cases c10 : b ≥ 240 ∧ b < 248
  · rw [if_pos c10, if_pos c10]; exact ⟨h1, h2, rfl⟩
  rw [if_neg c10, if_neg c10]
  exact ⟨h1, h2, h3⟩

/-- Continuation bytes short of the number awaited change only the decoder fields. -/
theorem cont_loop (cs : List Nat) : ∀ (q : VtParser), q.state = State.Ground →
    (cs.length : Int) < q.utf8Remaining → (∀ c ∈ cs, c &&& 192 = 128) →
    (feedAll q cs).state = State.Ground ∧ (feedAll q cs).buf = q.buf ∧
    (feedAll q cs).serialOut = q.serialOut ∧
    (feedAll q cs).utf8Remaining = q.utf8Remaining - (cs.length : Int) := by
  induction cs with
  | nil =>
    intro q hs _ _
    refine ⟨hs, rfl, rfl, ?_⟩
    show q.utf8Remaining = q.utf8Remaining - ((0 : Nat) : Int)
    simp
  | cons c cs ih =>
    intro q hs hk hc
    rw [List.length_cons] at hk
    push_cast at hk
    have e := feed_cont_more q c hs (by omega) (hc c (List.mem_cons_self _ _))
    show (feedAll (feed q c) cs).state = State.Ground ∧ (feedAll (feed q c) cs).buf = q.buf ∧
      (feedAll (feed q c) cs).serialOut = q.serialOut ∧
      (feedAll (feed q c) cs).utf8Remaining = q.utf8Remaining - ((c :: cs).length : Int)
    have f1 : (feed q c).state = State.Ground := by rw [e]; exact hs
    have f2 : (feed q c).buf = q.buf := by rw [e]
    have f3 : (feed q c).serialOut = q.serialOut := by rw [e]
    have f4 : (feed q c).utf8Remaining = q.utf8Remaining - 1 := by rw [e]
    obtain ⟨g1, g2, g3, g4⟩ := ih (feed q c) f1 (by rw [f4]; omega)
      (fun y hy => hc y (List.mem_cons_of_mem _ hy))
    refine ⟨g1, g2.trans f2, g3.trans f3, ?_⟩
    rw [g4, f4, List.length_cons]
    push_cast
    omega

/-- A byte that is not a continuation byte, in Ground: a pending sequence is dropped and the
byte is handled as usual. -/
theorem feed_non_cont (q : VtParser) (b : Nat) (hs : q.state = State.Ground)
    (hu : 0 ≤ q.utf8Remaining) (hb : b &&& 192 ≠ 128) :
    feed q b = handleGroundByte { q with utf8Remaining := 0 } b := by
  rw [feed_ground q b hs]
  unfold handleGround
  by_cases h : q.utf8Remaining > 0
  · rw [if_pos h, if_neg hb]
  · rw [if_neg h]
    have h0 : q.utf8Remaining = 0 := by omega
    congr 1
    cases q
    simp only [] at h0
    subst h0
    rfl

end VtParser

namespace TermBuffer

theorem curRow_of_ctl {b b' : TermBuffer} (h : b'.ctl = b.ctl) : b'.curRow = b.curRow :=
  congrArg Ctl.curRow h

theorem curCol_of_ctl {b b' : TermBuffer} (h : b'.ctl = b.ctl) : b'.curCol = b.curCol :=
  congrArg Ctl.curCol h

/-- The column loop of `eraseLine` works on the row the cursor is in at its start. -/
theorem loop_clearCell_cur (row : Int) : ∀ (k : Nat) (lo : Int) (b : TermBuffer),
    b.curRow = row →
    loopUp (fun c b => clearCell b b.curRow c) k lo b
      = loopUp (fun c b => clearCell b row c) k lo b := by
  intro k
  induction k with
  | zero => intro lo b _; rfl
  | succ k ih =>
    intro lo b h
    simp only [loopUp]
    rw [h]
    exact ih (lo + 1) (clearCell b row lo) (by rw [← h]; cases b; rfl)

theorem cells_clearCells_cur (b : TermBuffer) (lo hi j : Int) (h : lo ≤ hi) :
    (forUp lo hi (fun c b => clearCell b b.curRow c) b).cells j =
      if cellIdx b.curRow lo ≤ j ∧ j < cellIdx b.curRow hi ∧ inGrid j then TermCell.blank
      else b.cells j := by
  unfold forUp
  rw [loop_clearCell_cur b.curRow _ _ b rfl, cells_loop_clearCell]
  have e : lo + ((hi - lo).toNat : Int) = hi := by omega
  rw [e]

/-- Cells after `eraseLine(0)` and `eraseLine(1)`. -/
theorem cells_eraseLine (b : TermBuffer) (j : Int) (hc : 0 ≤ b.curCol ∧ b.curCol < TERM_COLS) :
    (eraseLine b 0).cells j =
      (if cellIdx b.curRow b.curCol ≤ j ∧ j < cellIdx b.curRow TERM_COLS ∧ inGrid j
        then TermCell.blank else b.cells j) ∧
    (eraseLine b 1).cells j =
      (if cellIdx b.curRow 0 ≤ j ∧ j < cellIdx b.curRow (b.curCol + 1) ∧ inGrid j
        then TermCell.blank else b.cells j) := by
  have e1 : (markRowDirty b b.curRow).curRow = b.curRow := curRow_of_ctl (ctl_markRowDirty _ _)
  have e2 : (markRowDirty b b.curRow).curCol = b.curCol := curCol_of_ctl (ctl_markRowDirty _ _)
  constructor
  · unfold eraseLine
    simp only [if_true, if_false, Int.reduceEq]
    rw [cells_clearCells_cur (markRowDirty b b.curRow) (markRowDirty b b.curRow).curCol TERM_COLS
      j (by rw [e2]; omega), e1, e2, cells_markRowDirty]
  · unfold eraseLine
    simp only [if_true, if_false, Int.reduceEq]
    rw [cells_clearCells_cur (markRowDirty b b.curRow) 0 ((markRowDirty b b.curRow).curCol + 1)
      j (by rw [e2]; omega), e1, e2, cells_markRowDirty]

/-- Cells after `eraseDisplay`, by flat index, for a cursor inside the grid. -/
theorem cells_eraseDisplay (b : TermBuffer) (j : Int)
    (hr : 0 ≤ b.curRow ∧ b.curRow < TERM_ROWS) (hc : 0 ≤ b.curCol ∧ b.curCol < TERM_COLS) :
    (eraseDisplay b 0).cells j =
      (if cellIdx b.curRow b.curCol ≤ j ∧ inGrid j then TermCell.blank else b.cells j) ∧
    (eraseDisplay b 1).cells j =
      (if j ≤ cellIdx b.curRow b.curCol ∧ inGrid j then TermCell.blank else b.cells j) ∧
    (eraseDisplay b 2).cells j = (if inGrid j then TermCell.blank else b.cells j) := by
  have hr' := hr
  have hc' := hc
  rw [TERM_ROWS_eq] at hr'
  rw [TERM_COLS_eq] at hc'
  refine ⟨?_, ?_, ?_⟩
  · unfold eraseDisplay
    rw [if_pos rfl]
    simp only []
    rw [cells_clearRows, (cells_eraseLine b j hc).1, curRow_of_ctl (ctl_eraseLine b 0),
      wrapInt_small (by omega)]
    simp only [cellIdx_eq, inGrid_iff, TERM_COLS_eq, TERM_ROWS_eq]
    split_ifs <;> first | rfl | (exfalso; omega)
  · unfold eraseDisplay
    rw [if_neg (by decide), if_pos rfl]
    simp only []
    have e1 : (forUp 0 b.curRow (fun r b => clearRow b r) b).curRow = b.curRow :=
      curRow_of_ctl (ctl_clearRows b 0 b.curRow)
    have e2 : (forUp 0 b.curRow (fun r b => clearRow b r) b).curCol = b.curCol :=
      curCol_of_ctl (ctl_clearRows b 0 b.curRow)
    rw [(cells_eraseLine _ j (by rw [e2]; exact hc)).2, e1, e2, cells_clearRows]
    simp only [cellIdx_eq, inGrid_iff]
    split_ifs <;> first | rfl | (exfalso; omega)
  · unfold eraseDisplay
    rw [if_neg (by decide), if_neg (by decide), if_pos rfl, cells_clearRows]
    simp only [cellIdx_eq, inGrid_iff, TERM_ROWS_eq]
    split_ifs <;> first | rfl | (exfalso; omega)

end TermBuffer

namespace VtParser

theorem dispatchCsi_ed (s : VtParser) (hq : s.questionMark = false) :
    dispatchCsi s 74 = { s with buf := s.buf.eraseDisplay (s.param 0 0) } := by
  unfold dispatchCsi
  simp only [hq, Bool.false_eq_true, if_false, if_true, Nat.reduceEqDiff, or_self]

/-- The sequence `ESC [ 5 ; 1 0 H`. -/
theorem feed_cup_5_10 (p : VtParser) (hs : p.state = State.Ground) :
    (feedAll p [27, 91, 53, 59, 49, 48, 72]).state = State.Ground ∧
    (feedAll p [27, 91, 53, 59, 49, 48, 72]).buf = p.buf.setCursor 4 9 := by
  have h := csi_two_fields p hs 53 [] [49, 48] (by decide) (by decide) (by decide) (by decide)
  have e : ([27, 91, 53, 59, 49, 48, 72] : List Nat) = [27, 91] ++ [53] ++ [59] ++ [49, 48] ++ [72] :=
    rfl
  rw [e, feedAll_append]
  generalize feedAll p ([27, 91] ++ [53] ++ [59] ++ [49, 48]) = s at h
  have hf : feedAll s [72] = feed s 72 := rfl
  rw [hf, feed_final s p _ h 72 (by decide), dispatchCsi_cup s h.2.2.2.2.1 72 (Or.inl rfl)]
  have p0 := param_of_parsed s p _ h 0 (by decide) 1
  have p1 := param_of_parsed s p _ h 1 (by decide) 1
  simp only [List.getD_cons_zero, List.getD_cons_succ, Nat.cast_zero, Nat.cast_one] at p0 p1
  have v0 : digitsValue [53] = 5 := by decide
  have v1 : digitsValue [49, 48] = 10 := by decide
  rw [v0] at p0
  rw [v1] at p1
  simp only [Nat.reduceEqDiff, if_false, Nat.cast_ofNat] at p0 p1
  refine ⟨rfl, ?_⟩
  simp only []
  rw [p0, p1, h.2.1]
  have w4 : wrapInt (5 - 1) = 4 := by decide
  have w9 : wrapInt (10 - 1) = 9 := by decide
  rw [w4, w9]

/-- The sequence `ESC [ 2 J`. -/
theorem feed_ed_2 (p : VtParser) (hs : p.state = State.Ground) :
    (feedAll p [27, 91, 50, 74]).state = State.Ground ∧
    (feedAll p [27, 91, 50, 74]).buf = p.buf.eraseDisplay 2 := by
  have h := csi_one_field p hs 50 [] (by decide) (by decide)
  have e : ([27, 91, 50, 74] : List Nat) = [27, 91] ++ [50] ++ [74] := rfl
  rw [e, feedAll_append]
  generalize feedAll p ([27, 91] ++ [50]) = s at h
  have hf : feedAll s [74] = feed s 74 := rfl
  rw [hf, feed_final s p _ h 74 (by decide), dispatchCsi_ed s h.2.2.2.2.1]
  have p0 := param_of_parsed s p _ h 0 (by decide) 0
  simp only [List.getD_cons_zero, Nat.cast_zero] at p0
  have v0 : digitsValue [50] = 2 := by decide
  rw [v0] at p0
  simp only [Nat.reduceEqDiff, if_false, Nat.cast_ofNat] at p0
  refine ⟨rfl, ?_⟩
  simp only []
  rw [p0, h.2.1]

theorem feed_cup_ed (p : VtParser) (hs : p.state = State.Ground) :
    (feedAll p [27, 91, 53, 59, 49, 48, 72, 27, 91, 50, 74]).buf
      = (p.buf.setCursor 4 9).eraseDisplay 2 := by
  have e : ([27, 91, 53, 59, 49, 48, 72, 27, 91, 50, 74] : List Nat)
      = [27, 91, 53, 59, 49, 48, 72] ++ [27, 91, 50, 74] := rfl
  rw [e, feedAll_append, (feed_ed_2 _ (feed_cup_5_10 p hs).1).2, (feed_cup_5_10 p hs).2]

end VtParser

theorem lum256_eq_ref : ∀ n : Nat, n < 256 →
    lum256 (n : Int) = lum256Ref n ∧ lum256Ref n ≤ 255 := by
  decide!

namespace VtParser

theorem sgrBody_48_5 (s : VtParser) (b : TermBuffer) (i : Int) (h0 : s.params i = 48)
    (h1 : i + 1 < s.paramCount) (h2 : s.params (i + 1) = 5) (h3 : i + 2 < s.paramCount) :
    sgrBody s b i = (b.setBgBright (lum256 (s.params (i + 2))), i + 2) := by
  unfold sgrBody
  simp only [h0, h1, h2, h3, and_self, if_true, Int.reduceEq, Int.reduceLE, Int.reduceLT,
    if_false, and_false, false_and, and_true, true_and]

/-- The parameters of `ESC [ 48 ; 5 ; ns`. -/
theorem csi_48_5 (p : VtParser) (hs : p.state = State.Ground) (ns : List Nat)
    (hn : ∀ x ∈ ns, isDigit x) (hnv : digitsValue ns < 2147483648) :
    csiParsed (feedAll p ([27, 91, 52, 56, 59, 53, 59] ++ ns)) p [48, 5, digitsValue ns] := by
  have h0 := feed_csi_open p hs
  have h1 := csi_first_field _ p 52 [56] h0 (by decide) (by decide)
  have h2 := csi_next_field _ p [digitsValue [52, 56]] [53] h1 (by decide) (by decide)
    (by decide)
  have h3 := csi_next_field _ p ([digitsValue [52, 56]] ++ [digitsValue [53]]) ns h2
    (by decide) hn hnv
  have e : ([27, 91, 52, 56, 59, 53, 59] ++ ns : List Nat)
      = [27, 91] ++ ([52, 56] ++ ((59 :: [53]) ++ (59 :: ns))) := rfl
  rw [e, feedAll_append, feedAll_append, feedAll_append]
  exact h3

theorem handleSgr_48_5 (s p : VtParser) (n : Nat) (h : csiParsed s p [48, 5, n]) :
    (handleSgr s).buf = p.buf.setBgBright (lum256 (n : Int)) := by
  obtain ⟨-, f2, -, -, -, -, -, f8, f9⟩ := h
  have q0 : s.params 0 = 48 := f9 0 (by decide)
  have q1 : s.params (0 + 1) = 5 := f9 1 (by decide)
  have q2 : s.params (0 + 2) = (n : Int) := f9 2 (by decide)
  have hc : s.paramCount = 3 := f8
  unfold handleSgr
  rw [if_neg (by rw [hc]; decide)]
  have ht : s.paramCount.toNat = 3 := by rw [hc]; rfl
  simp only [ht]
  unfold sgrLoop
  rw [if_pos (by rw [hc]; decide),
    sgrBody_48_5 s s.buf 0 q0 (by rw [hc]; decide) q1 (by rw [hc]; decide)]
  simp only []
  unfold sgrLoop
  rw [if_neg (by rw [hc]; decide), q2, f2]

end VtParser

theorem and3_block (a i : Nat) (hi : i < 4) : (4 * a + i) &&& 3 = i := by
  have h := Nat.and_pow_two_sub_one_eq_mod (4 * a + i) 2
  have e : 2 ^ 2 - 1 = 3 := by decide
  rw [e] at h
  rw [h]
  omega

theorem ditherLevel_le (bg : Nat) (h : bg ≤ 255) : ditherLevel bg ≤ 16 := by
  unfold ditherLevel
  rw [Nat.shiftRight_eq_div_pow]
  omega

theorem bayer_count : ∀ L : Nat, L ≤ 16 →
    ((List.range 4).map (fun j =>
      ((List.range 4).filter (fun i => decide (L ≤ bayer j i))).length)).sum = 16 - L := by
  decide

theorem bayer_le : ∀ i : Nat, i < 4 → ∀ j : Nat, j < 4 → bayer i j ≤ 15 := by
  decide

theorem and3_lt (a : Nat) : a &&& 3 < 4 := by
  have := Nat.and_le_right (n := a) (m := 3)
  omega

theorem blackInBlock_eq (bg bx bi : Nat) :
    blackInBlock bg bx bi = 16 - ditherLevel bg ∨ 16 < ditherLevel bg := by
  by_cases h : ditherLevel bg ≤ 16
  · left
    rw [← bayer_count (ditherLevel bg) h]
    unfold blackInBlock
    congr 1
    apply List.map_congr_left
    intro j hj
    congr 1
    apply List.filter_congr
    intro i hi
    unfold drawBlack
    simp only [Bool.false_eq_true, if_false]
    rw [and3_block bi j (List.mem_range.mp hj), and3_block bx i (List.mem_range.mp hi)]
  · right
    omega

theorem fbStride_eq : fbStride = 100 := by decide

theorem mask_bits : ∀ b : Nat, b < 8 → ∀ k : Nat, k < 8 →
    (255 ^^^ ((1 <<< b) % 256)).testBit k = decide (k ≠ b) ∧
    (1 <<< b : Nat).testBit k = decide (k = b) := by
  decide

theorem testBit_clearBit (v b k : Nat) (hb : b < 8) (hk : k < 8) :
    (clearBit v b).testBit k = (if k = b then false else v.testBit k) := by
  unfold clearBit
  rw [Nat.testBit_and, (mask_bits b hb k hk).1]
  by_cases h : k = b
  · simp [h]
  · simp [h]

theorem testBit_setBit (v b k : Nat) (hb : b < 8) (hk : k < 8) :
    (setBit v b).testBit k = (if k = b then true else v.testBit k) := by
  unfold setBit
  have e : (256 : Nat) = 2 ^ 8 := by decide
  rw [e, Nat.testBit_mod_two_pow, Nat.testBit_or, (mask_bits b hb k hk).2]
  by_cases h : k = b
  · simp [h, hb]
  · simp [h, hk]

/-- One pixel write: the byte index stored to, and the effect on every pixel of the
display. -/
theorem blitPixel_spec (black : Bool) (X Y : Int) (fb : FrameBuffer)
    (hX : 0 ≤ X ∧ X < 800) (hY : 0 ≤ Y ∧ Y < 480) :
    (blitPixel black X Y fb).stores = fb.stores ++ [Y * 100 + X / 8] ∧
    (∀ i : Int, i ≠ Y * 100 + X / 8 → (blitPixel black X Y fb).bytes i = fb.bytes i) ∧
    (∀ x y : Int, 0 ≤ x → x < 800 →
      (blitPixel black X Y fb).pixel x y = if x = X ∧ y = Y then !black else fb.pixel x y) := by
  have e1 : wrapInt (wrapInt (Y * fbStride) + Int.tdiv X 8) = Y * 100 + X / 8 := by
    have w1 : wrapInt (Y * 100) = Y * 100 := TermBuffer.wrapInt_small (by omega)
    rw [fbStride_eq, Int.tdiv_eq_ediv hX.1 (by decide), w1, TermBuffer.wrapInt_small (by omega)]
  have e2 : (7 - Int.tmod X 8).toNat < 8 := by
    rw [Int.tmod_eq_emod hX.1 (by decide)]; omega
  have e3 : Int.tmod X 8 = X % 8 := Int.tmod_eq_emod hX.1 (by decide)
  unfold blitPixel
  simp only [e1]
  refine ⟨?_, ?_, ?_⟩
  · cases black <;> rfl
  · intro i hi
    cases black <;> simp only [Bool.false_eq_true, if_false, if_true, FrameBuffer.store, if_neg hi]
  · intro x y hx0 hx1
    unfold FrameBuffer.pixel
    rw [fbStride_eq]
    have hk : (7 - x % 8).toNat < 8 := by omega
    by_cases hidx : y * 100 + x / 8 = Y * 100 + X / 8
    · have hy : y = Y := by omega
      have hq : x / 8 = X / 8 := by omega
      cases black
      · simp only [Bool.false_eq_true, if_false, FrameBuffer.store, if_pos hidx, Bool.not_false]
        rw [testBit_setBit _ _ _ e2 hk, e3]
        by_cases hb : (7 - x % 8).toNat = (7 - X % 8).toNat
        · have hx : x = X := by omega
          rw [if_pos hb, if_pos ⟨hx, hy⟩]
        · have hx : ¬ (x = X ∧ y = Y) := fun h => hb (by rw [h.1])
          rw [if_neg hb, if_neg hx, ← hidx]
      · simp only [if_true, FrameBuffer.store, if_pos hidx, Bool.not_true]
        rw [testBit_clearBit _ _ _ e2 hk, e3]
        by_cases hb : (7 - x % 8).toNat = (7 - X % 8).toNat
        · have hx : x = X := by omega
          rw [if_pos hb, if_pos ⟨hx, hy⟩]
        · have hx : ¬ (x = X ∧ y = Y) := fun h => hb (by rw [h.1])
          rw [if_neg hb, if_neg hx, ← hidx]
    · have hx : ¬ (x = X ∧ y = Y) := fun h => hidx (by rw [h.1, h.2])
      rw [if_neg hx]
      cases black <;>
        simp only [Bool.false_eq_true, if_false, if_true, FrameBuffer.store, if_neg hidx]

/-- The inner loop of `blitGlyph` on display row `Y`, when it stays left of the right
edge. -/
theorem blitCols_spec (font : TermFont) (glyph : Int → Nat) (bg : Nat) (inv : Bool)
    (px Y : Int) (gy : Nat) (hY : 0 ≤ Y ∧ Y < 480) (hpx : 0 ≤ px) :
    ∀ (k gx : Nat) (fb : FrameBuffer), px + gx + k ≤ 800 →
      (∃ new : List Int,
        (blitCols font glyph bg inv px Y gy k gx fb).stores = fb.stores ++ new ∧
        new.length = k ∧
        ∀ i ∈ new, ∃ x : Int, px + gx ≤ x ∧ x < px + gx + k ∧ i = Y * 100 + x / 8) ∧
      (∀ i : Int, i < Y * 100 ∨ Y * 100 + 100 ≤ i →
        (blitCols font glyph bg inv px Y gy k gx fb).bytes i = fb.bytes i) ∧
      (∀ x y : Int, 0 ≤ x → x < 800 →
        (blitCols font glyph bg inv px Y gy k gx fb).pixel x y =
          if y = Y ∧ px + gx ≤ x ∧ x < px + gx + k then
            !glyphBlack font glyph bg inv (x - px).toNat gy
          else fb.pixel x y) := by
  intro k
  induction k with
  | zero =>
    intro gx fb _
    refine ⟨⟨[], by simp [blitCols], rfl, by simp⟩, fun i _ => rfl, ?_⟩
    intro x y _ _
    rw [if_neg (by omega)]
    rfl
  | succ k ih =>
    intro gx fb hk
    push_cast at hk
    have hw : wrapInt (px + (gx : Int)) = px + gx := TermBuffer.wrapInt_small (by omega)
    have hX : 0 ≤ px + (gx : Int) ∧ px + (gx : Int) < 800 := by omega
    have hnb : ¬ (px + (gx : Int) ≥ DISPLAY_W) := by
      have : DISPLAY_W = 800 := rfl
      rw [this]; omega
    have e : blitCols font glyph bg inv px Y gy (k + 1) gx fb =
        blitCols font glyph bg inv px Y gy k (gx + 1)
          (blitPixel (glyphBlack font glyph bg inv gx gy) (px + gx) Y fb) := by
      simp only [blitCols, hw, if_neg hnb, glyphBlack]
    rw [e]
    obtain ⟨p1, p2, p3⟩ := blitPixel_spec (glyphBlack font glyph bg inv gx gy) (px + gx) Y fb hX hY
    obtain ⟨⟨new, q1, q1l, q1m⟩, q2, q3⟩ := ih (gx + 1)
      (blitPixel (glyphBlack font glyph bg inv gx gy) (px + gx) Y fb) (by push_cast; omega)
    refine ⟨⟨(Y * 100 + (px + gx) / 8) :: new, ?_, ?_, ?_⟩, ?_, ?_⟩
    · rw [q1, p1, List.append_assoc]; rfl
    · rw [List.length_cons, q1l]
    · intro i hi
      rcases List.mem_cons.mp hi with rfl | hi
      · exact ⟨px + gx, by omega, by omega, rfl⟩
      · obtain ⟨x, x1, x2, x3⟩ := q1m i hi
        push_cast at x1 x2
        exact ⟨x, by omega, by push_cast; omega, x3⟩
    · intro i hi
      rw [q2 i hi, p2 i (by omega)]
    · intro x y hx0 hx1
      rw [q3 x y hx0 hx1, p3 x y hx0 hx1]
      push_cast
      by_cases h1 : x = px + gx ∧ y = Y
      · have e1 : (x - px).toNat = gx := by omega
        rw [if_neg (by omega), if_pos h1, if_pos (by omega), e1]
      · rw [if_neg h1]
        by_cases h2 : y = Y ∧ px + (gx + 1) ≤ x ∧ x < px + (gx + 1) + k
        · rw [if_pos h2, if_pos (by omega)]
        · rw [if_neg h2, if_neg (by omega)]

/-- The outer loop of `blitGlyph`, when it stays inside the display. -/
theorem blitRows_spec (font : TermFont) (glyph : Int → Nat) (bg : Nat) (inv : Bool)
    (px py : Int) (hpx : 0 ≤ px ∧ px + 10 ≤ 800) (hpy : 0 ≤ py) :
    ∀ (k gy : Nat) (fb : FrameBuffer), py + gy + k ≤ 480 →
      (∃ new : List Int,
        (blitRows font glyph bg inv px py k gy fb).stores = fb.stores ++ new ∧
        new.length = k * 10 ∧
        ∀ i ∈ new, ∃ x y : Int, px ≤ x ∧ x < px + 10 ∧ py + gy ≤ y ∧ y < py + gy + k ∧
          i = y * 100 + x / 8) ∧
      (∀ i : Int, i < (py + gy) * 100 ∨ (py + gy + k) * 100 ≤ i →
        (blitRows font glyph bg inv px py k gy fb).bytes i = fb.bytes i) ∧
      (∀ x y : Int, 0 ≤ x → x < 800 →
        (blitRows font glyph bg inv px py k gy fb).pixel x y =
          if py + gy ≤ y ∧ y < py + gy + k ∧ px ≤ x ∧ x < px + 10 then
            !glyphBlack font glyph bg inv (x - px).toNat (y - py).toNat
          else fb.pixel x y) := by
  intro k
  induction k with
  | zero =>
    intro gy fb _
    refine ⟨⟨[], by simp [blitRows], rfl, by simp⟩, fun i _ => rfl, ?_⟩
    intro x y _ _
    rw [if_neg (by omega)]
    rfl
  | succ k ih =>
    intro gy fb hk
    push_cast at hk
    have hw : wrapInt (py + (gy : Int)) = py + gy := TermBuffer.wrapInt_small (by omega)
    have hY : 0 ≤ py + (gy : Int) ∧ py + (gy : Int) < 480 := by omega
    have hnb : ¬ (py + (gy : Int) ≥ DISPLAY_H) := by
      have : DISPLAY_H = 480 := rfl
      rw [this]; omega
    have hfw : TERM_FONT_W.toNat = 10 := rfl
    have e : blitRows font glyph bg inv px py (k + 1) gy fb =
        blitRows font glyph bg inv px py k (gy + 1)
          (blitCols font glyph bg inv px (py + gy) gy 10 0 fb) := by
      simp only [blitRows, hw, if_neg hnb, hfw]
    rw [e]
    obtain ⟨⟨n1, p1, p1l, p1m⟩, p2, p3⟩ :=
      blitCols_spec font glyph bg inv px (py + gy) gy hY hpx.1 10 0 fb (by push_cast; omega)
    obtain ⟨⟨new, q1, q1l, q1m⟩, q2, q3⟩ := ih (gy + 1)
      (blitCols font glyph bg inv px (py + gy) gy 10 0 fb) (by push_cast; omega)
    refine ⟨⟨n1 ++ new, ?_, ?_, ?_⟩, ?_, ?_⟩
    · rw [q1, p1, List.append_assoc]
    · rw [List.length_append, q1l, p1l]; ring
    · intro i hi
      rcases List.mem_append.mp hi with hi | hi
      · obtain ⟨x, x1, x2, x3⟩ := p1m i hi
        push_cast at x1 x2
        exact ⟨x, py + gy, by omega, by omega, by omega, by omega, x3⟩
      · obtain ⟨x, y, x1, x2, y1, y2, x3⟩ := q1m i hi
        push_cast at y1 y2
        exact ⟨x, y, x1, x2, by omega, by push_cast; omega, x3⟩
    · intro i hi
      push_cast at q2
      rw [q2 i (by omega), p2 i (by omega)]
    · intro x y hx0 hx1
      rw [q3 x y hx0 hx1, p3 x y hx0 hx1]
      push_cast
      by_cases h1 : y = py + gy ∧ px + 0 ≤ x ∧ x < px + 0 + 10
      · have e1 : (y - py).toNat = gy := by omega
        rw [if_neg (by omega), if_pos h1, if_pos (by omega), e1]
      · rw [if_neg h1]
        by_cases h2 : py + (gy + 1) ≤ y ∧ y < py + (gy + 1) + k ∧ px ≤ x ∧ x < px + 10
        · rw [if_pos h2, if_pos (by omega)]
        · rw [if_neg h2, if_neg (by omega)]

/-- The blit of a glyph at an origin that keeps the whole glyph inside the display. -/
theorem blitGlyph_spec (font : TermFont) (fb : FrameBuffer) (glyph : Int → Nat) (bg : Nat)
    (inv : Bool) (px py : Int) (hpx : 0 ≤ px ∧ px + 10 ≤ 800) (hpy : 0 ≤ py ∧ py + 20 ≤ 480) :
    (∃ new : List Int,
      (blitGlyph font fb px py glyph bg inv).stores = fb.stores ++ new ∧
      new.length = 200 ∧
      ∀ i ∈ new, ∃ x y : Int, px ≤ x ∧ x < px + 10 ∧ py ≤ y ∧ y < py + 20 ∧
        i = y * 100 + x / 8) ∧
    (∀ i : Int, i < py * 100 ∨ (py + 20) * 100 ≤ i →
      (blitGlyph font fb px py glyph bg inv).bytes i = fb.bytes i) ∧
    (∀ x y : Int, 0 ≤ x → x < 800 →
      (blitGlyph font fb px py glyph bg inv).pixel x y =
        if py ≤ y ∧ y < py + 20 ∧ px ≤ x ∧ x < px + 10 then
          !glyphBlack font glyph bg inv (x - px).toNat (y - py).toNat
        else fb.pixel x y) := by
  have hfh : TERM_FONT_H.toNat = 20 := rfl
  have h := blitRows_spec font glyph bg inv px py hpx hpy.1 20 0 fb (by push_cast; omega)
  unfold blitGlyph
  rw [hfh]
  simpa using h

theorem printable_not_cont : ∀ x : Nat, x < 127 → ¬ x &&& 192 = 128 := by decide

theorem renderCell_eq (font : TermFont) (buf : TermBuffer) (fb : FrameBuffer) (row col : Int)
    (hr : 0 ≤ row ∧ row < 24) (hc : 0 ≤ col ∧ col < 78) :
    renderCell font buf row col fb =
      blitGlyph font fb (10 + col * 10) (row * 20) (font.getGlyph (buf.cellAt row col).codepoint)
        (effectiveBg (buf.cellAt row col))
        (decide (effectiveBg (buf.cellAt row col) < 128)) := by
  have c1 : TERM_OFFSET_X = 10 := rfl
  have c2 : TERM_FONT_W = 10 := rfl
  have c3 : TERM_FONT_H = 20 := rfl
  have w1 : wrapInt (col * 10) = col * 10 := TermBuffer.wrapInt_small (by omega)
  have w2 : wrapInt (10 + col * 10) = 10 + col * 10 := TermBuffer.wrapInt_small (by omega)
  have w3 : wrapInt (row * 20) = row * 20 := TermBuffer.wrapInt_small (by omega)
  unfold renderCell
  simp only [c1, c2, c3, w1, w2, w3]

namespace VtParser

/-- A printable ASCII byte in Ground is printed. -/
theorem feed_printable (p : VtParser) (x : Nat) (hs : p.state = State.Ground)
    (hx : 32 ≤ x ∧ x < 127) :
    (feed p x).state = State.Ground ∧ (feed p x).buf = p.buf.putChar x := by
  have hg : ∀ q : VtParser, q.state = State.Ground →
      (handleGroundByte q x).state = State.Ground ∧
      (handleGroundByte q x).buf = q.buf.putChar x := by
    intro q hq
    unfold handleGroundByte
    rw [if_neg (show ¬ x = 27 by omega), if_neg (show ¬ x = 7 by omega),
      if_neg (show ¬ x = 8 by omega), if_neg (show ¬ x = 9 by omega),
      if_neg (show ¬ (x = 10 ∨ x = 11 ∨ x = 12) by omega), if_neg (show ¬ x = 13 by omega),
      if_pos (show x ≥ 32 ∧ x < 127 from hx)]
    exact ⟨hq, rfl⟩
  rw [feed_ground p x hs]
  unfold handleGround
  by_cases h : p.utf8Remaining > 0
  · rw [if_pos h, if_neg (printable_not_cont x hx.2)]
    exact hg { p with utf8Remaining := 0 } hs
  · rw [if_neg h]
    exact hg p hs

theorem handleSgr_single (s p : VtParser) (v : Nat) (h : csiParsed s p [v]) :
    (handleSgr s).buf = (sgrBody s p.buf 0).1 := by
  obtain ⟨-, f2, -, -, -, -, -, f8, -⟩ := h
  have hc : s.paramCount = 1 := f8
  unfold handleSgr
  rw [if_neg (by rw [hc]; decide)]
  have ht : s.paramCount.toNat = 1 := by rw [hc]; rfl
  simp only [ht]
  unfold sgrLoop
  rw [if_pos (by rw [hc]; decide)]
  simp only []
  unfold sgrLoop
  rw [f2]

/-- The sequences `ESC [ 7 m` and `ESC [ 0 m`. -/
theorem feed_sgr_7_0 (p : VtParser) (hs : p.state = State.Ground) :
    ((feedAll p [27, 91, 55, 109]).state = State.Ground ∧
      (feedAll p [27, 91, 55, 109]).buf = p.buf.setAttr TermCell.ATTR_INVERSE) ∧
    ((feedAll p [27, 91, 48, 109]).state = State.Ground ∧
      (feedAll p [27, 91, 48, 109]).buf = p.buf.resetAttrs) := by
  constructor
  · have h := csi_one_field p hs 55 [] (by decide) (by decide)
    have e : ([27, 91, 55, 109] : List Nat) = [27, 91] ++ [55] ++ [109] := rfl
    rw [e, feedAll_append]
    generalize feedAll p ([27, 91] ++ [55]) = s at h
    have hf : feedAll s [109] = feed s 109 := rfl
    rw [hf, feed_final s p _ h 109 (by decide), dispatchCsi_sgr s h.2.2.2.2.1]
    refine ⟨rfl, ?_⟩
    have e0 : s.params 0 = 7 := h.2.2.2.2.2.2.2.2 0 (by decide)
    have e1 := handleSgr_single s p _ h
    simp only [] at e1 ⊢
    rw [e1]
    unfold sgrBody
    simp only [e0, Int.reduceEq, if_false, if_true]
  · have h := csi_one_field p hs 48 [] (by decide) (by decide)
    have e : ([27, 91, 48, 109] : List Nat) = [27, 91] ++ [48] ++ [109] := rfl
    rw [e, feedAll_append]
    generalize feedAll p ([27, 91] ++ [48]) = s at h
    have hf : feedAll s [109] = feed s 109 := rfl
    rw [hf, feed_final s p _ h 109 (by decide), dispatchCsi_sgr s h.2.2.2.2.1]
    refine ⟨rfl, ?_⟩
    have e0 : s.params 0 = 0 := h.2.2.2.2.2.2.2.2 0 (by decide)
    have e1 := handleSgr_single s p _ h
    simp only [] at e1 ⊢
    rw [e1]
    unfold sgrBody
    simp only [e0, if_true]

/-- The buffer after `ESC [ 7 m`, a printable byte `x` and `ESC [ 0 m`. -/
theorem feed_inverse_char (p : VtParser) (x : Nat) (hs : p.state = State.Ground)
    (hx : 32 ≤ x ∧ x < 127) :
    (feedAll p ([27, 91, 55, 109] ++ [x] ++ [27, 91, 48, 109])).buf
      = ((p.buf.setAttr TermCell.ATTR_INVERSE).putChar x).resetAttrs := by
  obtain ⟨a1, a2⟩ := (feed_sgr_7_0 p hs).1
  obtain ⟨b1, b2⟩ := feed_printable (feedAll p [27, 91, 55, 109]) x a1 hx
  have e : feedAll (feedAll p [27, 91, 55, 109]) [x] = feed (feedAll p [27, 91, 55, 109]) x :=
    rfl
  rw [feedAll_append, feedAll_append, e, ((feed_sgr_7_0 _ b1).2).2, b2, a2]

end VtParser

theorem cells_resetAttrs (b : TermBuffer) : b.resetAttrs.cells = b.cells := by
  cases b; rfl

/-- With effective background 0 the blit draws glyph pixels white and background pixels
black. -/
theorem drawBlack_dark (glyphPixel : Bool) (gx gy : Nat) :
    drawBlack glyphPixel (decide ((0 : Nat) < 128)) 0 gx gy = !glyphPixel := by
  unfold drawBlack
  cases glyphPixel
  · have e : ditherLevel 0 = 0 := by decide
    simp only [Bool.false_eq_true, if_false, e, Nat.zero_le, decide_True, Bool.not_false]
  · simp only [if_true]
    decide

/-- The buffer after `ESC [ 7 m`, `x`, `ESC [ 0 m` on a fresh terminal. -/
theorem inverse_char_buf (x : Nat) (hx : 32 ≤ x ∧ x < 127) :
    (VtParser.feedAll freshTerminal ([27, 91, 55, 109] ++ [x] ++ [27, 91, 48, 109])).buf.cellAt
        0 0 = { codepoint := x, attrs := TermCell.ATTR_INVERSE, bgBright := 255 } ∧
    (VtParser.feedAll freshTerminal ([27, 91, 55, 109] ++ [x] ++ [27, 91, 48, 109])).buf.attrs
      = 0 ∧
    (VtParser.feedAll freshTerminal ([27, 91, 55, 109] ++ [x] ++ [27, 91, 48, 109])).buf.bgBright
      = 255 := by
  rw [VtParser.feed_inverse_char freshTerminal x (by rw [freshTerminal_eq]) hx, freshTerminal_eq]
  refine ⟨?_, rfl, rfl⟩
  unfold TermBuffer.cellAt
  rw [cells_resetAttrs, TermBuffer.putChar_cells, TermBuffer.wrapIfPending_of_not rfl]
  have e1 : (({ dirtyRows := 16777215 } : TermBuffer).setAttr TermCell.ATTR_INVERSE).curRow = 0 :=
    rfl
  have e2 : (({ dirtyRows := 16777215 } : TermBuffer).setAttr TermCell.ATTR_INVERSE).curCol = 0 :=
    rfl
  have e3 : (({ dirtyRows := 16777215 } : TermBuffer).setAttr TermCell.ATTR_INVERSE).attrs
      = TermCell.ATTR_INVERSE := by decide
  have e4 : (({ dirtyRows := 16777215 } : TermBuffer).setAttr TermCell.ATTR_INVERSE).bgBright
      = 255 := rfl
  rw [e1, e2, e3, e4, TermBuffer.cellAt_set, if_pos ⟨rfl, by decide⟩,
    Nat.mod_eq_of_lt (by omega)]

theorem popcount_eq_card (m : Nat) :
    popcount m = ((Finset.range 32).filter (fun i => m.testBit i = true)).card := by
  unfold popcount
  show _ = Multiset.card (Multiset.filter (fun i => m.testBit i = true) (Multiset.range 32))
  show _ = Multiset.card (Multiset.filter (fun i => m.testBit i = true)
    ((List.range 32 : List Nat) : Multiset Nat))
  rw [Multiset.filter_coe, Multiset.coe_card]
  congr 1
  apply List.filter_congr
  intro x _
  simp

theorem testBit_false_of_lt (m n j : Nat) (h : m < 2 ^ n) (hj : n ≤ j) : m.testBit j = false :=
  Nat.testBit_lt_two_pow (lt_of_lt_of_le h (Nat.pow_le_pow_right (by decide) hj))

theorem lowBitFrom_spec (d : Nat) : ∀ (k i : Nat),
    i ≤ lowBitFrom d k i ∧ lowBitFrom d k i ≤ i + k ∧
    (∀ j, i ≤ j → j < lowBitFrom d k i → d.testBit j = false) ∧
    (lowBitFrom d k i < i + k → d.testBit (lowBitFrom d k i) = true) := by
  intro k
  induction k with
  | zero =>
    intro i
    refine ⟨le_refl _, le_refl _, ?_, ?_⟩
    · intro j h1 h2; exact absurd h2 (by simp only [lowBitFrom]; omega)
    · intro h; exact absurd h (by simp only [lowBitFrom]; omega)
  | succ k ih =>
    intro i
    by_cases hb : d.testBit i = true
    · have e : lowBitFrom d (k + 1) i = i := by simp only [lowBitFrom, hb, if_true]
      rw [e]
      exact ⟨le_refl _, by omega, fun j h1 h2 => absurd h2 (by omega), fun _ => hb⟩
    · have e : lowBitFrom d (k + 1) i = lowBitFrom d k (i + 1) := by
        simp only [lowBitFrom, hb, if_false, Bool.false_eq_true]
      rw [e]
      obtain ⟨a1, a2, a3, a4⟩ := ih (i + 1)
      refine ⟨by omega, by omega, ?_, fun h => a4 (by omega)⟩
      intro j h1 h2
      by_cases hji : j = i
      · rw [hji]; exact Bool.eq_false_iff.mpr hb
      · exact a3 j (by omega) h2

theorem highZerosFrom_spec (d : Nat) : ∀ (k i : Nat),
    i ≤ highZerosFrom d k i ∧ highZerosFrom d k i ≤ i + k ∧
    (∀ j, i ≤ j → j < highZerosFrom d k i → d.testBit (31 - j) = false) ∧
    (highZerosFrom d k i < i + k → d.testBit (31 - highZerosFrom d k i) = true) := by
  intro k
  induction k with
  | zero =>
    intro i
    refine ⟨le_refl _, le_refl _, ?_, ?_⟩
    · intro j h1 h2; exact absurd h2 (by simp only [highZerosFrom]; omega)
    · intro h; exact absurd h (by simp only [highZerosFrom]; omega)
  | succ k ih =>
    intro i
    by_cases hb : d.testBit (31 - i) = true
    · have e : highZerosFrom d (k + 1) i = i := by simp only [highZerosFrom, hb, if_true]
      rw [e]
      exact ⟨le_refl _, by omega, fun j h1 h2 => absurd h2 (by omega), fun _ => hb⟩
    · have e : highZerosFrom d (k + 1) i = highZerosFrom d k (i + 1) := by
        simp only [highZerosFrom, hb, if_false, Bool.false_eq_true]
      rw [e]
      obtain ⟨a1, a2, a3, a4⟩ := ih (i + 1)
      refine ⟨by omega, by omega, ?_, fun h => a4 (by omega)⟩
      intro j h1 h2
      by_cases hji : j = i
      · rw [hji]; exact Bool.eq_false_iff.mpr hb
      · exact a3 j (by omega) h2

/-- On a nonzero 32-bit value `ctz` is the index of the lowest 1 bit. -/
theorem ctz_spec (m : Nat) (hm : m ≠ 0) (hlt : m < 2 ^ 32) :
    ∃ a : Nat, ctz m = (a : Int) ∧ a < 32 ∧ m.testBit a = true ∧
      ∀ j, m.testBit j = true → a ≤ j := by
  obtain ⟨a1, a2, a3, a4⟩ := lowBitFrom_spec m 32 0
  obtain ⟨b, hb⟩ := Nat.ne_zero_implies_bit_true hm
  have hb32 : b < 32 := by
    by_contra h
    rw [testBit_false_of_lt m 32 b hlt (by omega)] at hb
    exact Bool.false_ne_true hb
  have hlow : lowBitFrom m 32 0 < 32 := by
    by_contra h
    have := a3 b (Nat.zero_le _) (by omega)
    rw [this] at hb
    exact Bool.false_ne_true hb
  refine ⟨lowBitFrom m 32 0, rfl, hlow, a4 (by omega), ?_⟩
  intro j hj
  by_contra h
  have := a3 j (Nat.zero_le _) (by omega)
  rw [this] at hj
  exact Bool.false_ne_true hj

/-- On a nonzero 32-bit value `31 - clz` is the index of the highest 1 bit. -/
theorem clz_spec (m : Nat) (hm : m ≠ 0) (hlt : m < 2 ^ 32) :
    ∃ a : Nat, 31 - clz m = (a : Int) ∧ a < 32 ∧ m.testBit a = true ∧
      ∀ j, m.testBit j = true → j ≤ a := by
  obtain ⟨a1, a2, a3, a4⟩ := highZerosFrom_spec m 32 0
  obtain ⟨b, hb⟩ := Nat.ne_zero_implies_bit_true hm
  have hb32 : b < 32 := by
    by_contra h
    rw [testBit_false_of_lt m 32 b hlt (by omega)] at hb
    exact Bool.false_ne_true hb
  have hz : highZerosFrom m 32 0 < 32 := by
    by_contra h
    have := a3 (31 - b) (Nat.zero_le _) (by omega)
    rw [show 31 - (31 - b) = b by omega, hb] at this
    exact Bool.false_ne_true this.symm
  refine ⟨31 - highZerosFrom m 32 0, ?_, by omega, a4 (by omega), ?_⟩
  · unfold clz; omega
  · intro j hj
    have hj32 : j < 32 := by
      by_contra h
      rw [testBit_false_of_lt m 32 j hlt (by omega)] at hj
      exact Bool.false_ne_true hj
    by_contra h
    have := a3 (31 - j) (Nat.zero_le _) (by omega)
    rw [show 31 - (31 - j) = j by omega, hj] at this
    exact Bool.false_ne_true this.symm

namespace TermRenderer

/-- The bits of the dirty mask are the rows of `refreshRows`. -/
theorem dirtyMask_bits (r : TermRenderer) (hd : r.buf.dirtyRows < 2 ^ 24)
    (hl : -1 ≤ r.lastCursorRow ∧ r.lastCursorRow < 24) :
    dirtyMask r < 2 ^ 24 ∧
    ∀ i : Nat, (dirtyMask r).testBit i = true ↔ i ∈ r.refreshRows := by
  have hmem : ∀ i : Nat, i ∈ r.refreshRows ↔
      (r.buf.dirtyRows.testBit i = true ∨ (i : Int) = r.lastCursorRow) := by
    intro i
    unfold refreshRows
    rw [Finset.mem_filter, Finset.mem_range]
    constructor
    · exact fun h => h.2
    · intro h
      refine ⟨?_, h⟩
      rcases h with h | h
      · by_contra hc
        rw [testBit_false_of_lt _ 24 i hd (by omega)] at h
        exact Bool.false_ne_true h
      · omega
  unfold dirtyMask
  by_cases h0 : r.lastCursorRow ≥ 0
  · rw [if_pos h0, if_pos (by omega)]
    obtain ⟨l, hl'⟩ : ∃ l : Nat, r.lastCursorRow = (l : Int) := ⟨r.lastCursorRow.toNat, by omega⟩
    have hl24 : l < 24 := by omega
    have e : r.lastCursorRow.toNat = l := by omega
    rw [e, Nat.one_shiftLeft]
    have h2 : (2 : Nat) ^ l < 2 ^ 24 := Nat.pow_lt_pow_right (by decide) hl24
    have hor : r.buf.dirtyRows ||| 2 ^ l < 2 ^ 24 := Nat.or_lt_two_pow hd h2
    have hmod : (r.buf.dirtyRows ||| 2 ^ l) % 4294967296 = r.buf.dirtyRows ||| 2 ^ l :=
      Nat.mod_eq_of_lt (lt_trans hor (by decide))
    rw [hmod]
    refine ⟨hor, ?_⟩
    intro i
    rw [hmem, Nat.testBit_or, Nat.testBit_two_pow, Bool.or_eq_true, decide_eq_true_eq, hl']
    constructor
    · rintro (h | h)
      · exact Or.inl h
      · exact Or.inr (by omega)
    · rintro (h | h)
      · exact Or.inl h
      · exact Or.inr (by omega)
  · rw [if_neg h0]
    refine ⟨hd, ?_⟩
    intro i
    rw [hmem]
    constructor
    · exact fun h => Or.inl h
    · rintro (h | h)
      · exact h
      · omega

theorem dirtyMask_card (r : TermRenderer) (hd : r.buf.dirtyRows < 2 ^ 24)
    (hl : -1 ≤ r.lastCursorRow ∧ r.lastCursorRow < 24) :
    popcount (dirtyMask r) = r.refreshRows.card ∧
    (dirtyMask r = 0 ↔ r.refreshRows = ∅) := by
  obtain ⟨h1, h2⟩ := dirtyMask_bits r hd hl
  constructor
  · rw [popcount_eq_card]
    congr 1
    ext i
    rw [Finset.mem_filter, Finset.mem_range, h2]
    constructor
    · exact fun h => h.2
    · intro h
      refine ⟨?_, h⟩
      unfold refreshRows at h
      exact Finset.mem_range.mp (Finset.mem_filter.mp h).1
  · rw [Finset.eq_empty_iff_forall_not_mem]
    constructor
    · intro h i hi
      have := (h2 i).mpr hi
      rw [h] at this
      simp at this
    · intro h
      apply Nat.zero_of_testBit_eq_false
      intro i
      by_contra hc
      exact h i ((h2 i).mp (by simpa using hc))

/-- The fields of the renderer after a `renderDirty` that refreshes. -/
theorem renderDirty_fields (font : TermFont) (r : TermRenderer) (h : dirtyMask r ≠ 0) :
    (renderDirty font r).display.commands =
      (if wrapInt (r.fastRefreshCount + 1) ≥ FULL_REFRESH_INTERVAL then
        r.display.commands ++
          [if (popcount (dirtyMask r) : Int) > DIRTY_ROWS_PARTIAL_MAX then
            DisplayCmd.displayBuffer RefreshMode.FAST_REFRESH
           else DisplayCmd.displayWindow 0 (updateWindow r (dirtyMask r)).1 DISPLAY_W
             (updateWindow r (dirtyMask r)).2]
          ++ [DisplayCmd.displayBuffer RefreshMode.FULL_REFRESH]
       else
        r.display.commands ++
          [if (popcount (dirtyMask r) : Int) > DIRTY_ROWS_PARTIAL_MAX then
            DisplayCmd.displayBuffer RefreshMode.FAST_REFRESH
           else DisplayCmd.displayWindow 0 (updateWindow r (dirtyMask r)).1 DISPLAY_W
             (updateWindow r (dirtyMask r)).2]) ∧
    (renderDirty font r).fastRefreshCount =
      (if wrapInt (r.fastRefreshCount + 1) ≥ FULL_REFRESH_INTERVAL then 0
        else wrapInt (r.fastRefreshCount + 1)) ∧
    (renderDirty font r).buf = r.buf.clearDirty ∧
    (renderDirty font r).lastCursorRow = r.buf.curRow ∧
    (renderDirty font r).lastCursorCol = r.buf.curCol ∧
    (renderDirty font r).cursorVisible = r.cursorVisible := by
  unfold renderDirty
  rw [if_neg h]
  by_cases hc : wrapInt (r.fastRefreshCount + 1) ≥ FULL_REFRESH_INTERVAL
  · simp only [hc, decide_True, if_true]
    exact ⟨trivial, trivial, trivial, rfl, rfl, trivial⟩
  · simp only [hc, decide_False, if_false, Bool.false_eq_true]
    exact ⟨trivial, trivial, trivial, rfl, rfl, trivial⟩

/-- The window of the partial update spans the least to the greatest of the rows to
re-render and the cursor row. -/
theorem updateWindow_spec (r : TermRenderer) (hd : r.buf.dirtyRows < 2 ^ 24)
    (hc : 0 ≤ r.buf.curRow ∧ r.buf.curRow < 24)
    (hl : -1 ≤ r.lastCursorRow ∧ r.lastCursorRow < 24) (hne : dirtyMask r ≠ 0) :
    ∃ mn mx : Int,
      updateWindow r (dirtyMask r) = (mn * 20, (mx - mn + 1) * 20) ∧
      (mn = r.buf.curRow ∨ ∃ i ∈ r.refreshRows, mn = (i : Int)) ∧ mn ≤ r.buf.curRow ∧
      (∀ i ∈ r.refreshRows, mn ≤ (i : Int)) ∧
      (mx = r.buf.curRow ∨ ∃ i ∈ r.refreshRows, mx = (i : Int)) ∧ r.buf.curRow ≤ mx ∧
      (∀ i ∈ r.refreshRows, (i : Int) ≤ mx) ∧ 0 ≤ mn ∧ mx < 24 := by
  obtain ⟨hm24, hbits⟩ := dirtyMask_bits r hd hl
  have hm32 : dirtyMask r < 2 ^ 32 := lt_trans hm24 (by decide)
  obtain ⟨a, ha, ha32, hab, hamin⟩ := ctz_spec (dirtyMask r) hne hm32
  obtain ⟨z, hz, hz32, hzb, hzmax⟩ := clz_spec (dirtyMask r) hne hm32
  have hlt24 : ∀ j, (dirtyMask r).testBit j = true → j < 24 := by
    intro j hj
    by_contra hcon
    rw [testBit_false_of_lt _ 24 j hm24 (by omega)] at hj
    exact Bool.false_ne_true hj
  have ha24 := hlt24 a hab
  have hz24 := hlt24 z hzb
  have haz : a ≤ z := hamin z hzb
  have haD : a ∈ r.refreshRows := (hbits a).mp hab
  have hzD : z ∈ r.refreshRows := (hbits z).mp hzb
  have hlast : r.lastCursorRow ≥ 0 → (a : Int) ≤ r.lastCursorRow ∧ r.lastCursorRow ≤ (z : Int) := by
    intro h0
    have hmem : r.lastCursorRow.toNat ∈ r.refreshRows := by
      unfold refreshRows
      rw [Finset.mem_filter, Finset.mem_range]
      exact ⟨by omega, Or.inr (by omega)⟩
    have h1 := hamin _ ((hbits _).mpr hmem)
    have h2 := hzmax _ ((hbits _).mpr hmem)
    omega
  have hcur : r.buf.cursorRow = r.buf.curRow := rfl
  have hfh : TERM_FONT_H = 20 := rfl
  refine ⟨min (a : Int) r.buf.curRow, max (z : Int) r.buf.curRow, ?_, ?_, by omega, ?_, ?_,
    by omega, ?_, by omega, by omega⟩
  · unfold updateWindow
    simp only [ha, hz, hcur, hfh]
    have e1 : (if r.lastCursorRow ≥ 0 ∧
          r.lastCursorRow < (if r.buf.curRow < (a : Int) then r.buf.curRow else (a : Int))
        then r.lastCursorRow else (if r.buf.curRow < (a : Int) then r.buf.curRow else (a : Int)))
        = min (a : Int) r.buf.curRow := by
      split_ifs <;> omega
    have e2 : (if r.lastCursorRow ≥ 0 ∧
          r.lastCursorRow > (if r.buf.curRow > (z : Int) then r.buf.curRow else (z : Int))
        then r.lastCursorRow else (if r.buf.curRow > (z : Int) then r.buf.curRow else (z : Int)))
        = max (z : Int) r.buf.curRow := by
      split_ifs <;> omega
    rw [e1, e2]
    have w1 : wrapInt (min (a : Int) r.buf.curRow * 20) = min (a : Int) r.buf.curRow * 20 :=
      TermBuffer.wrapInt_small (by omega)
    have w2 : wrapInt (max (z : Int) r.buf.curRow - min (a : Int) r.buf.curRow)
        = max (z : Int) r.buf.curRow - min (a : Int) r.buf.curRow :=
      TermBuffer.wrapInt_small (by omega)
    have w3 : wrapInt (max (z : Int) r.buf.curRow - min (a : Int) r.buf.curRow + 1)
        = max (z : Int) r.buf.curRow - min (a : Int) r.buf.curRow + 1 :=
      TermBuffer.wrapInt_small (by omega)
    have w4 : wrapInt ((max (z : Int) r.buf.curRow - min (a : Int) r.buf.curRow + 1) * 20)
        = (max (z : Int) r.buf.curRow - min (a : Int) r.buf.curRow + 1) * 20 :=
      TermBuffer.wrapInt_small (by omega)
    rw [w1, w2, w3, w4]
  · by_cases h : (a : Int) ≤ r.buf.curRow
    · exact Or.inr ⟨a, haD, by omega⟩
    · exact Or.inl (by omega)
  · intro i hi
    have := hamin i ((hbits i).mpr hi)
    omega
  · by_cases h : r.buf.curRow ≤ (z : Int)
    · exact Or.inr ⟨z, hzD, by omega⟩
    · exact Or.inl (by omega)
  · intro i hi
    have := hzmax i ((hbits i).mpr hi)
    omega

end TermRenderer

namespace TermRenderer

theorem renderFull_fields (font : TermFont) (r : TermRenderer) :
    (renderFull font r).display.commands =
      r.display.commands ++ [DisplayCmd.displayBuffer RefreshMode.FULL_REFRESH] ∧
    (renderFull font r).fastRefreshCount = 0 := by
  unfold renderFull
  exact ⟨rfl, rfl⟩

/-- What one call does to the counter and which commands it issues, from a counter in
`[0, 19]`. -/
theorem call_spec (font : TermFont) (r : TermRenderer) (c : RenderCall)
    (hf : 0 ≤ r.fastRefreshCount ∧ r.fastRefreshCount ≤ 19) :
    (∀ b, c = RenderCall.renderFull b →
      issued font r c = [DisplayCmd.displayBuffer RefreshMode.FULL_REFRESH] ∧
      (call font r c).fastRefreshCount = 0) ∧
    (∀ b, c = RenderCall.renderDirty b →
      (dirtyMask { r with buf := b } = 0 →
        issued font r c = [] ∧ (call font r c).fastRefreshCount = r.fastRefreshCount) ∧
      (dirtyMask { r with buf := b } ≠ 0 →
        issued font r c ≠ [] ∧
        (DisplayCmd.displayBuffer RefreshMode.FULL_REFRESH ∈ issued font r c ↔
          r.fastRefreshCount = 19) ∧
        (call font r c).fastRefreshCount =
          (if r.fastRefreshCount = 19 then 0 else r.fastRefreshCount + 1))) := by
  constructor
  · intro b hc
    subst hc
    obtain ⟨f1, f2⟩ := renderFull_fields font { r with buf := b }
    unfold issued call
    simp only []
    rw [f1, f2]
    exact ⟨List.drop_left _ _, rfl⟩
  · intro b hc
    subst hc
    constructor
    · intro h0
      unfold issued call
      simp only []
      unfold renderDirty
      rw [if_pos h0]
      exact ⟨List.drop_length _, rfl⟩
    · intro hne
      obtain ⟨f1, f2, -⟩ := renderDirty_fields font { r with buf := b } hne
      have hw : wrapInt (r.fastRefreshCount + 1) = r.fastRefreshCount + 1 :=
        TermBuffer.wrapInt_small (by omega)
      have c1 : FULL_REFRESH_INTERVAL = 20 := rfl
      simp only [hw, c1] at f1 f2
      unfold issued call
      simp only []
      rw [f1, f2]
      by_cases h19 : r.fastRefreshCount = 19
      · have h20 : r.fastRefreshCount + 1 ≥ 20 := by omega
        rw [if_pos h20, if_pos h20, if_pos h19, List.append_assoc, List.drop_left]
        refine ⟨by simp, ?_, rfl⟩
        simp [h19]
      · have h20 : ¬ r.fastRefreshCount + 1 ≥ 20 := by omega
        rw [if_neg h20, if_neg h20, if_neg h19, List.drop_left]
        refine ⟨by simp, ?_, rfl⟩
        constructor
        · intro hmem
          rw [List.mem_singleton] at hmem
          split_ifs at hmem
          all_goals cases hmem
        · intro h; exact absurd h h19

/-- The counter stays in `[0, 19]` and counts the refreshing calls since the last full
refresh. -/
theorem run_counter (font : TermFont) : ∀ (calls : List RenderCall) (r : TermRenderer) (n : Nat),
    0 ≤ r.fastRefreshCount ∧ r.fastRefreshCount ≤ 19 → r.fastRefreshCount = (n : Int) →
    0 ≤ (run font r calls).fastRefreshCount ∧ (run font r calls).fastRefreshCount ≤ 19 ∧
    (run font r calls).fastRefreshCount = (sinceFull font r calls n : Nat) := by
  intro calls
  induction calls with
  | nil => intro r n hf hn; exact ⟨hf.1, hf.2, hn⟩
  | cons c cs ih =>
    intro r n hf hn
    show 0 ≤ (run font (call font r c) cs).fastRefreshCount ∧
      (run font (call font r c) cs).fastRefreshCount ≤ 19 ∧
      (run font (call font r c) cs).fastRefreshCount =
        (sinceFull font (call font r c) cs
          (if DisplayCmd.displayBuffer RefreshMode.FULL_REFRESH ∈ issued font r c then 0
           else if issued font r c = [] then n else n + 1) : Nat)
    obtain ⟨hfull, hdirty⟩ := call_spec font r c hf
    cases c with
    | renderFull b =>
      obtain ⟨i1, i2⟩ := hfull b rfl
      rw [i1, if_pos (List.mem_singleton.mpr rfl)]
      exact ih _ 0 (by rw [i2]; decide) (by rw [i2]; rfl)
    | renderDirty b =>
      obtain ⟨hz, hnz⟩ := hdirty b rfl
      by_cases h0 : dirtyMask { r with buf := b } = 0
      · obtain ⟨i1, i2⟩ := hz h0
        rw [i1, if_neg (List.not_mem_nil _), if_pos rfl]
        exact ih _ n (by rw [i2]; exact hf) (by rw [i2]; exact hn)
      · obtain ⟨i1, i2, i3⟩ := hnz h0
        by_cases h19 : r.fastRefreshCount = 19
        · rw [if_pos (i2.mpr h19)]
          rw [if_pos h19] at i3
          exact ih _ 0 (by rw [i3]; decide) (by rw [i3]; rfl)
        · rw [if_neg (fun h => h19 (i2.mp h)), if_neg i1]
          rw [if_neg h19] at i3
          exact ih _ (n + 1) (by rw [i3]; omega) (by rw [i3, hn]; push_cast; rfl)

end TermRenderer

/-! # Claims -/

/-- C1: `ESC [ 4294967196 A` fed to a fresh terminal.  The digits overflow the 32-bit
parameter to `-100`; `moveCursorUp(-100)` adds 100 to the row and only clamps below 0, so
the cursor row ends at 100, outside `[0, ROWS)`. -/
theorem cursor_leaves_grid :
    (feedAll freshTerminal [27, 91, 52, 50, 57, 52, 57, 54, 55, 49, 57, 54, 65]).buf.curRow = 100 ∧
    ¬ (feedAll freshTerminal [27, 91, 52, 50, 57, 52, 57, 54, 55, 49, 57, 54, 65]).buf.curRow
        < TERM_ROWS := by
  rw [freshTerminal_eq]
  decide!

/-- C2: deferred wrap.  With the cursor at `(r, COLS-1)`, `r < ROWS-1`, `r` not the bottom of
the scroll region and no wrap pending, `putChar a` writes `a` at `(r, COLS-1)` and leaves the
cursor there with `wrapPending` set; a following `putChar c` leaves row `r` as it is, writes
`c` with the current attributes at `(r+1, 0)`, changes no other cell and ends with the cursor
at `(r+1, 1)` and no wrap pending.  And: `COLS` bytes `'A'` then `'B'` fed to a fresh terminal
give row 0 all `'A'`, `'B'` at `(1,0)` and the cursor at `(1,1)`. -/
theorem deferred_wrap (b : TermBuffer) (r : Int) (a c : Nat)
    (hr0 : 0 ≤ r) (hr1 : r < TERM_ROWS - 1) (hsb : r ≠ b.scrollBottom)
    (ha : a < 65536) (hc : c < 65536)
    (hrow : b.curRow = r) (hcol : b.curCol = TERM_COLS - 1) (hw : b.wrapPending = false) :
    ((b.putChar a).cellAt r (TERM_COLS - 1) = { codepoint := a, attrs := b.attrs, bgBright := b.bgBright } ∧
    (b.putChar a).curRow = r ∧ (b.putChar a).curCol = TERM_COLS - 1 ∧
    (b.putChar a).wrapPending = true ∧
    (∀ col : Int, 0 ≤ col → col < TERM_COLS →
      ((b.putChar a).putChar c).cellAt r col = (b.putChar a).cellAt r col) ∧
    ((b.putChar a).putChar c).cellAt (r + 1) 0
      = { codepoint := c, attrs := b.attrs, bgBright := b.bgBright } ∧
    (∀ i : Int, i ≠ cellIdx (r + 1) 0 →
      ((b.putChar a).putChar c).cells i = (b.putChar a).cells i) ∧
    ((b.putChar a).putChar c).curRow = r + 1 ∧ ((b.putChar a).putChar c).curCol = 1 ∧
    ((b.putChar a).putChar c).wrapPending = false) ∧
    ((∀ col : Int, 0 ≤ col → col < TERM_COLS →
      (feedAll freshTerminal (List.replicate 78 65 ++ [66])).buf.cellAt 0 col
        = { codepoint := 65, attrs := 0, bgBright := 255 }) ∧
    (feedAll freshTerminal (List.replicate 78 65 ++ [66])).buf.cellAt 1 0
      = { codepoint := 66, attrs := 0, bgBright := 255 } ∧
    (feedAll freshTerminal (List.replicate 78 65 ++ [66])).buf.curRow = 1 ∧
    (feedAll freshTerminal (List.replicate 78 65 ++ [66])).buf.curCol = 1) :=
  ⟨putChar_twice_at_margin b r a c hr0 hr1 hsb ha hc hrow hcol hw, wrap_scenario⟩

/-- C2, at a concrete input: a blank buffer with the cursor at `(0, 77)`, then `'A'`, `'B'`. -/
theorem deferred_wrap_witness :
    ((({ curCol := 77 } : TermBuffer).putChar 65).cellAt 0 (TERM_COLS - 1)
        = { codepoint := 65, attrs := 0, bgBright := 255 }) ∧
    (({ curCol := 77 } : TermBuffer).putChar 65).wrapPending = true ∧
    ((({ curCol := 77 } : TermBuffer).putChar 65).putChar 66).cellAt (0 + 1) 0
        = { codepoint := 66, attrs := 0, bgBright := 255 } ∧
    ((({ curCol := 77 } : TermBuffer).putChar 65).putChar 66).curRow = 0 + 1 ∧
    ((({ curCol := 77 } : TermBuffer).putChar 65).putChar 66).curCol = 1 := by
  have h := (deferred_wrap { curCol := 77 } 0 65 66 (by decide) (by decide) (by decide)
    (by decide) (by decide) rfl (by decide) rfl).1
  exact ⟨h.1, h.2.2.2.1, h.2.2.2.2.2.1, h.2.2.2.2.2.2.2.1, h.2.2.2.2.2.2.2.2.1⟩

/-- C3: `ESC [ 1 ; 78 H`, `'A'`, `ESC [ r` fed to a fresh terminal leave `wrapPending` set
with the cursor in column 0 (`setScrollRegion` homes the cursor and keeps the flag); so do 78
bytes `'A'` followed by `ESC 8` (`restoreCursor` keeps the flag too). -/
theorem wrap_pending_survives_decstbm :
    (feedAll freshTerminal [27, 91, 49, 59, 55, 56, 72, 65, 27, 91, 114]).buf.wrapPending = true ∧
    (feedAll freshTerminal [27, 91, 49, 59, 55, 56, 72, 65, 27, 91, 114]).buf.curCol = 0 ∧
    (feedAll freshTerminal (List.replicate 78 65 ++ [27, 56])).buf.wrapPending = true ∧
    (feedAll freshTerminal (List.replicate 78 65 ++ [27, 56])).buf.curCol = 0 := by
  rw [freshTerminal_eq]
  decide!

/-- C4: `'A'` is written at `(0, 77)`, the cursor goes to `(1, 0)`, the dirty set is
cleared (as after a render), then `ESC [ 79 P` runs `deleteChars(79)`: its clearing loop
starts at column `78 - 79 = -1` of row 1, which is cell `(0, 77)`.  That cell changes from
`'A'` to blank while the dirty set is `{1}`: bit 0 is not set. -/
theorem deleteChars_clears_row_above :
    ({ feedAll freshTerminal [27, 91, 49, 59, 55, 56, 72, 65, 27, 91, 50, 59, 49, 72] with
        buf := (feedAll freshTerminal
          [27, 91, 49, 59, 55, 56, 72, 65, 27, 91, 50, 59, 49, 72]).buf.clearDirty }
      : VtParser).buf.cellAt 0 77 = { codepoint := 65, attrs := 0, bgBright := 255 } ∧
    (feedAll { feedAll freshTerminal [27, 91, 49, 59, 55, 56, 72, 65, 27, 91, 50, 59, 49, 72] with
        buf := (feedAll freshTerminal
          [27, 91, 49, 59, 55, 56, 72, 65, 27, 91, 50, 59, 49, 72]).buf.clearDirty }
      [27, 91, 55, 57, 80]).buf.cellAt 0 77 = TermCell.blank ∧
    (feedAll { feedAll freshTerminal [27, 91, 49, 59, 55, 56, 72, 65, 27, 91, 50, 59, 49, 72] with
        buf := (feedAll freshTerminal
          [27, 91, 49, 59, 55, 56, 72, 65, 27, 91, 50, 59, 49, 72]).buf.clearDirty }
      [27, 91, 55, 57, 80]).buf.dirtyRows = 2 := by
  rw [freshTerminal_eq]
  decide!

/-- C6 as stated fails: on a fresh terminal, `ESC [ ? 1049 h`, then `'A'` and `ESC 7`
(complete sequences, none of them a CSI sequence), then `ESC [ ? 1049 l` end with the cursor at
`(0, 1)`, not at the pre-entry `(0, 0)`: `ESC 7` overwrote the one saved-cursor slot that
`1049 l` restores from. -/
theorem mode_1049_decsc_counterexample :
    freshTerminal.state = State.Ground ∧ freshTerminal.buf.altActive = false ∧
    (feedAll (feedAll freshTerminal enter1049) [65, 27, 55]).state = State.Ground ∧
    (∀ x ∈ [65, 27, 55], x ≠ 91) ∧
    ¬ ((feedAll (feedAll (feedAll freshTerminal enter1049) [65, 27, 55]) leave1049).buf.curRow
          = freshTerminal.buf.curRow ∧
       (feedAll (feedAll (feedAll freshTerminal enter1049) [65, 27, 55]) leave1049).buf.curCol
          = freshTerminal.buf.curCol) := by
  rw [freshTerminal_eq]
  decide!

/-- C6, amended: mode 1049 round trip at the parser level.  From a parser in Ground on the
primary screen with the cursor inside the grid, feeding `ESC [ ? 1049 h`, then bytes `B`
that leave the parser in Ground, complete no sequence that switches screens (modes
47/1047/1049) or saves the cursor (`ESC 7`, `CSI s`), and are read in range (before each
byte the cursor and the scroll region lie in the grid, and the counts of `CSI @`, `CSI P` and
`CSI X` are in range, so that every store stays inside the cell array), then
`ESC [ ? 1049 l` restores the cursor position and every cell of the grid. -/
theorem mode_1049_round_trip (p : VtParser) (B : List Nat)
    (hs : p.state = State.Ground) (hprim : p.buf.altActive = false)
    (hrow : 0 ≤ p.buf.curRow ∧ p.buf.curRow < TERM_ROWS)
    (hcol : 0 ≤ p.buf.curCol ∧ p.buf.curCol < TERM_COLS)
    (havoid : avoidsSwitchAndSave (feedAll p enter1049) B = true)
    (_hrange : staysInRange (feedAll p enter1049) B = true)
    (hground : (feedAll (feedAll p enter1049) B).state = State.Ground) :
    (feedAll (feedAll (feedAll p enter1049) B) leave1049).buf.curRow = p.buf.curRow ∧
    (feedAll (feedAll (feedAll p enter1049) B) leave1049).buf.curCol = p.buf.curCol ∧
    (∀ r c : Int, 0 ≤ r → r < TERM_ROWS → 0 ≤ c → c < TERM_COLS →
      (feedAll (feedAll (feedAll p enter1049) B) leave1049).buf.cellAt r c
        = p.buf.cellAt r c) := by
  obtain ⟨-, hb1⟩ := feed_enter1049 p hs
  have hk := keep_feedAll B (feedAll p enter1049) havoid
  obtain ⟨-, hb3⟩ := feed_leave1049 _ hground
  rw [hb3]
  rw [hb1] at hk
  generalize (feedAll (feedAll p enter1049) B).buf = b2 at hk
  obtain ⟨-, -, -, e4, e5, e6, e7, e8, e9⟩ :=
    switchScreen_enter p.buf.saveCursor (by cases p; exact hprim)
  have k1 : b2.altCells = Grid.copyAll p.buf.altCells p.buf.cells :=
    (congrArg Slots.altCells hk).trans e4
  have k2 : b2.altSavedRow = p.buf.curRow := (congrArg Slots.altSavedRow hk).trans e5
  have k3 : b2.altSavedCol = p.buf.curCol := (congrArg Slots.altSavedCol hk).trans e6
  have k4 : b2.altActive = true := (congrArg Slots.altActive hk).trans e7
  have k5 : b2.savedRow = p.buf.curRow := (congrArg Slots.savedRow hk).trans e8
  have k6 : b2.savedCol = p.buf.curCol := (congrArg Slots.savedCol hk).trans e9
  obtain ⟨l1, l2, l3, l4, l5, -⟩ := switchScreen_leave b2 k4
  generalize b2.switchScreen false = b3 at l1 l2 l3 l4 l5
  have hr : restoreCursor b3 = { b3 with curRow := b3.savedRow, curCol := b3.savedCol } := by
    unfold restoreCursor
    exact clampCursor_of_inside _ (by simp only []; rw [l4, k5]; exact hrow)
      (by simp only []; rw [l5, k6]; exact hcol)
  rw [hr]
  refine ⟨l4.trans k5, l5.trans k6, ?_⟩
  intro r c hr0 hr1 hc0 hc1
  rw [TERM_ROWS_eq] at hr1; rw [TERM_COLS_eq] at hc1
  have hin := inGrid_cellIdx ⟨hr0, hr1⟩ ⟨hc0, hc1⟩
  unfold cellAt
  show b3.cells _ = _
  rw [l1, k1]
  unfold Grid.copyAll
  rw [if_pos hin, if_pos hin]

/-- C6, at a concrete input: `hello` on row 0 and the cursor at `(2, 3)`; enter, write
`world` (read in range), leave: the cursor is back at `(2, 3)` and row 0 starts with `h`. -/
theorem mode_1049_round_trip_witness :
    staysInRange
      (feedAll (feedAll freshTerminal [104, 101, 108, 108, 111, 27, 91, 51, 59, 52, 72])
        enter1049) [119, 111, 114, 108, 100] = true ∧
    (feedAll (feedAll (feedAll
        (feedAll freshTerminal [104, 101, 108, 108, 111, 27, 91, 51, 59, 52, 72]) enter1049)
        [119, 111, 114, 108, 100]) leave1049).buf.curRow = 2 ∧
    (feedAll (feedAll (feedAll
        (feedAll freshTerminal [104, 101, 108, 108, 111, 27, 91, 51, 59, 52, 72]) enter1049)
        [119, 111, 114, 108, 100]) leave1049).buf.curCol = 3 ∧
    (feedAll (feedAll (feedAll
        (feedAll freshTerminal [104, 101, 108, 108, 111, 27, 91, 51, 59, 52, 72]) enter1049)
        [119, 111, 114, 108, 100]) leave1049).buf.cellAt 0 0
      = { codepoint := 104, attrs := 0, bgBright := 255 } := by
  have hin : staysInRange
      (feedAll (feedAll freshTerminal [104, 101, 108, 108, 111, 27, 91, 51, 59, 52, 72])
        enter1049) [119, 111, 114, 108, 100] = true := by
    rw [freshTerminal_eq]; decide!
  have h := mode_1049_round_trip
    (feedAll freshTerminal [104, 101, 108, 108, 111, 27, 91, 51, 59, 52, 72])
    [119, 111, 114, 108, 100]
    (by rw [freshTerminal_eq]; decide!) (by rw [freshTerminal_eq]; decide!)
    (by rw [freshTerminal_eq]; decide!) (by rw [freshTerminal_eq]; decide!)
    (by rw [freshTerminal_eq]; decide!) hin (by rw [freshTerminal_eq]; decide!)
  exact ⟨hin, h.1.trans (by rw [freshTerminal_eq]; decide!),
    h.2.1.trans (by rw [freshTerminal_eq]; decide!),
    (h.2.2 0 0 (by decide) (by decide) (by decide) (by decide)).trans
      (by rw [freshTerminal_eq]; decide!)⟩

/-- C7: after `'A'`, `ESC 7`, `ESC c` the saved cursor column is 1, where a freshly
constructed buffer has 0; after `ESC [ ? 47 h`, `ESC c` the alternate screen is still active,
where a freshly constructed buffer shows the primary one.  `ESC c` does not give back the
constructed state. -/
theorem full_reset_keeps_saved_cursor :
    (feedAll freshTerminal [65, 27, 55, 27, 99]).buf.savedCol = 1 ∧
    freshTerminal.buf.savedCol = 0 ∧
    (feedAll freshTerminal [27, 91, 63, 52, 55, 104, 27, 99]).buf.altActive = true ∧
    freshTerminal.buf.altActive = false := by
  rw [freshTerminal_eq]
  decide!

/-- C8 as stated fails: with the scroll region `[0, 10]`, `'X'` at `(0, 0)` and the cursor at
`(ROWS-1, COLS-1)`, two `putChar` calls do not move row 1 into row 0: the cursor row is not
`scroll_bottom`, so the deferred wrap scrolls nothing. -/
theorem bottom_right_counterexample :
    0 ≤ ((((TermBuffer.new.putChar 88).setScrollRegion 0 10).setCursor 23 77)).scrollTop ∧
    ((((TermBuffer.new.putChar 88).setScrollRegion 0 10).setCursor 23 77)).scrollTop
      < ((((TermBuffer.new.putChar 88).setScrollRegion 0 10).setCursor 23 77)).scrollBottom ∧
    ((((TermBuffer.new.putChar 88).setScrollRegion 0 10).setCursor 23 77)).scrollBottom
      < TERM_ROWS ∧
    ((((TermBuffer.new.putChar 88).setScrollRegion 0 10).setCursor 23 77)).curRow
      = TERM_ROWS - 1 ∧
    ((((TermBuffer.new.putChar 88).setScrollRegion 0 10).setCursor 23 77)).curCol
      = TERM_COLS - 1 ∧
    ((((TermBuffer.new.putChar 88).setScrollRegion 0 10).setCursor 23 77)).wrapPending = false ∧
    ¬ (∀ r c : Int,
        ((((TermBuffer.new.putChar 88).setScrollRegion 0 10).setCursor 23 77)).scrollTop ≤ r →
        r < ((((TermBuffer.new.putChar 88).setScrollRegion 0 10).setCursor 23 77)).scrollBottom →
        0 ≤ c → c < TERM_COLS →
        ((((((TermBuffer.new.putChar 88).setScrollRegion 0 10).setCursor 23 77)).putChar 65).putChar
            66).cellAt r c
          = (((((TermBuffer.new.putChar 88).setScrollRegion 0 10).setCursor 23 77)).putChar
              65).cellAt (r + 1) c) := by
  rw [TermBuffer.new_eq]
  refine ⟨by decide!, by decide!, by decide!, by decide!, by decide!, by decide!, ?_⟩
  intro h
  exact absurd (h 0 0 (by decide!) (by decide!) (by decide!) (by decide!)) (by decide!)

/-- C8, amended: bottom-right boundary.  With a valid scroll region, the cursor at
`(ROWS-1, COLS-1)` and no wrap pending, `putChar` sets `wrapPending` and keeps the cursor.  If
`scroll_bottom = ROWS-1`, the next `putChar` scrolls the region up by one (each row of
`[scroll_top, ROWS-2]` receives the old row below it, the last row is cleared and rows above
the region are kept) before it writes at `(ROWS-1, 0)`; if `scroll_bottom < ROWS-1` nothing
scrolls and the only cell that changes is `(ROWS-1, 0)`.  Either way the character is written
at `(ROWS-1, 0)` with the current attributes and the cursor ends at `(ROWS-1, 1)` with no wrap
pending. -/
theorem bottom_right_wrap (b : TermBuffer) (a c : Nat)
    (hreg : 0 ≤ b.scrollTop ∧ b.scrollTop < b.scrollBottom ∧ b.scrollBottom < TERM_ROWS)
    (hc : c < 65536)
    (hrow : b.curRow = TERM_ROWS - 1) (hcol : b.curCol = TERM_COLS - 1)
    (hw : b.wrapPending = false) :
    (b.putChar a).wrapPending = true ∧
    (b.putChar a).curRow = TERM_ROWS - 1 ∧ (b.putChar a).curCol = TERM_COLS - 1 ∧
    (b.scrollBottom = TERM_ROWS - 1 →
      (∀ r col : Int, b.scrollTop ≤ r → r < TERM_ROWS - 1 → 0 ≤ col → col < TERM_COLS →
        ((b.putChar a).putChar c).cellAt r col = (b.putChar a).cellAt (r + 1) col) ∧
      (∀ col : Int, 1 ≤ col → col < TERM_COLS →
        ((b.putChar a).putChar c).cellAt (TERM_ROWS - 1) col = TermCell.blank) ∧
      (∀ r col : Int, 0 ≤ r → r < b.scrollTop → 0 ≤ col → col < TERM_COLS →
        ((b.putChar a).putChar c).cellAt r col = (b.putChar a).cellAt r col)) ∧
    (b.scrollBottom ≠ TERM_ROWS - 1 →
      ∀ i : Int, i ≠ cellIdx (TERM_ROWS - 1) 0 →
        ((b.putChar a).putChar c).cells i = (b.putChar a).cells i) ∧
    ((b.putChar a).putChar c).cellAt (TERM_ROWS - 1) 0
      = { codepoint := c, attrs := b.attrs, bgBright := b.bgBright } ∧
    ((b.putChar a).putChar c).curRow = TERM_ROWS - 1 ∧
    ((b.putChar a).putChar c).curCol = 1 ∧
    ((b.putChar a).putChar c).wrapPending = false := by
  have hw0 := wrapIfPending_of_not hw
  have h1 := putChar_cursor b a (by rw [hw0, hcol, TERM_COLS_eq]; omega)
  rw [hw0, hcol, hrow] at h1
  obtain ⟨h1r, h1c, h1w⟩ := h1
  have h1c' : (b.putChar a).curCol = TERM_COLS - 1 := by rw [h1c, TERM_COLS_eq]; omega
  have h1w' : (b.putChar a).wrapPending = true := by rw [h1w, TERM_COLS_eq]; simp
  have hattr := putChar_attrs b a hw
  have hslots : (b.putChar a).slots = b.slots := slots_putChar b a
  generalize b.putChar a = b1 at *
  have hsb1 : b1.scrollBottom = b.scrollBottom := congrArg Slots.scrollBottom hslots
  have hst1 : b1.scrollTop = b.scrollTop := congrArg Slots.scrollTop hslots
  have hwp := wrapIfPending_of_pending h1w'
  have hcells2 := putChar_cells b1 c
  obtain ⟨hreg0, hreg1, hreg2⟩ := hreg
  rw [TERM_ROWS_eq] at hreg2
  by_cases hbot : b.scrollBottom = TERM_ROWS - 1
  · -- the cursor row is the bottom of the scroll region: the region scrolls
    rw [lineFeed_scroll (by simp only []; rw [h1r, hsb1, hbot])] at hwp
    have hctl := ctl_scrollRegionUp { b1 with wrapPending := false, curCol := 0 }
      b1.scrollTop b1.scrollBottom 1
    simp only [] at hwp hctl
    rw [← hwp] at hctl
    have e1 : (wrapIfPending b1).curRow = b1.curRow := congrArg Ctl.curRow hctl
    have e2 : (wrapIfPending b1).curCol = 0 := congrArg Ctl.curCol hctl
    have e3 : (wrapIfPending b1).attrs = b1.attrs := congrArg Ctl.attrs hctl
    have e4 : (wrapIfPending b1).bgBright = b1.bgBright := congrArg Ctl.bgBright hctl
    have e5 : (wrapIfPending b1).wrapPending = false := congrArg Ctl.wrapPending hctl
    have h2 := putChar_cursor b1 c (by rw [e2, TERM_COLS_eq]; omega)
    rw [e1, e2, e5, h1r] at h2
    obtain ⟨h2r, h2c, h2w⟩ := h2
    rw [e1, e2, e3, e4, h1r, hattr.1, hattr.2] at hcells2
    have hsc : ∀ j : Int, (wrapIfPending b1).cells j =
        if cellIdx b.scrollTop 0 ≤ j ∧ j < cellIdx (TERM_ROWS - 1) 0 ∧ inGrid j then
          b1.cells (j + 78)
        else if cellIdx (TERM_ROWS - 1) 0 ≤ j ∧ j < cellIdx TERM_ROWS 0 ∧ inGrid j then
          TermCell.blank
        else b1.cells j := by
      intro j
      rw [hwp, cells_scrollRegionUp _ _ _ 1 j (le_refl 1) (by rw [hst1, hsb1]; omega)]
      rw [hst1, hsb1, hbot, TERM_ROWS_eq]
      simp only [cellIdx_eq, inGrid_iff]
      have hm : min (1 : Int) (24 - 1 - b.scrollTop + 1) = 1 := by omega
      rw [hm]
      norm_num
    rw [TERM_ROWS_eq] at hbot
    refine ⟨h1w', h1r, h1c', ?_, ?_, ?_, h2r, ?_, ?_⟩
    · intro _
      refine ⟨?_, ?_, ?_⟩
      · intro r col hr0 hr1 hc0 hc1
        unfold cellAt
        rw [hcells2, cellAt_set, if_neg, hsc, if_pos]
        · rw [cellIdx_eq, cellIdx_eq]; congr 1; ring
        · rw [TERM_ROWS_eq, TERM_COLS_eq] at *
          simp only [cellIdx_eq, inGrid_iff]; omega
        · rw [TERM_ROWS_eq, TERM_COLS_eq] at *
          simp only [cellIdx_eq]; omega
      · intro col hc0 hc1
        unfold cellAt
        rw [hcells2, cellAt_set, if_neg, hsc, if_neg, if_pos]
        · rw [TERM_ROWS_eq, TERM_COLS_eq] at *
          simp only [cellIdx_eq, inGrid_iff]; omega
        · rw [TERM_ROWS_eq, TERM_COLS_eq] at *
          simp only [cellIdx_eq, inGrid_iff]; omega
        · rw [TERM_ROWS_eq, TERM_COLS_eq] at *
          simp only [cellIdx_eq]; omega
      · intro r col hr0 hr1 hc0 hc1
        unfold cellAt
        rw [hcells2, cellAt_set, if_neg, hsc, if_neg, if_neg]
        · rw [TERM_ROWS_eq, TERM_COLS_eq] at *
          simp only [cellIdx_eq, inGrid_iff]; omega
        · rw [TERM_ROWS_eq, TERM_COLS_eq] at *
          simp only [cellIdx_eq, inGrid_iff]; omega
        · rw [TERM_ROWS_eq, TERM_COLS_eq] at *
          simp only [cellIdx_eq]; omega
    · intro h; rw [TERM_ROWS_eq] at h; exact absurd hbot h
    · unfold cellAt
      rw [hcells2, cellAt_set, if_pos]
      · rw [Nat.mod_eq_of_lt hc]
      · refine ⟨rfl, ?_⟩
        rw [inGrid_iff, cellIdx_eq, TERM_ROWS_eq]; omega
    · rw [h2c, TERM_COLS_eq]; norm_num
    · rw [h2w, TERM_COLS_eq]; norm_num
  · -- the cursor row is below the scroll region: nothing scrolls
    rw [lineFeed_stay (by simp only []; rw [h1r, hsb1]; exact fun h => hbot h.symm)
      (by simp only []; rw [h1r]; omega)] at hwp
    have h2 := putChar_cursor b1 c (by rw [hwp, TERM_COLS_eq]; simp)
    rw [hwp] at h2 hcells2
    simp only [h1r, hattr.1, hattr.2] at h2 hcells2
    obtain ⟨h2r, h2c, h2w⟩ := h2
    refine ⟨h1w', h1r, h1c', ?_, ?_, ?_, h2r, ?_, ?_⟩
    · intro h; exact absurd h hbot
    · intro _ i hi
      rw [hcells2, cellAt_set, if_neg]
      intro h; exact hi h.1
    · unfold cellAt
      rw [hcells2, cellAt_set, if_pos]
      · rw [Nat.mod_eq_of_lt hc]
      · refine ⟨rfl, ?_⟩
        rw [inGrid_iff, cellIdx_eq, TERM_ROWS_eq]; omega
    · rw [h2c, TERM_COLS_eq]; norm_num
    · rw [h2w, TERM_COLS_eq]; norm_num

/-- C8, at a concrete input: a blank buffer with the full-screen scroll region and the cursor
at `(23, 77)`, then `'A'`, `'B'`. -/
theorem bottom_right_wrap_witness :
    (({ curRow := 23, curCol := 77 } : TermBuffer).putChar 65).wrapPending = true ∧
    ((({ curRow := 23, curCol := 77 } : TermBuffer).putChar 65).putChar 66).cellAt
        (TERM_ROWS - 1) 0 = { codepoint := 66, attrs := 0, bgBright := 255 } ∧
    ((({ curRow := 23, curCol := 77 } : TermBuffer).putChar 65).putChar 66).cellAt 22 77
      = (({ curRow := 23, curCol := 77 } : TermBuffer).putChar 65).cellAt (22 + 1) 77 := by
  have h := bottom_right_wrap { curRow := 23, curCol := 77 } 65 66
    (by decide) (by decide) (by decide) (by decide) rfl
  exact ⟨h.1, h.2.2.2.2.2.1,
    (h.2.2.2.1 (by decide)).1 22 77 (by decide) (by decide) (by decide) (by decide)⟩

/-- C9: the scroll region does not stay valid after every byte sequence.  On a fresh terminal
`ESC [ 4294967248 A` (the parameter wraps to `-48`, and `moveCursorUp` clamps at row 0 only)
and `ESC [ 6 C` leave the parser in Ground with no wrap pending and the cursor at `(48, 6)`,
so the next printable byte `A` is stored by `putChar` at `_cells[48][6]`.  That is flat index
`3750 = 2 * 1872 + 6`, outside the cell array: past `_cells` and `_altCells` and six four-byte
slots further.  Behind the two grids `TermBuffer.h` declares the `int` members `_curRow`,
`_curCol`, `_savedRow`, `_savedCol`, `_altSavedRow`, `_altSavedCol` and then `_scrollTop`: the
store hits `_scrollTop`, which held `0`, and the stored cell (codepoint `65`, attributes `0`,
background `255`) reads as the `int` `0xFF000041 = -16777151`. -/
theorem store_at_scroll_top_slot :
    (feedAll freshTerminal
        [27, 91, 52, 50, 57, 52, 57, 54, 55, 50, 52, 56, 65, 27, 91, 54, 67]).state
      = State.Ground ∧
    (feedAll freshTerminal
        [27, 91, 52, 50, 57, 52, 57, 54, 55, 50, 52, 56, 65, 27, 91, 54, 67]).buf.wrapPending
      = false ∧
    (feedAll freshTerminal
        [27, 91, 52, 50, 57, 52, 57, 54, 55, 50, 52, 56, 65, 27, 91, 54, 67]).buf.curRow = 48 ∧
    (feedAll freshTerminal
        [27, 91, 52, 50, 57, 52, 57, 54, 55, 50, 52, 56, 65, 27, 91, 54, 67]).buf.curCol = 6 ∧
    (feedAll freshTerminal
        [27, 91, 52, 50, 57, 52, 57, 54, 55, 50, 52, 56, 65, 27, 91, 54, 67]).buf.scrollTop = 0 ∧
    cellIdx 48 6 = 2 * (TERM_ROWS * TERM_COLS) + 6 ∧
    ¬ inGrid (cellIdx 48 6) ∧
    wrapInt ((65 + 65536 * (feedAll freshTerminal
        [27, 91, 52, 50, 57, 52, 57, 54, 55, 50, 52, 56, 65, 27, 91, 54, 67]).buf.attrs
      + 16777216 * (feedAll freshTerminal
        [27, 91, 52, 50, 57, 52, 57, 54, 55, 50, 52, 56, 65, 27, 91, 54, 67]).buf.bgBright
        : Nat) : Int) = -16777151 := by
  rw [freshTerminal_eq]
  decide!

/-- C10: `setScrollRegion(top, bottom)` for all integers, with `t = max(top, 0)` and
`b = min(bottom, ROWS-1)`: if `t ≥ b` the buffer is returned as it is; otherwise only the
scroll region, which becomes `[t, b]`, and the cursor, which becomes `(0,0)`, change: the
cells, the dirty set and every other field are kept. -/
theorem setScrollRegion_spec (b : TermBuffer) (top bottom : Int) :
    (min bottom (TERM_ROWS - 1) ≤ max top 0 → b.setScrollRegion top bottom = b) ∧
    (max top 0 < min bottom (TERM_ROWS - 1) →
      b.setScrollRegion top bottom =
        { b with scrollTop := max top 0, scrollBottom := min bottom (TERM_ROWS - 1),
                 curRow := 0, curCol := 0 } ∧
      (b.setScrollRegion top bottom).scrollTop = max top 0 ∧
      (b.setScrollRegion top bottom).scrollBottom = min bottom (TERM_ROWS - 1) ∧
      (b.setScrollRegion top bottom).curRow = 0 ∧
      (b.setScrollRegion top bottom).curCol = 0 ∧
      (b.setScrollRegion top bottom).cells = b.cells ∧
      (b.setScrollRegion top bottom).dirtyRows = b.dirtyRows) := by
  have ht : (if top < 0 then 0 else top) = max top 0 := by split_ifs <;> omega
  have hb : (if bottom ≥ TERM_ROWS then TERM_ROWS - 1 else bottom) = min bottom (TERM_ROWS - 1) := by
    split_ifs <;> omega
  unfold setScrollRegion
  simp only [ht, hb]
  constructor
  · intro h
    rw [if_pos h]
  · intro h
    rw [if_neg (by omega)]
    exact ⟨rfl, rfl, rfl, rfl, rfl, rfl, rfl⟩

/-- C10, at concrete inputs: the request `(5, 3)` is ignored; `(2, 10)` is accepted as it is;
`(-4, 99)` is clamped to the whole screen, which is accepted. -/
theorem setScrollRegion_spec_witness :
    ({ curRow := 7 } : TermBuffer).setScrollRegion 5 3 = { curRow := 7 } ∧
    (({ curRow := 7 } : TermBuffer).setScrollRegion 2 10).scrollTop = 2 ∧
    (({ curRow := 7 } : TermBuffer).setScrollRegion 2 10).scrollBottom = 10 ∧
    (({ curRow := 7 } : TermBuffer).setScrollRegion 2 10).curRow = 0 ∧
    (({ curRow := 7 } : TermBuffer).setScrollRegion (-4) 99).scrollTop = 0 ∧
    (({ curRow := 7 } : TermBuffer).setScrollRegion (-4) 99).scrollBottom = 23 :=
  ⟨(setScrollRegion_spec { curRow := 7 } 5 3).1 (by decide),
   ((setScrollRegion_spec { curRow := 7 } 2 10).2 (by decide)).2.1.trans (by decide),
   ((setScrollRegion_spec { curRow := 7 } 2 10).2 (by decide)).2.2.1.trans (by decide),
   ((setScrollRegion_spec { curRow := 7 } 2 10).2 (by decide)).2.2.2.1,
   ((setScrollRegion_spec { curRow := 7 } (-4) 99).2 (by decide)).2.1.trans (by decide),
   ((setScrollRegion_spec { curRow := 7 } (-4) 99).2 (by decide)).2.2.1.trans (by decide)⟩

/-- C12: UTF-8 decoding inverts UTF-8 encoding.  For a parser in Ground and every code point
`U` in `[0x80, 0x10FFFF]`, feeding the standard UTF-8 encoding of `U` (2, 3 or 4 bytes) leaves
the buffer untouched until the last byte (after every proper prefix the buffer is the one
before) and ends, in Ground with no continuation pending and nothing emitted, with the buffer
of one `put_char(U mod 2^16)`, which for `U ≤ 0xFFFF` is `put_char(U)`. -/
theorem utf8_decode_inverts_encode (p : VtParser) (U : Nat) (hs : p.state = State.Ground)
    (hU : 128 ≤ U ∧ U ≤ 1114111) :
    (VtParser.feedAll p (utf8Encode U)).buf = p.buf.putChar (U % 65536) ∧
    (U < 65536 → (VtParser.feedAll p (utf8Encode U)).buf = p.buf.putChar U) ∧
    (VtParser.feedAll p (utf8Encode U)).state = State.Ground ∧
    (VtParser.feedAll p (utf8Encode U)).utf8Remaining = 0 ∧
    (VtParser.feedAll p (utf8Encode U)).serialOut = p.serialOut ∧
    (∀ k : Nat, k < (utf8Encode U).length →
      (VtParser.feedAll p ((utf8Encode U).take k)).buf = p.buf) := by
  have hmod : U < 65536 → U % 65536 = U := fun h => Nat.mod_eq_of_lt h
  by_cases h2 : U < 2048
  · have e : utf8Encode U = [192 + U / 64, 128 + U % 64] := by
      unfold utf8Encode; rw [if_neg (by omega), if_pos h2]
    obtain ⟨a1, a2, a3, a4, a5⟩ := VtParser.decode2 p hs (U / 64) (U % 64) (by omega) (by omega)
    have ev : U / 64 * 64 + U % 64 = U := by omega
    rw [ev] at a2
    rw [e]
    refine ⟨a2, fun h => by rw [a2, hmod h], a1, a4, a3, ?_⟩
    intro k hk
    rcases k with _ | _ | k
    · rfl
    · exact a5
    · exact absurd hk (by simp)
  · by_cases h3 : U < 65536
    · have e : utf8Encode U = [224 + U / 4096, 128 + U / 64 % 64, 128 + U % 64] := by
        unfold utf8Encode; rw [if_neg (by omega), if_neg h2, if_pos h3]
      obtain ⟨a1, a2, a3, a4, a5, a6⟩ := VtParser.decode3 p hs (U / 4096) (U / 64 % 64) (U % 64)
        (by omega) (by omega) (by omega)
      have ev : (U / 4096 * 64 + U / 64 % 64) * 64 + U % 64 = U := by omega
      rw [ev] at a2
      rw [e]
      refine ⟨a2, fun h => by rw [a2, hmod h], a1, a4, a3, ?_⟩
      intro k hk
      rcases k with _ | _ | _ | k
      · rfl
      · exact a5
      · exact a6
      · exact absurd hk (by simp)
    · have e : utf8Encode U
          = [240 + U / 262144, 128 + U / 4096 % 64, 128 + U / 64 % 64, 128 + U % 64] := by
        unfold utf8Encode; rw [if_neg (by omega), if_neg h2, if_neg h3]
      obtain ⟨a1, a2, a3, a4, a5, a6, a7⟩ := VtParser.decode4 p hs (U / 262144)
        (U / 4096 % 64) (U / 64 % 64) (U % 64) (by omega) (by omega) (by omega) (by omega)
      have ev : ((U / 262144 * 64 + U / 4096 % 64) * 64 + U / 64 % 64) * 64 + U % 64 = U := by
        omega
      rw [ev] at a2
      rw [e]
      refine ⟨a2, fun h => absurd h h3, a1, a4, a3, ?_⟩
      intro k hk
      rcases k with _ | _ | _ | _ | k
      · rfl
      · exact a5
      · exact a6
      · exact a7
      · exact absurd hk (by simp)

/-- C12, at a concrete input: the bytes `0xC3 0xA9` are the encoding of U+00E9; fed to a
fresh terminal they write codepoint `0x00E9` into cell `(0, 0)` and advance the cursor from
column 0 to column 1. -/
theorem utf8_decode_inverts_encode_witness :
    utf8Encode 233 = [195, 169] ∧
    (VtParser.feedAll freshTerminal (utf8Encode 233)).buf.cellAt 0 0
      = { codepoint := 233, attrs := 0, bgBright := 255 } ∧
    (VtParser.feedAll freshTerminal (utf8Encode 233)).buf.curCol = 1 ∧
    freshTerminal.buf.curCol = 0 := by
  have h := (utf8_decode_inverts_encode freshTerminal 233 (by rw [freshTerminal_eq])
    (by decide)).2.1 (by decide)
  rw [h]
  refine ⟨by decide, ?_, ?_, ?_⟩ <;> (rw [freshTerminal_eq]; try decide!)

/-- C13: malformed UTF-8 recovery.  For a parser in Ground (with a pending count that is not
negative), every lead byte `L` in `[0xC0, 0xF7]`, every list `cs` of continuation bytes
shorter than the number `L` requires and every byte `b` that is not a continuation byte:
feeding `L`, `cs`, then `b` gives the same buffer, the same parser state and the same
pending count as feeding `b` alone, and the partial sequence `L cs` itself leaves the buffer
as it was (no `put_char`). -/
theorem malformed_utf8_recovery (p : VtParser) (L b : Nat) (cs : List Nat)
    (hs : p.state = State.Ground) (hu : 0 ≤ p.utf8Remaining)
    (hL : 192 ≤ L ∧ L ≤ 247) (hcs : ∀ c ∈ cs, c &&& 192 = 128)
    (hk : (cs.length : Int) < utf8Need L) (hb : b &&& 192 ≠ 128) :
    (VtParser.feedAll p ([L] ++ cs ++ [b])).buf = (VtParser.feed p b).buf ∧
    (VtParser.feedAll p ([L] ++ cs ++ [b])).state = (VtParser.feed p b).state ∧
    (VtParser.feedAll p ([L] ++ cs ++ [b])).utf8Remaining = (VtParser.feed p b).utf8Remaining ∧
    (VtParser.feedAll p ([L] ++ cs)).buf = p.buf := by
  obtain ⟨a1, a2, -, a4, -⟩ := VtParser.feed_lead_fields p L hs (by omega)
  obtain ⟨b1, b2, -, b4⟩ := VtParser.cont_loop cs (VtParser.feed p L) a1 (by rw [a4]; exact hk)
    hcs
  have e1 : VtParser.feedAll p ([L] ++ cs) = VtParser.feedAll (VtParser.feed p L) cs := rfl
  rw [VtParser.feedAll_append, e1]
  generalize VtParser.feedAll (VtParser.feed p L) cs = s at b1 b2 b4
  have e2 : VtParser.feedAll s [b] = VtParser.feed s b := rfl
  rw [e2, VtParser.feed_non_cont s b b1 (by rw [b4, a4]; omega) hb,
    VtParser.feed_non_cont p b hs hu hb]
  obtain ⟨c1, c2, c3⟩ := VtParser.handleGroundByte_congr { s with utf8Remaining := 0 }
    { p with utf8Remaining := 0 } b (b2.trans a2) (b1.trans hs.symm) rfl
  exact ⟨c1, c2, c3, b2.trans a2⟩

/-- C13, at concrete inputs: on a fresh terminal the truncated sequences `0xE2 0x82 'A'` and
`0xF0 0x9F 0x98 ESC` end as `'A'` alone and `ESC` alone do: one cell `'A'` written and the
cursor in column 1, resp. the parser in Escape with an untouched buffer. -/
theorem malformed_utf8_recovery_witness :
    (VtParser.feedAll freshTerminal ([226] ++ [130] ++ [65])).buf
      = (VtParser.feed freshTerminal 65).buf ∧
    (VtParser.feed freshTerminal 65).buf.curCol = 1 ∧
    (VtParser.feedAll freshTerminal ([240] ++ [159, 152] ++ [27])).state = State.Escape ∧
    (VtParser.feedAll freshTerminal ([240] ++ [159, 152] ++ [27])).utf8Remaining = 0 ∧
    (VtParser.feedAll freshTerminal ([240] ++ [159, 152])).buf = freshTerminal.buf := by
  have h1 := malformed_utf8_recovery freshTerminal 226 65 [130] (by rw [freshTerminal_eq])
    (by rw [freshTerminal_eq]) (by decide) (by decide) (by decide) (by decide)
  have h2 := malformed_utf8_recovery freshTerminal 240 27 [159, 152] (by rw [freshTerminal_eq])
    (by rw [freshTerminal_eq]) (by decide) (by decide) (by decide) (by decide)
  refine ⟨h1.1, ?_, h2.2.1.trans ?_, h2.2.2.1.trans ?_, h2.2.2.2⟩
  · rw [freshTerminal_eq]; decide!
  · rw [freshTerminal_eq]; decide!
  · rw [freshTerminal_eq]; decide!

/-- C14: once sixteen parameters are stored, a further `;` does not open a new field and the
digits after it are appended to the sixteenth parameter: in CsiParam with `param_count = 16`,
feeding `;` and a digit `d` leaves the count at 16 and turns the stored sixteenth parameter
`v` into `v * 10 + d` (in 32-bit arithmetic), so the 17th field does alter a stored
parameter. -/
theorem seventeenth_field_appends (s : VtParser) (d : Nat) (hs : s.state = State.CsiParam)
    (hc : s.paramCount = 16) (hd : isDigit d) :
    (VtParser.feed (VtParser.feed s 59) d).state = State.CsiParam ∧
    (VtParser.feed (VtParser.feed s 59) d).paramCount = 16 ∧
    (VtParser.feed (VtParser.feed s 59) d).params 15
      = wrapInt (wrapInt (s.params 15 * 10) + ((d - 48 : Nat) : Int)) := by
  have h1 : VtParser.feed s 59 = s := by
    unfold VtParser.feed
    simp only [hs]
    unfold VtParser.handleCsiParam
    rw [if_neg (by decide), if_pos rfl, if_neg (by rw [hc]; decide)]
  rw [h1]
  unfold isDigit at hd
  unfold VtParser.feed
  simp only [hs]
  unfold VtParser.handleCsiParam
  rw [if_pos hd]
  have hne : ¬ s.paramCount = 0 := by rw [hc]; decide
  simp only [hne, if_false]
  refine ⟨hs, hc, ?_⟩
  simp only [setParam, hc]
  norm_num

/-- C14, at a concrete input: `ESC [ 0;0;0;0;0;0;0;0;0;0;0;0;0;0;0;0;7 m` fed to a fresh
terminal.  Before the final byte the count is 16 and the sixteenth parameter is 7, not the
0 of the sixteenth field; `m` then sets INVERSE, where the sixteen fields alone leave the
attributes 0. -/
theorem seventeenth_field_appends_witness :
    (VtParser.feedAll freshTerminal (sixteenFields ++ [59, 55])).paramCount = 16 ∧
    (VtParser.feedAll freshTerminal (sixteenFields ++ [59, 55])).params 15 = 7 ∧
    (VtParser.feedAll freshTerminal (sixteenFields ++ [59, 55] ++ [109])).buf.attrs
      = TermCell.ATTR_INVERSE ∧
    (VtParser.feedAll freshTerminal (sixteenFields ++ [109])).buf.attrs = 0 := by
  have h := seventeenth_field_appends (VtParser.feedAll freshTerminal sixteenFields) 55
    (by rw [freshTerminal_eq]; decide!) (by rw [freshTerminal_eq]; decide!) (by decide)
  have e : VtParser.feedAll freshTerminal (sixteenFields ++ [59, 55])
      = VtParser.feed (VtParser.feed (VtParser.feedAll freshTerminal sixteenFields) 59) 55 := by
    rw [VtParser.feedAll_append]; rfl
  rw [e]
  refine ⟨h.2.1, h.2.2.trans ?_, ?_, ?_⟩
  · rw [freshTerminal_eq]; decide!
  · rw [freshTerminal_eq]; decide!
  · rw [freshTerminal_eq]; decide!

/-- C15: undispatched CSI sequences have no effect.  For a parser in Ground, an optional
prefix byte (`?`, `>`, `=` or `<`), a body of digits, `;` and intermediate bytes
`[0x20, 0x2F]` in any order, and a final byte in `[0x40, 0x7E]`: if the body holds an
intermediate byte or the prefix is `>`, `=` or `<`, then after `ESC [ prefix body final` the
parser is in Ground, the whole buffer is unchanged and nothing has been emitted to the
host. -/
theorem undispatched_csi (p : VtParser) (pre body : List Nat) (fin : Nat)
    (hs : p.state = State.Ground)
    (hpre : pre = [] ∨ pre = [63] ∨ pre = [62] ∨ pre = [61] ∨ pre = [60])
    (hbody : ∀ x ∈ body, isCsiBody x) (hfin : 64 ≤ fin ∧ fin ≤ 126)
    (hblock : (∃ x ∈ body, 32 ≤ x ∧ x ≤ 47) ∨ pre = [62] ∨ pre = [61] ∨ pre = [60]) :
    (VtParser.feedAll p ([27, 91] ++ pre ++ body ++ [fin])).state = State.Ground ∧
    (VtParser.feedAll p ([27, 91] ++ pre ++ body ++ [fin])).buf = p.buf ∧
    (VtParser.feedAll p ([27, 91] ++ pre ++ body ++ [fin])).serialOut = p.serialOut := by
  have h0 := VtParser.feed_csi_open p hs
  rw [List.append_assoc, List.append_assoc, VtParser.feedAll_append]
  generalize VtParser.feedAll p [27, 91] = s at h0
  obtain ⟨f1, f2, f3, -, -, f6, f7, -, -⟩ := h0
  have hprefix : ∀ c : Nat, c = 62 ∨ c = 61 ∨ c = 60 →
      (VtParser.feedAll s ([c] ++ (body ++ [fin]))).state = State.Ground ∧
      (VtParser.feedAll s ([c] ++ (body ++ [fin]))).buf = p.buf ∧
      (VtParser.feedAll s ([c] ++ (body ++ [fin]))).serialOut = p.serialOut := by
    intro c hc
    have e : VtParser.feed s c = { s with csiPrefix := c, state := State.CsiParam } := by
      unfold VtParser.feed
      simp only [f1]
      unfold VtParser.handleCsiEntry
      rw [if_neg (by omega), if_pos hc]
    rw [VtParser.feedAll_append]
    show (VtParser.feedAll (VtParser.feed s c) (body ++ [fin])).state = State.Ground ∧
      (VtParser.feedAll (VtParser.feed s c) (body ++ [fin])).buf = p.buf ∧
      (VtParser.feedAll (VtParser.feed s c) (body ++ [fin])).serialOut = p.serialOut
    rw [e]
    have h := VtParser.blocked_rest { s with csiPrefix := c, state := State.CsiParam } rfl
      body fin hbody hfin (Or.inl (Or.inr (by show c ≠ 0; omega)))
    exact ⟨h.1, h.2.1.trans f2, h.2.2.trans f3⟩
  rcases hpre with rfl | rfl | rfl | rfl | rfl
  · have hb : ∃ x ∈ body, 32 ≤ x ∧ x ≤ 47 := by
      rcases hblock with h | h | h | h
      · exact h
      · exact absurd h (by decide)
      · exact absurd h (by decide)
      · exact absurd h (by decide)
    rw [List.nil_append, VtParser.entry_rest s f1 body fin hbody hfin]
    have h := VtParser.blocked_rest { s with state := State.CsiParam } rfl body fin hbody hfin
      (Or.inr hb)
    exact ⟨h.1, h.2.1.trans f2, h.2.2.trans f3⟩
  · have hb : ∃ x ∈ body, 32 ≤ x ∧ x ≤ 47 := by
      rcases hblock with h | h | h | h
      · exact h
      · exact absurd h (by decide)
      · exact absurd h (by decide)
      · exact absurd h (by decide)
    have e : VtParser.feed s 63 = { s with questionMark := true, state := State.CsiParam } := by
      unfold VtParser.feed
      simp only [f1]
      unfold VtParser.handleCsiEntry
      rw [if_pos rfl]
    rw [VtParser.feedAll_append]
    show (VtParser.feedAll (VtParser.feed s 63) (body ++ [fin])).state = State.Ground ∧
      (VtParser.feedAll (VtParser.feed s 63) (body ++ [fin])).buf = p.buf ∧
      (VtParser.feedAll (VtParser.feed s 63) (body ++ [fin])).serialOut = p.serialOut
    rw [e]
    have h := VtParser.blocked_rest { s with questionMark := true, state := State.CsiParam } rfl
      body fin hbody hfin (Or.inr hb)
    exact ⟨h.1, h.2.1.trans f2, h.2.2.trans f3⟩
  · exact hprefix 62 (Or.inl rfl)
  · exact hprefix 61 (Or.inr (Or.inl rfl))
  · exact hprefix 60 (Or.inr (Or.inr rfl))

/-- C15, at concrete inputs: `ESC [ > 0 c` (secondary device attributes) and
`ESC [ 2 SP q` (cursor style) fed to a fresh terminal emit nothing and leave the buffer as
it was, where the plain `ESC [ 0 c` answers the host. -/
theorem undispatched_csi_witness :
    (VtParser.feedAll freshTerminal ([27, 91] ++ [62] ++ [48] ++ [99])).serialOut = [] ∧
    (VtParser.feedAll freshTerminal ([27, 91] ++ [62] ++ [48] ++ [99])).buf
      = freshTerminal.buf ∧
    (VtParser.feedAll freshTerminal ([27, 91] ++ [] ++ [50, 32] ++ [113])).state
      = State.Ground ∧
    (VtParser.feedAll freshTerminal ([27, 91] ++ [] ++ [50, 32] ++ [113])).buf
      = freshTerminal.buf ∧
    (VtParser.feedAll freshTerminal [27, 91, 48, 99]).serialOut ≠ [] := by
  have h1 := undispatched_csi freshTerminal [62] [48] 99 (by rw [freshTerminal_eq])
    (by decide) (by decide) (by decide) (by decide)
  have h2 := undispatched_csi freshTerminal [] [50, 32] 113 (by rw [freshTerminal_eq])
    (by decide) (by decide) (by decide) (Or.inl ⟨32, by decide, by decide⟩)
  refine ⟨h1.2.2.trans (by rw [freshTerminal_eq]), h1.2.1, h2.1, h2.2.1, ?_⟩
  rw [freshTerminal_eq]
  decide!

/-- C16: an OSC string ends at the ESC of its string terminator, and the `\` that completes
ST is then handled in Ground as a printable byte: for every parser in Ground and every
payload without BEL and ESC, feeding `ESC ] payload ESC \` ends in Ground with the buffer
that `put_char('\')` produces, not with the buffer unchanged. -/
theorem osc_st_prints_backslash (p : VtParser) (payload : List Nat)
    (hs : p.state = State.Ground) (hp : ∀ x ∈ payload, x ≠ 7 ∧ x ≠ 27) :
    (VtParser.feedAll p ([27, 93] ++ payload ++ [27, 92])).state = State.Ground ∧
    (VtParser.feedAll p ([27, 93] ++ payload ++ [27, 92])).buf = p.buf.putChar 92 := by
  rw [VtParser.feedAll_append, VtParser.feedAll_append]
  have h1 : (VtParser.feedAll p [27, 93]).state = State.OscString ∧
      (VtParser.feedAll p [27, 93]).buf = p.buf ∧
      ¬ (VtParser.feedAll p [27, 93]).utf8Remaining > 0 := by
    show (VtParser.feed (VtParser.feed p 27) 93).state = State.OscString ∧
      (VtParser.feed (VtParser.feed p 27) 93).buf = p.buf ∧
      ¬ (VtParser.feed (VtParser.feed p 27) 93).utf8Remaining > 0
    rw [VtParser.feed_esc_full p hs]
    unfold VtParser.feed
    simp only []
    unfold VtParser.handleEscape
    rw [if_neg (by decide), if_pos rfl]
    refine ⟨rfl, rfl, ?_⟩
    simp only []
    split_ifs with h <;> omega
  generalize VtParser.feedAll p [27, 93] = s at h1
  obtain ⟨g1, g2, g3⟩ := h1
  rw [VtParser.feed_osc_payload payload s g1 hp]
  show (VtParser.feed (VtParser.feed s 27) 92).state = State.Ground ∧
    (VtParser.feed (VtParser.feed s 27) 92).buf = p.buf.putChar 92
  have h2 : VtParser.feed s 27 = { s with state := State.Ground } := by
    unfold VtParser.feed
    simp only [g1, or_true, if_true]
  rw [h2]
  unfold VtParser.feed
  simp only []
  unfold VtParser.handleGround
  simp only [g3, if_false]
  unfold VtParser.handleGroundByte
  simp only [Nat.reduceEqDiff, if_false, or_self, ge_iff_le, Nat.reduceLeDiff, Nat.reduceLT,
    and_self, if_true, g2]

/-- C16, at a concrete input: `ESC ] 0 ; h i ESC \` fed to a fresh terminal writes `\` into
cell `(0, 0)` and moves the cursor to column 1. -/
theorem osc_st_prints_backslash_witness :
    (VtParser.feedAll freshTerminal ([27, 93] ++ [48, 59, 104, 105] ++ [27, 92])).state
      = State.Ground ∧
    (VtParser.feedAll freshTerminal ([27, 93] ++ [48, 59, 104, 105] ++ [27, 92])).buf.cellAt 0 0
      = { codepoint := 92, attrs := 0, bgBright := 255 } ∧
    (VtParser.feedAll freshTerminal ([27, 93] ++ [48, 59, 104, 105] ++ [27, 92])).buf.curCol
      = 1 ∧
    freshTerminal.buf.cellAt 0 0 = TermCell.blank ∧ freshTerminal.buf.curCol = 0 := by
  have h := osc_st_prints_backslash freshTerminal [48, 59, 104, 105]
    (by rw [freshTerminal_eq]) (by decide)
  rw [h.2]
  refine ⟨h.1, ?_, ?_, ?_, ?_⟩ <;> (rw [freshTerminal_eq]; try decide!)

/-- C18: erase display.  With the cursor at a grid position `(r0, c0)`, `erase_display(0)`
makes default exactly the grid cells at or after `(r0, c0)` in row-major order,
`erase_display(1)` exactly those at or before it, `erase_display(2)` all of them; every other
grid cell keeps its content, and for every mode the cursor, the current attributes and
background, and the scroll region are unchanged. -/
theorem eraseDisplay_spec (b : TermBuffer) (hr : 0 ≤ b.curRow ∧ b.curRow < TERM_ROWS)
    (hc : 0 ≤ b.curCol ∧ b.curCol < TERM_COLS) :
    (∀ r c : Int, 0 ≤ r → r < TERM_ROWS → 0 ≤ c → c < TERM_COLS →
      (b.eraseDisplay 0).cellAt r c =
        (if b.curRow < r ∨ (r = b.curRow ∧ b.curCol ≤ c) then TermCell.blank
          else b.cellAt r c) ∧
      (b.eraseDisplay 1).cellAt r c =
        (if r < b.curRow ∨ (r = b.curRow ∧ c ≤ b.curCol) then TermCell.blank
          else b.cellAt r c) ∧
      (b.eraseDisplay 2).cellAt r c = TermCell.blank) ∧
    (∀ mode : Int, (b.eraseDisplay mode).curRow = b.curRow ∧
      (b.eraseDisplay mode).curCol = b.curCol ∧ (b.eraseDisplay mode).attrs = b.attrs ∧
      (b.eraseDisplay mode).bgBright = b.bgBright ∧
      (b.eraseDisplay mode).scrollTop = b.scrollTop ∧
      (b.eraseDisplay mode).scrollBottom = b.scrollBottom) := by
  constructor
  · intro r c hr0 hr1 hc0 hc1
    obtain ⟨h0, h1, h2⟩ := TermBuffer.cells_eraseDisplay b (cellIdx r c) hr hc
    rw [TERM_ROWS_eq] at hr hr1
    rw [TERM_COLS_eq] at hc hc1
    unfold TermBuffer.cellAt
    rw [h0, h1, h2]
    simp only [cellIdx_eq, inGrid_iff]
    refine ⟨?_, ?_, ?_⟩
    · split_ifs <;> first | rfl | (exfalso; omega)
    · split_ifs <;> first | rfl | (exfalso; omega)
    · rw [if_pos (by omega)]
  · intro mode
    have h := TermBuffer.ctl_eraseDisplay b mode
    exact ⟨congrArg Ctl.curRow h, congrArg Ctl.curCol h, congrArg Ctl.attrs h,
      congrArg Ctl.bgBright h, congrArg Ctl.scrollTop h, congrArg Ctl.scrollBottom h⟩

/-- C18, at a concrete input: a screen with `'A'` in cell `(0, 0)` and no row dirty;
`ESC [ 5 ; 10 H ESC [ 2 J` is `setCursor(4, 9)` followed by `eraseDisplay(2)`, after which
the cursor is at `(4, 9)`, the cells `(0, 0)` and `(23, 77)` are default and all 24 rows are
dirty. -/
theorem eraseDisplay_spec_witness :
    (VtParser.feedAll { buf := (({ } : TermBuffer).putChar 65).clearDirty }
        [27, 91, 53, 59, 49, 48, 72, 27, 91, 50, 74]).buf
      = (((({ } : TermBuffer).putChar 65).clearDirty).setCursor 4 9).eraseDisplay 2 ∧
    ((({ } : TermBuffer).putChar 65).clearDirty).cellAt 0 0
      = { codepoint := 65, attrs := 0, bgBright := 255 } ∧
    ((((({ } : TermBuffer).putChar 65).clearDirty).setCursor 4 9).eraseDisplay 2).cellAt 0 0
      = TermCell.blank ∧
    ((((({ } : TermBuffer).putChar 65).clearDirty).setCursor 4 9).eraseDisplay 2).cellAt 23 77
      = TermCell.blank ∧
    ((((({ } : TermBuffer).putChar 65).clearDirty).setCursor 4 9).eraseDisplay 2).curRow = 4 ∧
    ((((({ } : TermBuffer).putChar 65).clearDirty).setCursor 4 9).eraseDisplay 2).curCol = 9 ∧
    ((((({ } : TermBuffer).putChar 65).clearDirty).setCursor 4 9).eraseDisplay 2).dirtyRows
      = 16777215 := by
  have h := eraseDisplay_spec (((({ } : TermBuffer).putChar 65).clearDirty).setCursor 4 9)
    (by decide!) (by decide!)
  refine ⟨VtParser.feed_cup_ed _ rfl, by decide!,
    (h.1 0 0 (by decide) (by decide) (by decide) (by decide)).2.2,
    (h.1 23 77 (by decide) (by decide) (by decide) (by decide)).2.2,
    (h.2 2).1.trans (by decide!), (h.2 2).2.1.trans (by decide!), by decide!⟩

/-- C19: delete lines.  For `n ≥ 1`: if the cursor row is outside
`[scroll_top, scroll_bottom]`, `delete_lines(n)` and `insert_lines(n)` return the buffer
unchanged; if it is inside (and the region lies in the grid), then with
`m = min(n, scroll_bottom - row + 1)` every grid cell of a row `r` in
`[row, scroll_bottom - m]` holds what row `r + m` held, the rows
`[scroll_bottom - m + 1, scroll_bottom]` are default cells, every cell above the cursor row
or below `scroll_bottom` is unchanged, and the cursor stays where it was. -/
theorem deleteLines_spec (b : TermBuffer) (n : Int) (hn : 1 ≤ n) :
    ((b.curRow < b.scrollTop ∨ b.curRow > b.scrollBottom) →
      b.deleteLines n = b ∧ b.insertLines n = b) ∧
    (b.scrollTop ≤ b.curRow → b.curRow ≤ b.scrollBottom → 0 ≤ b.scrollTop →
      b.scrollBottom < TERM_ROWS →
      ∀ r c : Int, 0 ≤ r → r < TERM_ROWS → 0 ≤ c → c < TERM_COLS →
        (b.deleteLines n).cellAt r c =
          if b.curRow ≤ r ∧ r ≤ b.scrollBottom - min n (b.scrollBottom - b.curRow + 1) then
            b.cellAt (r + min n (b.scrollBottom - b.curRow + 1)) c
          else if b.scrollBottom - min n (b.scrollBottom - b.curRow + 1) + 1 ≤ r
              ∧ r ≤ b.scrollBottom then TermCell.blank
          else b.cellAt r c) ∧
    (b.deleteLines n).curRow = b.curRow ∧ (b.deleteLines n).curCol = b.curCol := by
  refine ⟨?_, ?_, congrArg Ctl.curRow (TermBuffer.ctl_deleteLines b n),
    congrArg Ctl.curCol (TermBuffer.ctl_deleteLines b n)⟩
  · intro h
    unfold TermBuffer.deleteLines TermBuffer.insertLines
    rw [if_pos h, if_pos h]
    exact ⟨rfl, rfl⟩
  · intro h1 h2 h3 h4 r c hr0 hr1 hc0 hc1
    rw [TERM_ROWS_eq] at h4 hr1
    rw [TERM_COLS_eq] at hc1
    unfold TermBuffer.deleteLines
    rw [if_neg (by omega)]
    unfold TermBuffer.cellAt
    rw [TermBuffer.cells_scrollRegionUp b b.curRow b.scrollBottom n _ hn h2]
    have hm1 : 1 ≤ min n (b.scrollBottom - b.curRow + 1) := by omega
    have hm2 : min n (b.scrollBottom - b.curRow + 1) ≤ b.scrollBottom - b.curRow + 1 := by omega
    generalize min n (b.scrollBottom - b.curRow + 1) = m at hm1 hm2 ⊢
    simp only [cellIdx_eq, inGrid_iff]
    split_ifs <;> first | rfl | (exfalso; omega) | (congr 1; omega)

/-- C19, at concrete inputs: with `'A'` in cell `(2, 0)`, the cursor in row 1 and the region
the whole screen, `delete_lines(1)` moves the `'A'` up to `(1, 0)` and leaves row 23 default;
with the region `[5, 10]` and the cursor in row 0, `delete_lines(3)` and `insert_lines(3)`
change nothing. -/
theorem deleteLines_spec_witness :
    (((({ curRow := 2 } : TermBuffer).putChar 65).setCursor 1 0).deleteLines 1).cellAt 1 0
      = { codepoint := 65, attrs := 0, bgBright := 255 } ∧
    (((({ curRow := 2 } : TermBuffer).putChar 65).setCursor 1 0).deleteLines 1).cellAt 23 0
      = TermCell.blank ∧
    (((({ curRow := 2 } : TermBuffer).putChar 65).setCursor 1 0).deleteLines 1).curRow = 1 ∧
    ((({ } : TermBuffer).setScrollRegion 5 10).deleteLines 3)
      = (({ } : TermBuffer).setScrollRegion 5 10) ∧
    ((({ } : TermBuffer).setScrollRegion 5 10).insertLines 3)
      = (({ } : TermBuffer).setScrollRegion 5 10) := by
  have h := deleteLines_spec ((({ curRow := 2 } : TermBuffer).putChar 65).setCursor 1 0) 1
    (by decide)
  have h' := (deleteLines_spec (({ } : TermBuffer).setScrollRegion 5 10) 3 (by decide)).1
    (by decide!)
  have c1 := h.2.1 (by decide!) (by decide!) (by decide!) (by decide!) 1 0 (by decide) (by decide)
    (by decide) (by decide)
  have c23 := h.2.1 (by decide!) (by decide!) (by decide!) (by decide!) 23 0 (by decide)
    (by decide) (by decide) (by decide)
  refine ⟨c1.trans ?_, c23.trans ?_, h.2.2.1.trans (by decide!), h'.1, h'.2⟩
  · decide!
  · decide!

/-- C20: extended-colour SGR.  For a digit string `ns` denoting `N ≤ 255`, feeding
`ESC [ 38 ; 5 ; ns m` to a parser in Ground changes the buffer only by setting BOLD in the
current attributes, and that exactly when `8 ≤ N < 16` (so `bg_bright` and every other
attribute bit stay, whatever SGR code `N` would be on its own); for digit strings `rs`,
`gs`, `bs` denoting `R, G, B ≤ 255`, feeding `ESC [ 48 ; 2 ; rs ; gs ; bs m` changes the
buffer only in `bg_bright`, which becomes `(77*R + 150*G + 29*B) >> 8`. -/
theorem sgr_extended_colour (p : VtParser) (hs : p.state = State.Ground) :
    (∀ ns : List Nat, (∀ x ∈ ns, isDigit x) → digitsValue ns ≤ 255 →
      (VtParser.feedAll p ([27, 91, 51, 56, 59, 53, 59] ++ ns ++ [109])).buf =
        if 8 ≤ digitsValue ns ∧ digitsValue ns < 16 then
          { p.buf with attrs := (p.buf.attrs ||| TermCell.ATTR_BOLD) % 256 }
        else p.buf) ∧
    (∀ rs gs bs : List Nat, (∀ x ∈ rs, isDigit x) → (∀ x ∈ gs, isDigit x) →
      (∀ x ∈ bs, isDigit x) → digitsValue rs ≤ 255 → digitsValue gs ≤ 255 →
      digitsValue bs ≤ 255 →
      (VtParser.feedAll p
          ([27, 91, 52, 56, 59, 50, 59] ++ rs ++ [59] ++ gs ++ [59] ++ bs ++ [109])).buf =
        { p.buf with
          bgBright := (77 * digitsValue rs + 150 * digitsValue gs + 29 * digitsValue bs) >>> 8 }) := by
  constructor
  · intro ns hn hv
    have h := VtParser.csi_38_5 p hs ns hn (by omega)
    rw [VtParser.feedAll_append]
    generalize VtParser.feedAll p ([27, 91, 51, 56, 59, 53, 59] ++ ns) = s at h
    have hf : VtParser.feedAll s [109] = VtParser.feed s 109 := rfl
    rw [hf, VtParser.feed_final s p _ h 109 (by decide),
      VtParser.dispatchCsi_sgr s h.2.2.2.2.1]
    exact VtParser.handleSgr_38_5 s p _ h
  · intro rs gs bs hr hg hb hrv hgv hbv
    have h := VtParser.csi_48_2 p hs rs gs bs hr hg hb (by omega) (by omega) (by omega)
    rw [VtParser.feedAll_append]
    generalize VtParser.feedAll p
      ([27, 91, 52, 56, 59, 50, 59] ++ rs ++ [59] ++ gs ++ [59] ++ bs) = s at h
    have hf : VtParser.feedAll s [109] = VtParser.feed s 109 := rfl
    rw [hf, VtParser.feed_final s p _ h 109 (by decide),
      VtParser.dispatchCsi_sgr s h.2.2.2.2.1]
    have e := VtParser.handleSgr_48_2 s p _ _ _ h
    simp only [] at e ⊢
    rw [e, lumRGB_small _ _ _ hrv hgv hbv]
    unfold TermBuffer.setBgBright
    rw [Nat.mod_eq_of_lt (lumRGB_lt _ _ _ hrv hgv hbv)]

/-- C20, at concrete inputs: on a buffer with attributes UNDERLINE and `bg_bright` 100,
`ESC [ 38 ; 5 ; 7 m` and `ESC [ 38 ; 5 ; 0 m` change nothing, `ESC [ 38 ; 5 ; 9 m` adds
BOLD, and `ESC [ 48 ; 2 ; 255 ; 128 ; 0 m` sets `bg_bright` to 151. -/
theorem sgr_extended_colour_witness :
    (VtParser.feedAll { buf := { attrs := 4, bgBright := 100 } }
        ([27, 91, 51, 56, 59, 53, 59] ++ [55] ++ [109])).buf
      = { attrs := 4, bgBright := 100 } ∧
    (VtParser.feedAll { buf := { attrs := 4, bgBright := 100 } }
        ([27, 91, 51, 56, 59, 53, 59] ++ [48] ++ [109])).buf
      = { attrs := 4, bgBright := 100 } ∧
    (VtParser.feedAll { buf := { attrs := 4, bgBright := 100 } }
        ([27, 91, 51, 56, 59, 53, 59] ++ [57] ++ [109])).buf.attrs = 5 ∧
    (VtParser.feedAll { buf := { attrs := 4, bgBright := 100 } }
        ([27, 91, 52, 56, 59, 50, 59] ++ [50, 53, 53] ++ [59] ++ [49, 50, 56] ++ [59] ++ [48]
          ++ [109])).buf.bgBright = 151 := by
  have h := sgr_extended_colour { buf := { attrs := 4, bgBright := 100 } } rfl
  have h7 := h.1 [55] (by decide) (by decide)
  have h0 := h.1 [48] (by decide) (by decide)
  have h9 := h.1 [57] (by decide) (by decide)
  have hrgb := h.2 [50, 53, 53] [49, 50, 56] [48] (by decide) (by decide) (by decide)
    (by decide) (by decide) (by decide)
  rw [h7, h0, h9, hrgb]
  exact ⟨by rw [if_neg (by decide)], by rw [if_neg (by decide)],
    by rw [if_pos (by decide)]; decide, by decide⟩

/-- C21: 256-colour luminance.  For a digit string `ns` denoting a palette index `N ≤ 255`,
feeding `ESC [ 48 ; 5 ; ns m` to a parser in Ground changes the buffer only in `bg_bright`,
which becomes the reference value for `N` (table, colour cube or grey ramp), and that
reference value, computed in unbounded arithmetic, is at most 255, so storing it in 8 bits
does not wrap it. -/
theorem sgr_256_background (p : VtParser) (ns : List Nat) (hs : p.state = State.Ground)
    (hn : ∀ x ∈ ns, isDigit x) (hv : digitsValue ns ≤ 255) :
    (VtParser.feedAll p ([27, 91, 52, 56, 59, 53, 59] ++ ns ++ [109])).buf =
      { p.buf with bgBright := lum256Ref (digitsValue ns) } ∧
    lum256Ref (digitsValue ns) ≤ 255 := by
  obtain ⟨e1, e2⟩ := lum256_eq_ref (digitsValue ns) (by omega)
  refine ⟨?_, e2⟩
  have h := VtParser.csi_48_5 p hs ns hn (by omega)
  rw [VtParser.feedAll_append]
  generalize VtParser.feedAll p ([27, 91, 52, 56, 59, 53, 59] ++ ns) = s at h
  have hf : VtParser.feedAll s [109] = VtParser.feed s 109 := rfl
  rw [hf, VtParser.feed_final s p _ h 109 (by decide),
    VtParser.dispatchCsi_sgr s h.2.2.2.2.1]
  have e := VtParser.handleSgr_48_5 s p _ h
  simp only [] at e ⊢
  rw [e, e1]
  unfold TermBuffer.setBgBright
  rw [Nat.mod_eq_of_lt (by omega)]

/-- C21, at concrete inputs: `ESC [ 48 ; 5 ; N m` for `N` = 3, 16, 196, 231, 232 and 255
sets `bg_bright` to 226, 0, 76, 255, 8 and 238. -/
theorem sgr_256_background_witness :
    (VtParser.feedAll { buf := { } } ([27, 91, 52, 56, 59, 53, 59] ++ [51] ++ [109])).buf.bgBright
      = 226 ∧
    (VtParser.feedAll { buf := { } }
      ([27, 91, 52, 56, 59, 53, 59] ++ [49, 54] ++ [109])).buf.bgBright = 0 ∧
    (VtParser.feedAll { buf := { } }
      ([27, 91, 52, 56, 59, 53, 59] ++ [49, 57, 54] ++ [109])).buf.bgBright = 76 ∧
    (VtParser.feedAll { buf := { } }
      ([27, 91, 52, 56, 59, 53, 59] ++ [50, 51, 49] ++ [109])).buf.bgBright = 255 ∧
    (VtParser.feedAll { buf := { } }
      ([27, 91, 52, 56, 59, 53, 59] ++ [50, 51, 50] ++ [109])).buf.bgBright = 8 ∧
    (VtParser.feedAll { buf := { } }
      ([27, 91, 52, 56, 59, 53, 59] ++ [50, 53, 53] ++ [109])).buf.bgBright = 238 := by
  have h3 := (sgr_256_background { buf := { } } [51] rfl (by decide) (by decide)).1
  have h16 := (sgr_256_background { buf := { } } [49, 54] rfl (by decide) (by decide)).1
  have h196 := (sgr_256_background { buf := { } } [49, 57, 54] rfl (by decide) (by decide)).1
  have h231 := (sgr_256_background { buf := { } } [50, 51, 49] rfl (by decide) (by decide)).1
  have h232 := (sgr_256_background { buf := { } } [50, 51, 50] rfl (by decide) (by decide)).1
  have h255 := (sgr_256_background { buf := { } } [50, 53, 53] rfl (by decide) (by decide)).1
  rw [h3, h16, h196, h231, h232, h255]
  exact ⟨by decide, by decide, by decide, by decide, by decide, by decide⟩

/-- C22: Bayer dithering of background pixels.  For every effective background brightness
`bg ≤ 255` the level `L = (bg * 17) >> 8` is at most 16; a background pixel at glyph
coordinates `(gx, gy)` is drawn black iff `L ≤ Bayer[gy & 3][gx & 3]`; in every aligned 4x4
block exactly `16 - L` of the 16 background pixels are black; with `bg = 0` every background
pixel is black and with `bg = 255` every background pixel is white. -/
theorem bayer_dither (bg : Nat) (hbg : bg ≤ 255) :
    ditherLevel bg ≤ 16 ∧
    (∀ (gx gy : Nat) (inv : Bool),
      drawBlack false inv bg gx gy = decide (ditherLevel bg ≤ bayer (gy &&& 3) (gx &&& 3))) ∧
    (∀ bx bi : Nat, blackInBlock bg bx bi = 16 - ditherLevel bg) ∧
    (∀ (gx gy : Nat) (inv : Bool), drawBlack false inv 0 gx gy = true) ∧
    (∀ (gx gy : Nat) (inv : Bool), drawBlack false inv 255 gx gy = false) := by
  have hL := ditherLevel_le bg hbg
  refine ⟨hL, ?_, ?_, ?_, ?_⟩
  · intro gx gy inv
    unfold drawBlack
    simp only [Bool.false_eq_true, if_false]
  · intro bx bi
    rcases blackInBlock_eq bg bx bi with h | h
    · exact h
    · omega
  · intro gx gy inv
    unfold drawBlack
    simp only [Bool.false_eq_true, if_false]
    have e : ditherLevel 0 = 0 := by decide
    rw [e]
    simp
  · intro gx gy inv
    unfold drawBlack
    simp only [Bool.false_eq_true, if_false]
    have e : ditherLevel 255 = 16 := by decide
    rw [e]
    have := bayer_le (gy &&& 3) (and3_lt gy) (gx &&& 3) (and3_lt gx)
    simp only [decide_eq_false_iff_not, not_le]
    omega

/-- C22, at concrete inputs: `bg = 128` has level 8, draws the pixel `(0, 0)` (threshold 0)
white and the pixel `(1, 0)` (threshold 8) black, and blackens 8 of the 16 pixels of the
block at glyph columns 4-7, rows 8-11. -/
theorem bayer_dither_witness :
    ditherLevel 128 = 8 ∧ drawBlack false false 128 0 0 = false ∧
    drawBlack false false 128 1 0 = true ∧ blackInBlock 128 1 2 = 8 := by
  have h := bayer_dither 128 (by decide)
  exact ⟨by decide, (h.2.1 0 0 false).trans (by decide), (h.2.1 1 0 false).trans (by decide),
    (h.2.2.1 1 2).trans (by decide)⟩

/-- C23: SGR inverse end to end.  For every printable byte `x`, feeding `ESC [ 7 m`, `x`,
`ESC [ 0 m` to a fresh terminal (cursor at `(0, 0)`) leaves in cell `(0, 0)` the codepoint
`x` with `attrs = INVERSE` and `bg_bright = 255`, and the current attributes 0 and background
255.  The effective background of that cell is 0, with which the blit draws every glyph
pixel white and every background pixel black; so after `renderRow`'s blit of the cell, for
any font, each pixel of the cell's rectangle is white exactly where the glyph of `x` has a
bit set. -/
theorem sgr_inverse_end_to_end (x : Nat) (hx : 32 ≤ x ∧ x < 127) :
    (freshTerminal.buf.curRow = 0 ∧ freshTerminal.buf.curCol = 0) ∧
    (VtParser.feedAll freshTerminal ([27, 91, 55, 109] ++ [x] ++ [27, 91, 48, 109])).buf.cellAt
        0 0 = { codepoint := x, attrs := TermCell.ATTR_INVERSE, bgBright := 255 } ∧
    (VtParser.feedAll freshTerminal ([27, 91, 55, 109] ++ [x] ++ [27, 91, 48, 109])).buf.attrs
      = 0 ∧
    (VtParser.feedAll freshTerminal ([27, 91, 55, 109] ++ [x] ++ [27, 91, 48, 109])).buf.bgBright
      = 255 ∧
    effectiveBg ((VtParser.feedAll freshTerminal
      ([27, 91, 55, 109] ++ [x] ++ [27, 91, 48, 109])).buf.cellAt 0 0) = 0 ∧
    (∀ (glyphPixel : Bool) (gx gy : Nat),
      drawBlack glyphPixel
        (decide (effectiveBg ((VtParser.feedAll freshTerminal
          ([27, 91, 55, 109] ++ [x] ++ [27, 91, 48, 109])).buf.cellAt 0 0) < 128))
        (effectiveBg ((VtParser.feedAll freshTerminal
          ([27, 91, 55, 109] ++ [x] ++ [27, 91, 48, 109])).buf.cellAt 0 0)) gx gy
        = !glyphPixel) ∧
    (∀ (font : TermFont) (fb : FrameBuffer) (gx gy : Nat), gx < 10 → gy < 20 →
      (renderCell font (VtParser.feedAll freshTerminal
          ([27, 91, 55, 109] ++ [x] ++ [27, 91, 48, 109])).buf 0 0 fb).pixel
          (TERM_OFFSET_X + gx) gy
        = isGlyphPixel font (font.getGlyph x) gx gy) := by
  obtain ⟨h1, h2, h3⟩ := inverse_char_buf x hx
  have hbg : effectiveBg ((VtParser.feedAll freshTerminal
      ([27, 91, 55, 109] ++ [x] ++ [27, 91, 48, 109])).buf.cellAt 0 0) = 0 := by
    rw [h1]
    unfold effectiveBg
    simp only []
    rw [if_pos (show TermCell.ATTR_INVERSE &&& TermCell.ATTR_INVERSE ≠ 0 by decide)]
  refine ⟨by rw [freshTerminal_eq]; exact ⟨rfl, rfl⟩, h1, h2, h3, hbg, ?_, ?_⟩
  · intro gp gx gy
    rw [hbg]
    exact drawBlack_dark gp gx gy
  · intro font fb gx gy hgx hgy
    have c1 : TERM_OFFSET_X = 10 := rfl
    rw [renderCell_eq font _ fb 0 0 (by decide) (by decide), hbg, h1, c1]
    obtain ⟨-, -, p3⟩ := blitGlyph_spec font fb (font.getGlyph x) 0 (decide ((0 : Nat) < 128))
      (10 + 0 * 10) (0 * 20) (by decide) (by decide)
    rw [p3 (10 + (gx : Int)) gy (by omega) (by omega), if_pos (by omega)]
    have e1 : ((10 : Int) + gx - (10 + 0 * 10)).toNat = gx := by omega
    have e2 : ((gy : Int) - 0 * 20).toNat = gy := by omega
    rw [e1, e2]
    unfold glyphBlack
    rw [drawBlack_dark, Bool.not_not]

/-- C23, at a concrete input: `ESC [ 7 m X ESC [ 0 m`. With a font whose glyph for `X` has
only the top-left bit of each row byte set (byte `0x80`), the blit of cell `(0, 0)` onto an
all-black framebuffer makes pixel `(10, 0)` white and leaves pixel `(11, 0)` black. -/
theorem sgr_inverse_end_to_end_witness :
    (VtParser.feedAll freshTerminal ([27, 91, 55, 109] ++ [88] ++ [27, 91, 48, 109])).buf.cellAt
        0 0 = { codepoint := 88, attrs := 2, bgBright := 255 } ∧
    (renderCell { BYTES_PER_ROW := 2, getGlyph := fun _ i => if i % 2 = 0 then 128 else 0 }
        (VtParser.feedAll freshTerminal ([27, 91, 55, 109] ++ [88] ++ [27, 91, 48, 109])).buf
        0 0 { bytes := fun _ => 0 }).pixel (TERM_OFFSET_X + (0 : Nat)) (0 : Nat) = true ∧
    (renderCell { BYTES_PER_ROW := 2, getGlyph := fun _ i => if i % 2 = 0 then 128 else 0 }
        (VtParser.feedAll freshTerminal ([27, 91, 55, 109] ++ [88] ++ [27, 91, 48, 109])).buf
        0 0 { bytes := fun _ => 0 }).pixel (TERM_OFFSET_X + (1 : Nat)) (0 : Nat) = false := by
  have h := sgr_inverse_end_to_end 88 (by decide)
  refine ⟨h.2.1, (h.2.2.2.2.2.2 _ _ 0 0 (by decide) (by decide)).trans (by decide),
    (h.2.2.2.2.2.2 _ _ 1 0 (by decide) (by decide)).trans (by decide)⟩

/-- C24: partial-render refresh choice.  In a state where only grid rows are dirty, the
cursor and the previous cursor row are grid rows (or there is no previous cursor) and the
refresh counter is in `[0, 19]`, let `D` be `refreshRows`: the dirty rows united with the
previous cursor row.  If `D` is empty `renderDirty` returns the state as it is (no command).
Otherwise it appends one command, followed by `display_buffer(FULL_REFRESH)` exactly when
the counter reaches 20: `display_buffer(FAST_REFRESH)` if `|D| > 5`, else
`display_window(0, min * FONT_H, DISPLAY_W, (max - min + 1) * FONT_H)` with `min` and `max`
the least and greatest row of `D` united with the cursor row; that window lies in
`[0, DISPLAY_H]` and holds the pixel rows of every row of `D` and of the cursor row.
Afterwards the dirty set is empty and the previous cursor is the current cursor. -/
theorem renderDirty_refresh_choice (font : TermFont) (r : TermRenderer)
    (hd : r.buf.dirtyRows < 2 ^ 24) (hc : 0 ≤ r.buf.curRow ∧ r.buf.curRow < TERM_ROWS)
    (hl : -1 ≤ r.lastCursorRow ∧ r.lastCursorRow < TERM_ROWS)
    (hf : 0 ≤ r.fastRefreshCount ∧ r.fastRefreshCount < FULL_REFRESH_INTERVAL) :
    (r.refreshRows = ∅ → TermRenderer.renderDirty font r = r) ∧
    (r.refreshRows ≠ ∅ →
      (∃ cmd : DisplayCmd,
        (TermRenderer.renderDirty font r).display.commands =
          r.display.commands ++ [cmd] ++
            (if r.fastRefreshCount + 1 ≥ FULL_REFRESH_INTERVAL then
              [DisplayCmd.displayBuffer RefreshMode.FULL_REFRESH] else []) ∧
        ((r.refreshRows.card : Int) > DIRTY_ROWS_PARTIAL_MAX →
          cmd = DisplayCmd.displayBuffer RefreshMode.FAST_REFRESH) ∧
        ((r.refreshRows.card : Int) ≤ DIRTY_ROWS_PARTIAL_MAX →
          ∃ mn mx : Int,
            cmd = DisplayCmd.displayWindow 0 (mn * TERM_FONT_H) DISPLAY_W
              ((mx - mn + 1) * TERM_FONT_H) ∧
            (mn = r.buf.curRow ∨ ∃ i ∈ r.refreshRows, mn = (i : Int)) ∧
            mn ≤ r.buf.curRow ∧ (∀ i ∈ r.refreshRows, mn ≤ (i : Int)) ∧
            (mx = r.buf.curRow ∨ ∃ i ∈ r.refreshRows, mx = (i : Int)) ∧
            r.buf.curRow ≤ mx ∧ (∀ i ∈ r.refreshRows, (i : Int) ≤ mx) ∧
            0 ≤ mn * TERM_FONT_H ∧
            mn * TERM_FONT_H + (mx - mn + 1) * TERM_FONT_H ≤ DISPLAY_H ∧
            (∀ row : Int, (row = r.buf.curRow ∨ ∃ i ∈ r.refreshRows, row = (i : Int)) →
              mn * TERM_FONT_H ≤ row * TERM_FONT_H ∧
              row * TERM_FONT_H + TERM_FONT_H
                ≤ mn * TERM_FONT_H + (mx - mn + 1) * TERM_FONT_H))) ∧
      (TermRenderer.renderDirty font r).buf.dirtyRows = 0 ∧
      (TermRenderer.renderDirty font r).lastCursorRow = r.buf.curRow ∧
      (TermRenderer.renderDirty font r).lastCursorCol = r.buf.curCol) := by
  rw [TERM_ROWS_eq] at hc hl
  have c1 : FULL_REFRESH_INTERVAL = 20 := rfl
  have c2 : DIRTY_ROWS_PARTIAL_MAX = 5 := rfl
  have c3 : TERM_FONT_H = 20 := rfl
  have c4 : DISPLAY_H = 480 := rfl
  rw [c1] at hf
  obtain ⟨hcard, hzero⟩ := TermRenderer.dirtyMask_card r hd hl
  constructor
  · intro he
    unfold TermRenderer.renderDirty
    rw [if_pos (hzero.mpr he)]
  · intro hne
    have hm : TermRenderer.dirtyMask r ≠ 0 := fun h => hne (hzero.mp h)
    obtain ⟨f1, -, f3, f4, f5, -⟩ := TermRenderer.renderDirty_fields font r hm
    have hw : wrapInt (r.fastRefreshCount + 1) = r.fastRefreshCount + 1 :=
      TermBuffer.wrapInt_small (by omega)
    rw [hw, hcard] at f1
    refine ⟨?_, by rw [f3]; rfl, f4, f5⟩
    by_cases hbig : (r.refreshRows.card : Int) > DIRTY_ROWS_PARTIAL_MAX
    · refine ⟨DisplayCmd.displayBuffer RefreshMode.FAST_REFRESH, ?_, fun _ => rfl,
        fun h => absurd hbig (not_lt.mpr h)⟩
      rw [f1, if_pos hbig]
      split_ifs <;> simp
    · obtain ⟨mn, mx, w, m1, m2, m3, x1, x2, x3, b1, b2⟩ :=
        TermRenderer.updateWindow_spec r hd hc hl hm
      refine ⟨DisplayCmd.displayWindow 0 (mn * 20) DISPLAY_W ((mx - mn + 1) * 20), ?_,
        fun h => absurd h hbig, fun _ => ⟨mn, mx, by rw [c3], m1, m2, m3, x1, x2, x3, ?_, ?_, ?_⟩⟩
      · rw [f1, if_neg hbig, w]
        split_ifs <;> simp
      · rw [c3]; omega
      · rw [c3, c4]; omega
      · intro row hrow
        rw [c3]
        rcases hrow with h | ⟨i, hi, h⟩
        · omega
        · have := m3 i hi
          have := x3 i hi
          omega

/-- C24, at a concrete input: rows 2 and 3 dirty, the cursor in row 5, the previous cursor
in row 1 and the counter at 7.  `D = {1, 2, 3}` has 3 rows, so the command is the window
from row 1 to row 5, `display_window(0, 20, 800, 100)`; the dirty set ends empty and the
previous cursor row is 5. -/
theorem renderDirty_refresh_choice_witness :
    (TermRenderer.renderDirty { BYTES_PER_ROW := 2, getGlyph := fun _ _ => 0 }
        { display := { frameBuffer := { bytes := fun _ => 0 } },
          buf := { dirtyRows := 12, curRow := 5 },
          fastRefreshCount := 7, lastCursorRow := 1, lastCursorCol := 0 }).display.commands
      = [DisplayCmd.displayWindow 0 20 800 100] ∧
    (TermRenderer.renderDirty { BYTES_PER_ROW := 2, getGlyph := fun _ _ => 0 }
        { display := { frameBuffer := { bytes := fun _ => 0 } },
          buf := { dirtyRows := 12, curRow := 5 },
          fastRefreshCount := 7, lastCursorRow := 1, lastCursorCol := 0 }).buf.dirtyRows = 0 ∧
    (TermRenderer.renderDirty { BYTES_PER_ROW := 2, getGlyph := fun _ _ => 0 }
        { display := { frameBuffer := { bytes := fun _ => 0 } },
          buf := { dirtyRows := 12, curRow := 5 },
          fastRefreshCount := 7, lastCursorRow := 1, lastCursorCol := 0 }).lastCursorRow = 5 := by
  have h := (renderDirty_refresh_choice { BYTES_PER_ROW := 2, getGlyph := fun _ _ => 0 }
    { display := { frameBuffer := { bytes := fun _ => 0 } },
      buf := { dirtyRows := 12, curRow := 5 },
      fastRefreshCount := 7, lastCursorRow := 1, lastCursorCol := 0 }
    (by decide) (by decide) (by decide) (by decide)).2 (by decide)
  exact ⟨by decide, h.2.1, h.2.2.1⟩

/-- C25: periodic ghost-clearing refresh.  After every sequence of `renderDirty` and
`renderFull` calls on a freshly constructed renderer (whatever the buffer holds at each
call), `fast_refresh_count` lies in `[0, FULL_REFRESH_INTERVAL - 1]` and equals the number of
refreshing calls since the last full refresh, so that number never reaches 20.  A following
`renderDirty` that issues a command issues `display_buffer(FULL_REFRESH)` iff it is the 20th
such call since the last full refresh, and then leaves the counter 0; a following
`renderFull` issues exactly `display_buffer(FULL_REFRESH)` and leaves the counter 0. -/
theorem periodic_full_refresh (font : TermFont) (d : EInkDisplay) (b : TermBuffer)
    (calls : List RenderCall) :
    0 ≤ (TermRenderer.run font { display := d, buf := b } calls).fastRefreshCount ∧
    (TermRenderer.run font { display := d, buf := b } calls).fastRefreshCount
      ≤ FULL_REFRESH_INTERVAL - 1 ∧
    (TermRenderer.run font { display := d, buf := b } calls).fastRefreshCount
      = (TermRenderer.sinceFull font { display := d, buf := b } calls 0 : Nat) ∧
    (∀ b1 : TermBuffer,
      TermRenderer.issued font (TermRenderer.run font { display := d, buf := b } calls)
        (RenderCall.renderDirty b1) ≠ [] →
      (DisplayCmd.displayBuffer RefreshMode.FULL_REFRESH ∈
          TermRenderer.issued font (TermRenderer.run font { display := d, buf := b } calls)
            (RenderCall.renderDirty b1) ↔
        TermRenderer.sinceFull font { display := d, buf := b } calls 0 + 1 = 20) ∧
      (DisplayCmd.displayBuffer RefreshMode.FULL_REFRESH ∈
          TermRenderer.issued font (TermRenderer.run font { display := d, buf := b } calls)
            (RenderCall.renderDirty b1) →
        (TermRenderer.call font (TermRenderer.run font { display := d, buf := b } calls)
          (RenderCall.renderDirty b1)).fastRefreshCount = 0)) ∧
    (∀ b1 : TermBuffer,
      TermRenderer.issued font (TermRenderer.run font { display := d, buf := b } calls)
        (RenderCall.renderFull b1) = [DisplayCmd.displayBuffer RefreshMode.FULL_REFRESH] ∧
      (TermRenderer.call font (TermRenderer.run font { display := d, buf := b } calls)
        (RenderCall.renderFull b1)).fastRefreshCount = 0) := by
  obtain ⟨h1, h2, h3⟩ := TermRenderer.run_counter font calls { display := d, buf := b } 0
    ⟨le_refl _, by show (0 : Int) ≤ 19; decide⟩ rfl
  generalize TermRenderer.run font { display := d, buf := b } calls = R at h1 h2 h3
  generalize TermRenderer.sinceFull font { display := d, buf := b } calls 0 = n at h3
  have c1 : FULL_REFRESH_INTERVAL = 20 := rfl
  refine ⟨h1, by rw [c1]; omega, h3, ?_, ?_⟩
  · intro b1 hne
    obtain ⟨hz, hnz⟩ := (TermRenderer.call_spec font R (RenderCall.renderDirty b1) ⟨h1, h2⟩).2
      b1 rfl
    have hm : TermRenderer.dirtyMask { R with buf := b1 } ≠ 0 := fun h0 => hne (hz h0).1
    obtain ⟨-, i2, i3⟩ := hnz hm
    constructor
    · rw [i2]; omega
    · intro hmem
      rw [i3, if_pos (i2.mp hmem)]
  · intro b1
    exact (TermRenderer.call_spec font R (RenderCall.renderFull b1) ⟨h1, h2⟩).1 b1 rfl

/-- C26: `deleteChars` does not clamp its count.  After `AB` the cursor is at `(0, 2)`;
`ESC [ 77 P` runs `deleteChars(77)`, whose clearing loop starts at column `78 - 77 = 1`, left
of the cursor: cell `(0, 1)` changes from `'B'` to blank.  With `'A'` in cell `(1, 0)` and the
cursor at `(2, 0)`, `ESC [ 156 P` starts clearing at column `78 - 156 = -78` of row 2, which
is cell `(1, 0)`: a cell of another row changes from `'A'` to blank. -/
theorem deleteChars_clears_outside_tail :
    (feedAll freshTerminal [65, 66]).buf.curCol = 2 ∧
    (feedAll freshTerminal [65, 66]).buf.cellAt 0 1
      = { codepoint := 66, attrs := 0, bgBright := 255 } ∧
    (feedAll freshTerminal [65, 66, 27, 91, 55, 55, 80]).buf.cellAt 0 1 = TermCell.blank ∧
    (feedAll freshTerminal [27, 91, 50, 59, 49, 72, 65, 27, 91, 51, 59, 49, 72]).buf.curRow = 2 ∧
    (feedAll freshTerminal [27, 91, 50, 59, 49, 72, 65, 27, 91, 51, 59, 49, 72]).buf.cellAt 1 0
      = { codepoint := 65, attrs := 0, bgBright := 255 } ∧
    (feedAll freshTerminal [27, 91, 50, 59, 49, 72, 65, 27, 91, 51, 59, 49, 72,
      27, 91, 49, 53, 54, 80]).buf.cellAt 1 0 = TermCell.blank := by
  rw [freshTerminal_eq]
  decide!

/-- C27: an empty first field is not counted.  `ESC [ ; 5 H` fed to a fresh terminal: the
`;` read at count 0 makes the count 1, so the digit 5 is stored as the first parameter and
there is no second one; the cursor goes to row 4, column 0, not to row 0, column 4, where
`ESC [ 1 ; 5 H` and `ESC [ 0 ; 5 H` put it. -/
theorem empty_first_field_shifts :
    (feedAll freshTerminal [27, 91, 59, 53]).paramCount = 1 ∧
    (feedAll freshTerminal [27, 91, 59, 53]).params 0 = 5 ∧
    (feedAll freshTerminal [27, 91, 59, 53, 72]).buf.curRow = 4 ∧
    (feedAll freshTerminal [27, 91, 59, 53, 72]).buf.curCol = 0 ∧
    (feedAll freshTerminal [27, 91, 49, 59, 53, 72]).buf.curRow = 0 ∧
    (feedAll freshTerminal [27, 91, 49, 59, 53, 72]).buf.curCol = 4 ∧
    (feedAll freshTerminal [27, 91, 48, 59, 53, 72]).buf.curRow = 0 ∧
    (feedAll freshTerminal [27, 91, 48, 59, 53, 72]).buf.curCol = 4 := by
  rw [freshTerminal_eq]
  decide!

/-- C28: the glyph blit stays inside the framebuffer and inside its cell.  For every grid
position `(row, col)`, the blit that `renderRow` does for that cell, at pixel origin
`(OFFSET_X + col * FONT_W, row * FONT_H)`, stores to exactly 200 framebuffer bytes, one per
pixel of the cell's 10 x 20 rectangle (so neither clipping branch is taken), each at the
index `y * (DISPLAY_W / 8) + x / 8` of such a pixel, which lies in `[0, 48000)`; afterwards
each pixel of the rectangle holds the colour the blit decided for it (bit `7 - x mod 8` of
that byte, 1 for white), every other pixel of the display is as before, and so is every
byte outside the framebuffer. -/
theorem blit_inside_cell (font : TermFont) (buf : TermBuffer) (fb : FrameBuffer)
    (row col : Int) (hr : 0 ≤ row ∧ row < TERM_ROWS) (hc : 0 ≤ col ∧ col < TERM_COLS) :
    (∃ new : List Int,
      (renderCell font buf row col fb).stores = fb.stores ++ new ∧
      new.length = TERM_FONT_W * TERM_FONT_H ∧
      ∀ i ∈ new, (0 ≤ i ∧ i < DISPLAY_W / 8 * DISPLAY_H) ∧
        ∃ x y : Int, TERM_OFFSET_X + col * TERM_FONT_W ≤ x ∧
          x < TERM_OFFSET_X + col * TERM_FONT_W + TERM_FONT_W ∧
          row * TERM_FONT_H ≤ y ∧ y < row * TERM_FONT_H + TERM_FONT_H ∧
          i = y * (DISPLAY_W / 8) + x / 8) ∧
    (∀ i : Int, ¬ (0 ≤ i ∧ i < DISPLAY_W / 8 * DISPLAY_H) →
      (renderCell font buf row col fb).bytes i = fb.bytes i) ∧
    (∀ x y : Int, TERM_OFFSET_X + col * TERM_FONT_W ≤ x →
      x < TERM_OFFSET_X + col * TERM_FONT_W + TERM_FONT_W →
      row * TERM_FONT_H ≤ y → y < row * TERM_FONT_H + TERM_FONT_H →
      (renderCell font buf row col fb).pixel x y =
        !glyphBlack font (font.getGlyph (buf.cellAt row col).codepoint)
          (effectiveBg (buf.cellAt row col)) (decide (effectiveBg (buf.cellAt row col) < 128))
          (x - (TERM_OFFSET_X + col * TERM_FONT_W)).toNat (y - row * TERM_FONT_H).toNat) ∧
    (∀ x y : Int, 0 ≤ x → x < DISPLAY_W →
      ¬ (TERM_OFFSET_X + col * TERM_FONT_W ≤ x ∧
          x < TERM_OFFSET_X + col * TERM_FONT_W + TERM_FONT_W ∧
          row * TERM_FONT_H ≤ y ∧ y < row * TERM_FONT_H + TERM_FONT_H) →
      (renderCell font buf row col fb).pixel x y = fb.pixel x y) := by
  rw [TERM_ROWS_eq] at hr
  rw [TERM_COLS_eq] at hc
  have c1 : TERM_OFFSET_X = 10 := rfl
  have c2 : TERM_FONT_W = 10 := rfl
  have c3 : TERM_FONT_H = 20 := rfl
  have c4 : DISPLAY_W = 800 := rfl
  have c5 : DISPLAY_H = 480 := rfl
  have w1 : wrapInt (col * 10) = col * 10 := TermBuffer.wrapInt_small (by omega)
  have w2 : wrapInt (10 + col * 10) = 10 + col * 10 := TermBuffer.wrapInt_small (by omega)
  have w3 : wrapInt (row * 20) = row * 20 := TermBuffer.wrapInt_small (by omega)
  have e : renderCell font buf row col fb =
      blitGlyph font fb (10 + col * 10) (row * 20) (font.getGlyph (buf.cellAt row col).codepoint)
        (effectiveBg (buf.cellAt row col)) (decide (effectiveBg (buf.cellAt row col) < 128)) := by
    unfold renderCell
    simp only [c1, c2, c3, w1, w2, w3]
  obtain ⟨⟨new, p1, p1l, p1m⟩, p2, p3⟩ := blitGlyph_spec font fb
    (font.getGlyph (buf.cellAt row col).codepoint) (effectiveBg (buf.cellAt row col))
    (decide (effectiveBg (buf.cellAt row col) < 128)) (10 + col * 10) (row * 20)
    (by omega) (by omega)
  rw [e]
  simp only [c1, c2, c3, c4, c5]
  refine ⟨⟨new, p1, by rw [p1l]; rfl, ?_⟩, ?_, ?_, ?_⟩
  · intro i hi
    obtain ⟨x, y, x1, x2, y1, y2, hi'⟩ := p1m i hi
    refine ⟨by omega, x, y, x1, x2, y1, y2, ?_⟩
    rw [hi']
    rfl
  · intro i hi
    exact p2 i (by omega)
  · intro x y x1 x2 y1 y2
    rw [p3 x y (by omega) (by omega), if_pos ⟨y1, y2, x1, x2⟩]
  · intro x y x1 x2 hn
    rw [p3 x y x1 x2, if_neg (fun h => hn ⟨h.2.2.1, h.2.2.2, h.1, h.2.1⟩)]

/-- C28, at a concrete input: the blank cell in the bottom right corner `(23, 77)`, blitted
onto an all-black framebuffer with a font without set glyph bits.  The cell's last pixel
`(789, 479)` becomes white, its right neighbour `(790, 479)` stays black, and the byte
behind the framebuffer, index 48000, is untouched. -/
theorem blit_inside_cell_witness :
    (renderCell { BYTES_PER_ROW := 2, getGlyph := fun _ _ => 0 } { } 23 77
        { bytes := fun _ => 0 }).pixel 789 479 = true ∧
    (renderCell { BYTES_PER_ROW := 2, getGlyph := fun _ _ => 0 } { } 23 77
        { bytes := fun _ => 0 }).pixel 790 479 = false ∧
    (renderCell { BYTES_PER_ROW := 2, getGlyph := fun _ _ => 0 } { } 23 77
        { bytes := fun _ => 0 }).bytes 48000 = 0 := by
  have h := blit_inside_cell { BYTES_PER_ROW := 2, getGlyph := fun _ _ => 0 } { }
    { bytes := fun _ => 0 } 23 77 (by decide) (by decide)
  refine ⟨(h.2.2.1 789 479 (by decide) (by decide) (by decide) (by decide)).trans (by decide),
    (h.2.2.2 790 479 (by decide) (by decide) (by decide)).trans (by decide),
    (h.2.1 48000 (by decide)).trans rfl⟩

end X4Term
